import Mathlib

/-!
Verification development for the gerberts library (a Gerber RS-274X
parser, serializer and SVG renderer).  The TypeScript sources under
`src/lib` are shallowly embedded: JavaScript strings become `List Char`,
JavaScript numbers produced by `parseInt` become `Nat`/`Int`, numbers
produced by `parseFloat` become `Option ℚ` (with `none` playing the role
of `NaN`), and each regular expression used by the source is replaced by
an explicit scanning function implementing the same match semantics on
the inputs the source applies it to.
-/

namespace Gerberts

/-- JavaScript strings are modelled as lists of characters. -/
abbrev Str := List Char

/-- The whitespace characters skipped between tokens by
`Tokenizer.skipWhitespaceAndNewlines` (exactly space, tab, CR, LF). -/
def isTokWs (c : Char) : Bool :=
  c = ' ' || c = '\t' || c = '\r' || c = '\n'

/-- ASCII whitespace as matched by the JavaScript regex class `\s`
(restricted to the ASCII range, which is all the tokenizer can feed it). -/
def isJsWs (c : Char) : Bool :=
  c = ' ' || c = '\t' || c = '\n' || c = '\r' || c = '\x0b' || c = '\x0c'

/-- Word-start characters of the regex class `[A-Za-z_]`. -/
def isWordStart (c : Char) : Bool :=
  ('A' ≤ c && c ≤ 'Z') || ('a' ≤ c && c ≤ 'z') || c = '_'

/-- Word characters of the regex class `[A-Za-z0-9_]`. -/
def isWordChar (c : Char) : Bool :=
  isWordStart c || c.isDigit

/-- `hasPre p s` is JavaScript `s.startsWith(p)` (pattern first). -/
def hasPre : Str → Str → Bool
  | [], _ => true
  | _ :: _, [] => false
  | p :: ps, c :: cs => p = c && hasPre ps cs

theorem hasPre_length {p s : Str} (h : hasPre p s = true) : p.length ≤ s.length := by
  induction p generalizing s with
  | nil => simp
  | cons a ps ih =>
    cases s with
    | nil => simp [hasPre] at h
    | cons c cs =>
      simp only [hasPre, Bool.and_eq_true] at h
      simpa [Nat.succ_le_succ_iff] using ih h.2

theorem hasPre_iff_append {p s : Str} : hasPre p s = true ↔ ∃ r, s = p ++ r := by
  induction p generalizing s with
  | nil => simp [hasPre]
  | cons a ps ih =>
    cases s with
    | nil => simp [hasPre]
    | cons c cs =>
      simp only [hasPre, Bool.and_eq_true, decide_eq_true_eq, ih]
      constructor
      · rintro ⟨rfl, r, rfl⟩; exact ⟨r, rfl⟩
      · rintro ⟨r, hr⟩
        rw [List.cons_append] at hr
        injection hr with h1 h2
        exact ⟨h1.symm, r, h2⟩

@[simp] theorem hasPre_append (p r : Str) : hasPre p (p ++ r) = true := by
  exact hasPre_iff_append.mpr ⟨r, rfl⟩

-- ===========================================================================
-- Decimal digits: parsing (parseInt) and printing (JS number-to-string)
-- ===========================================================================

/-- Numeric value of a digit character. -/
def digitVal (c : Char) : ℕ := c.toNat - 48

/-- The character for a single decimal digit. -/
def digitChar (d : ℕ) : Char := Char.ofNat (48 + d)

/-- `parseInt(s, 10)` on a pure digit string.  Exact over `ℕ`, whereas the
JS result is rounded to the nearest IEEE-754 double and is exact only below
`2^53`; the round-trip theorem for C1 therefore carries the `numRunsOK`
side condition, which keeps every integer literal at 15 digits or fewer —
a range on which this definition and `parseInt` agree. -/
def parseNatDigits (s : Str) : ℕ :=
  s.foldl (fun a c => 10 * a + digitVal c) 0

/-- `parseInt(s, 10)` on a `[+-]?` sign followed by digits. -/
def parseIntSigned : Str → ℤ
  | '-' :: ds => -(parseNatDigits ds : ℤ)
  | '+' :: ds => (parseNatDigits ds : ℤ)
  | ds => (parseNatDigits ds : ℤ)

/-- Digits of `n` most significant first (empty for 0); fuelled so that it
is structurally recursive and reduces definitionally. -/
def natDigitsFuel : ℕ → ℕ → Str
  | 0, _ => []
  | f + 1, n => if n = 0 then [] else natDigitsFuel f (n / 10) ++ [digitChar (n % 10)]

/-- JavaScript `String(n)` for a non-negative integer below `10^21`: the
full decimal digit string.  From `10^21` on, JS `String` switches to
exponential notation (`"1e+21"`), which this definition does not model;
the round-trip theorem for C1 carries the `numRunsOK` side condition,
which keeps every value printed through here below `10^15`. -/
def printNat (n : ℕ) : Str :=
  if n = 0 then ['0'] else natDigitsFuel (n + 1) n

/-- JavaScript `String(z)` for an integer of magnitude below `10^21`
(see `printNat` for the exponential-notation caveat beyond that). -/
def printInt : ℤ → Str
  | .ofNat n => printNat n
  | .negSucc n => '-' :: printNat (n + 1)

theorem natDigitsFuel_congr : ∀ n f g, n < f → n < g →
    natDigitsFuel f n = natDigitsFuel g n := by
  intro n
  induction n using Nat.strong_induction_on with
  | _ n ih =>
    intro f g hf hg
    match f, g with
    | f + 1, g + 1 =>
      by_cases hn : n = 0
      · simp [natDigitsFuel, hn]
      · have hlt : n / 10 < n := Nat.div_lt_self (Nat.pos_of_ne_zero hn) (by norm_num)
        have h1 : n / 10 < f := lt_of_lt_of_le hlt (Nat.lt_succ_iff.mp hf)
        have h2 : n / 10 < g := lt_of_lt_of_le hlt (Nat.lt_succ_iff.mp hg)
        simp only [natDigitsFuel, hn, if_false]
        rw [ih (n / 10) hlt f g h1 h2]

theorem parseNatDigits_append (a b : Str) :
    parseNatDigits (a ++ b) = b.foldl (fun x c => 10 * x + digitVal c) (parseNatDigits a) := by
  simp [parseNatDigits, List.foldl_append]

theorem parseNatDigits_snoc (a : Str) (c : Char) :
    parseNatDigits (a ++ [c]) = 10 * parseNatDigits a + digitVal c := by
  simp [parseNatDigits, List.foldl_append]

theorem digitVal_digitChar {d : ℕ} (h : d < 10) : digitVal (digitChar d) = d := by
  interval_cases d <;> rfl

theorem digitChar_isDigit {d : ℕ} (h : d < 10) : (digitChar d).isDigit = true := by
  interval_cases d <;> rfl

theorem parseNatDigits_natDigitsFuel : ∀ n f, n < f →
    parseNatDigits (natDigitsFuel f n) = n := by
  intro n
  induction n using Nat.strong_induction_on with
  | _ n ih =>
    intro f hf
    match f with
    | f + 1 =>
      by_cases hn : n = 0
      · simp [natDigitsFuel, hn, parseNatDigits]
      · have hlt : n / 10 < n := Nat.div_lt_self (Nat.pos_of_ne_zero hn) (by norm_num)
        simp only [natDigitsFuel, hn, if_false]
        rw [parseNatDigits_snoc, ih (n / 10) hlt f (lt_of_lt_of_le hlt (Nat.lt_succ_iff.mp hf)),
          digitVal_digitChar (Nat.mod_lt n (by norm_num))]
        omega

theorem parseNatDigits_printNat (n : ℕ) : parseNatDigits (printNat n) = n := by
  by_cases hn : n = 0
  · simp [printNat, hn, parseNatDigits, digitVal]
  · simp only [printNat, hn, if_false]
    exact parseNatDigits_natDigitsFuel n (n + 1) (Nat.lt_succ_self n)

theorem natDigitsFuel_digits : ∀ n f c, c ∈ natDigitsFuel f n → c.isDigit = true := by
  intro n
  induction n using Nat.strong_induction_on with
  | _ n ih =>
    intro f c hc
    match f with
    | 0 => simp [natDigitsFuel] at hc
    | f + 1 =>
      by_cases hn : n = 0
      · simp [natDigitsFuel, hn] at hc
      · simp only [natDigitsFuel, hn, if_false, List.mem_append, List.mem_singleton] at hc
        rcases hc with hc | hc
        · exact ih (n / 10) (Nat.div_lt_self (Nat.pos_of_ne_zero hn) (by norm_num)) f c hc
        · subst hc; exact digitChar_isDigit (Nat.mod_lt n (by norm_num))

theorem printNat_digits {n : ℕ} {c : Char} (hc : c ∈ printNat n) : c.isDigit = true := by
  by_cases hn : n = 0
  · simp [printNat, hn] at hc; subst hc; rfl
  · simp only [printNat, hn, if_false] at hc
    exact natDigitsFuel_digits n (n + 1) c hc

theorem printNat_ne_nil (n : ℕ) : printNat n ≠ [] := by
  by_cases hn : n = 0
  · simp [printNat, hn]
  · simp only [printNat, hn, if_false]
    match hh : n, hn with
    | m + 1, _ =>
      simp [natDigitsFuel]

-- ===========================================================================
-- Rationals: JS parseFloat and number-to-string, idealized over ℚ
-- ===========================================================================

/-- A rational is decimal when some power of ten clears its denominator;
every number produced by the modelled `parseFloat` is of this form. -/
def IsDec (q : ℚ) : Prop := ∃ k, q.den ∣ 10 ^ k

theorem dvd_ten_pow_of_dvd {d k : ℕ} (h : d ∣ 10 ^ k) : d ∣ 10 ^ d := by
  have h25 : d ∣ 2 ^ k * 5 ^ k := by
    have : (10 : ℕ) ^ k = 2 ^ k * 5 ^ k := by rw [← Nat.mul_pow]
    rwa [this] at h
  obtain ⟨a, b, ha, hb, hab⟩ := Nat.dvd_mul.mp h25
  obtain ⟨i, hik, rfl⟩ := (Nat.dvd_prime_pow Nat.prime_two).mp ha
  obtain ⟨j, hjk, rfl⟩ := (Nat.dvd_prime_pow (by norm_num : Nat.Prime 5)).mp hb
  have hi : i ≤ 2 ^ i * 5 ^ j := by
    calc i ≤ 2 ^ i := Nat.le_of_lt (Nat.lt_two_pow i)
    _ ≤ 2 ^ i * 5 ^ j := Nat.le_mul_of_pos_right _ (Nat.pos_pow_of_pos j (by norm_num))
  have hj : j ≤ 2 ^ i * 5 ^ j := by
    calc j ≤ 5 ^ j := Nat.le_of_lt (Nat.lt_pow_self (by norm_num) j)
    _ ≤ 2 ^ i * 5 ^ j := Nat.le_mul_of_pos_left _ (Nat.pos_pow_of_pos i (by norm_num))
  rw [← hab]
  calc 2 ^ i * 5 ^ j ∣ 2 ^ (2 ^ i * 5 ^ j) * 5 ^ (2 ^ i * 5 ^ j) :=
    mul_dvd_mul (pow_dvd_pow 2 hi) (pow_dvd_pow 5 hj)
  _ = 10 ^ (2 ^ i * 5 ^ j) := by rw [← Nat.mul_pow]

/-- The number of fractional digits JS would print for a decimal rational:
the least power of ten clearing the denominator. -/
def decExp (q : ℚ) : ℕ :=
  (((List.range (q.den + 1)).find? (fun k => decide (q.den ∣ 10 ^ k))).getD 0)

theorem decExp_dvd {q : ℚ} (h : IsDec q) : q.den ∣ 10 ^ decExp q := by
  obtain ⟨k, hk⟩ := h
  have hd : q.den ∣ 10 ^ q.den := dvd_ten_pow_of_dvd hk
  have hmem : q.den ∈ List.range (q.den + 1) := by simp
  have hsome : ((List.range (q.den + 1)).find? (fun k => decide (q.den ∣ 10 ^ k))).isSome := by
    rw [List.find?_isSome]
    exact ⟨q.den, hmem, by simpa using hd⟩
  obtain ⟨a, ha⟩ := Option.isSome_iff_exists.mp hsome
  have := List.find?_some ha
  simp only [decide_eq_true_eq] at this
  simpa [decExp, ha] using this

theorem decExp_pos {q : ℚ} (hq : q.den ≠ 1) (h : IsDec q) : 1 ≤ decExp q := by
  by_contra hlt
  have h0 : decExp q = 0 := by omega
  have := decExp_dvd h
  rw [h0, pow_zero, Nat.dvd_one] at this
  exact hq this

/-- Mantissa of the decimal expansion printed for a non-integer rational. -/
def mantissa (q : ℚ) : ℕ := q.num.natAbs * 10 ^ decExp q / q.den

/-- Digit string of the mantissa, left-padded with zeros so that at least
one digit stands in front of the decimal point. -/
def padDigits (q : ℚ) : Str :=
  List.replicate (decExp q + 1 - (printNat (mantissa q)).length) '0' ++ printNat (mantissa q)

/-- JavaScript `String(q)` for a rational (exact when `IsDec q`; for
integers it prints the integer, otherwise sign, integer part, a dot and
`decExp q` fractional digits). -/
def printRat (q : ℚ) : Str :=
  if q.den = 1 then printInt q.num
  else
    (if q.num < 0 then ['-'] else []) ++
      (padDigits q).take ((padDigits q).length - decExp q) ++
      '.' :: (padDigits q).drop ((padDigits q).length - decExp q)

/-- The rational `±n / d`; built with `mkRat` so that it reduces inside
the kernel (the ring operations on `ℚ` are irreducible). -/
def signedVal (neg : Bool) (n : ℕ) (d : ℕ) : ℚ :=
  mkRat (if neg then -(n : ℤ) else (n : ℤ)) d

/-- Greedy match of `\d*\.?\d+` at the start of `s1`, with the sign
already consumed; the result is the real value `parseFloat` assigns. -/
def jsNumCore (neg : Bool) (s1 : Str) : Option ℚ :=
  let d1 := s1.takeWhile Char.isDigit
  let r1 := s1.drop d1.length
  if r1.head? = some '.' then
    let d2 := (r1.tail).takeWhile Char.isDigit
    if d2.isEmpty then
      if d1.isEmpty then none else some (signedVal neg (parseNatDigits d1) 1)
    else some (signedVal neg (parseNatDigits (d1 ++ d2)) (10 ^ d2.length))
  else if d1.isEmpty then none else some (signedVal neg (parseNatDigits d1) 1)

/-- The greedy match of the JS regex fragment `[+-]?\d*\.?\d+` at the
start of `s`, returning the value `parseFloat` would produce for the
matched text (`none` when the fragment does not match). -/
def jsNumMatch (s : Str) : Option ℚ :=
  jsNumCore (s.head? = some '-')
    (if s.head? = some '-' || s.head? = some '+' then s.tail else s)

/-- JavaScript `parseFloat` without the exponent and Infinity forms: on
an input such as `1e5` this reads the mantissa prefix and yields `1`
where JS yields `100000`.  A construct such as `%LR1e5*%` can reach the
divergence, changing the stored value but not whether its node
round-trips: on both sides the serializer prints the stored value in
plain decimal and this reparses to it.  The serializers in this file
never emit exponent forms, which matches JS `String` on the magnitude
range that C1's `numRunsOK` side condition enforces.  `none` models
`NaN`; leading whitespace is skipped as in JS. -/
def parseFloat (s : Str) : Option ℚ :=
  jsNumMatch (s.dropWhile isJsWs)

/-- JavaScript template interpolation of a number field (`NaN` included). -/
def printJsNum : Option ℚ → Str
  | some q => printRat q
  | none => ['N', 'a', 'N']

-- ===========================================================================
-- List scanning helpers and the parseFloat/printRat round trip
-- ===========================================================================

theorem takeWhile_append_all {p : Char → Bool} {a : Str} (b : Str)
    (ha : ∀ c ∈ a, p c = true) : (a ++ b).takeWhile p = a ++ b.takeWhile p := by
  induction a with
  | nil => simp
  | cons x xs ih =>
    have hx : p x = true := ha x (by simp)
    simp only [List.cons_append, List.takeWhile_cons, hx, if_true]
    rw [ih (fun c hc => ha c (by simp [hc]))]

theorem dropWhile_append_all {p : Char → Bool} {a : Str} (b : Str)
    (ha : ∀ c ∈ a, p c = true) : (a ++ b).dropWhile p = b.dropWhile p := by
  induction a with
  | nil => simp
  | cons x xs ih =>
    have hx : p x = true := ha x (by simp)
    simp only [List.cons_append, List.dropWhile_cons, hx, if_true]
    exact ih (fun c hc => ha c (by simp [hc]))

theorem takeWhile_head_neg {p : Char → Bool} {b : Str}
    (hb : ∀ c, b.head? = some c → p c = false) : b.takeWhile p = [] := by
  cases b with
  | nil => rfl
  | cons x xs => simp [List.takeWhile_cons, hb x rfl]

theorem dropWhile_head_neg {p : Char → Bool} {b : Str}
    (hb : ∀ c, b.head? = some c → p c = false) : b.dropWhile p = b := by
  cases b with
  | nil => rfl
  | cons x xs => simp [List.dropWhile_cons, hb x rfl]

theorem foldl_zeros (z : ℕ) :
    List.foldl (fun x c => 10 * x + digitVal c) 0 (List.replicate z '0') = 0 := by
  induction z with
  | zero => rfl
  | succ n ih =>
    rw [List.replicate_succ, List.foldl_cons]
    have h0 : (10 * 0 + digitVal '0') = 0 := by decide
    rw [h0]
    exact ih

theorem parseNatDigits_zeros (z : ℕ) (t : Str) :
    parseNatDigits (List.replicate z '0' ++ t) = parseNatDigits t := by
  show List.foldl _ 0 _ = _
  rw [List.foldl_append, foldl_zeros]
  rfl

theorem isDigit_excl {c : Char} (h : c.isDigit = true) :
    c ≠ '-' ∧ c ≠ '+' ∧ c ≠ '.' ∧ isJsWs c = false ∧ isTokWs c = false ∧
      c ≠ '*' ∧ c ≠ '%' := by
  refine ⟨?_, ?_, ?_, ?_, ?_, ?_, ?_⟩
  · intro hc; subst hc; exact absurd h (by decide)
  · intro hc; subst hc; exact absurd h (by decide)
  · intro hc; subst hc; exact absurd h (by decide)
  · by_contra hw
    have hw2 : isJsWs c = true := by simpa using hw
    simp only [isJsWs, Bool.or_eq_true, decide_eq_true_eq] at hw2
    rcases hw2 with ((((h1 | h1) | h1) | h1) | h1) | h1 <;>
      (subst h1; exact absurd h (by decide))
  · by_contra hw
    have hw2 : isTokWs c = true := by simpa using hw
    simp only [isTokWs, Bool.or_eq_true, decide_eq_true_eq] at hw2
    rcases hw2 with ((h1 | h1) | h1) | h1 <;>
      (subst h1; exact absurd h (by decide))
  · intro hc; subst hc; exact absurd h (by decide)
  · intro hc; subst hc; exact absurd h (by decide)

theorem pad_digits {z : ℕ} {t : Str} (ht : ∀ x ∈ t, Char.isDigit x = true) :
    ∀ x ∈ List.replicate z '0' ++ t, Char.isDigit x = true := by
  intro x hx
  rcases List.mem_append.mp hx with hx | hx
  · rcases List.eq_of_mem_replicate hx with rfl; rfl
  · exact ht x hx

theorem padDigits_digits {q : ℚ} : ∀ x ∈ padDigits q, Char.isDigit x = true := by
  intro x hx
  exact pad_digits (fun c hc => printNat_digits hc) x hx

theorem padDigits_pd {q : ℚ} : parseNatDigits (padDigits q) = mantissa q := by
  rw [padDigits, parseNatDigits_zeros, parseNatDigits_printNat]

theorem padDigits_len {q : ℚ} : decExp q + 1 ≤ (padDigits q).length := by
  rw [padDigits, List.length_append, List.length_replicate]
  have h1 : 1 ≤ (printNat (mantissa q)).length := by
    cases hds : printNat (mantissa q) with
    | nil => exact absurd hds (printNat_ne_nil _)
    | cons c cs => simp
  omega

/-- The characters appearing in a printed rational. -/
theorem printRat_chars {q : ℚ} {c : Char} (hc : c ∈ printRat q) :
    c.isDigit = true ∨ c = '-' ∨ c = '.' := by
  by_cases hden : q.den = 1
  · simp only [printRat, hden, if_true] at hc
    cases hnum : q.num with
    | ofNat n =>
      rw [hnum] at hc
      simp only [printInt] at hc
      exact Or.inl (printNat_digits hc)
    | negSucc n =>
      rw [hnum] at hc
      simp only [printInt] at hc
      rcases List.mem_cons.mp hc with hc | hc
      · exact Or.inr (Or.inl hc)
      · exact Or.inl (printNat_digits hc)
  · simp only [printRat, hden, if_false] at hc
    rcases List.mem_append.mp hc with h1 | h1
    · rcases List.mem_append.mp h1 with h2 | h2
      · by_cases hneg : q.num < 0
        · simp only [hneg, if_true, List.mem_singleton] at h2
          exact Or.inr (Or.inl h2)
        · simp only [hneg, if_false] at h2
          simp at h2
      · exact Or.inl (padDigits_digits c (List.mem_of_mem_take h2))
    · rcases List.mem_cons.mp h1 with h3 | h3
      · exact Or.inr (Or.inr h3)
      · exact Or.inl (padDigits_digits c (List.mem_of_mem_drop h3))

/-- The text following a printed number neither starts with a digit nor
with a dot, so a greedy numeral match cannot extend into it. -/
def NextOK (r : Str) : Prop := ∀ c, r.head? = some c → (c.isDigit = false ∧ c ≠ '.')

theorem nextOK_nil : NextOK [] := fun c h => by simp at h

theorem signedVal_eq (neg : Bool) (n d : ℕ) :
    signedVal neg n d = (if neg then (-1 : ℚ) else 1) * ((n : ℚ) / (d : ℚ)) := by
  cases neg with
  | false =>
    rw [signedVal, if_neg (by simp), if_neg (by simp), Rat.mkRat_eq_div]
    push_cast
    ring
  | true =>
    rw [signedVal, if_pos rfl, if_pos rfl, Rat.mkRat_eq_div]
    push_cast
    ring

theorem signedVal_one (neg : Bool) (n : ℕ) :
    signedVal neg n 1 = (if neg then (-1 : ℚ) else 1) * (n : ℚ) := by
  rw [signedVal_eq]
  simp

theorem signedVal_pow (neg : Bool) (n k : ℕ) :
    signedVal neg n (10 ^ k) = (if neg then (-1 : ℚ) else 1) * ((n : ℚ) / 10 ^ k) := by
  rw [signedVal_eq]
  push_cast
  ring

theorem jsNumCore_digits (neg : Bool) {d r : Str} (hd : d ≠ [])
    (hdig : ∀ c ∈ d, c.isDigit = true) (hr : NextOK r) :
    jsNumCore neg (d ++ r) = some (signedVal neg (parseNatDigits d) 1) := by
  have htw : (d ++ r).takeWhile Char.isDigit = d := by
    rw [takeWhile_append_all r hdig, takeWhile_head_neg (fun c hc => (hr c hc).1),
      List.append_nil]
  have hdot : ¬(r.head? = some '.') := by
    cases r with
    | nil => simp
    | cons c cs => simpa using (hr c rfl).2
  have hde : d.isEmpty = false := by simpa [List.isEmpty_iff] using hd
  simp only [jsNumCore, htw, List.drop_left]
  rw [if_neg hdot, hde]
  rfl

theorem jsNumCore_frac (neg : Bool) {a b r : Str} (ha : a ≠ [])
    (hadig : ∀ c ∈ a, c.isDigit = true) (hb : b ≠ [])
    (hbdig : ∀ c ∈ b, c.isDigit = true) (hr : NextOK r) :
    jsNumCore neg (a ++ '.' :: (b ++ r)) =
      some (signedVal neg (parseNatDigits (a ++ b)) (10 ^ b.length)) := by
  have htw : (a ++ '.' :: (b ++ r)).takeWhile Char.isDigit = a := by
    rw [takeWhile_append_all _ hadig]
    simp [List.takeWhile_cons]
  have htwb : (b ++ r).takeWhile Char.isDigit = b := by
    rw [takeWhile_append_all r hbdig, takeWhile_head_neg (fun c hc => (hr c hc).1),
      List.append_nil]
  have hbe : b.isEmpty = false := by simpa [List.isEmpty_iff] using hb
  simp only [jsNumCore, htw, List.drop_left]
  simp [htwb, hbe]

theorem jsNumMatch_digit_head {s : Str} {x : Char} (hhead : s.head? = some x)
    (hx : x.isDigit = true) : jsNumMatch s = jsNumCore false s := by
  obtain ⟨hx1, hx2, _, _, _, _, _⟩ := isDigit_excl hx
  have h1 : ¬(s.head? = some '-') := by rw [hhead]; simpa using hx1
  have h2 : ¬(s.head? = some '+') := by rw [hhead]; simpa using hx2
  simp [jsNumMatch, h1, h2]

theorem jsNumMatch_neg_head (s : Str) : jsNumMatch ('-' :: s) = jsNumCore true s := by
  simp [jsNumMatch]

theorem jsNumMatch_printRat {q : ℚ} (hq : IsDec q) {r : Str} (hr : NextOK r) :
    jsNumMatch (printRat q ++ r) = some q := by
  by_cases hden : q.den = 1
  · have hq1 : ((q.num : ℚ)) = q := by
      conv_rhs => rw [← Rat.num_div_den q]
      rw [hden]
      simp
    cases hnum : q.num with
    | ofNat n =>
      have hpr : printRat q = printNat n := by simp [printRat, hden, hnum, printInt]
      obtain ⟨x, xs, hxe⟩ := List.exists_cons_of_ne_nil (printNat_ne_nil n)
      have hhead : (printNat n ++ r).head? = some x := by rw [hxe]; rfl
      have hxd : x.isDigit = true := printNat_digits (by rw [hxe]; simp)
      rw [hpr, jsNumMatch_digit_head hhead hxd,
        jsNumCore_digits false (printNat_ne_nil n) (fun c hc => printNat_digits hc) hr,
        parseNatDigits_printNat, signedVal_one]
      rw [← hq1, hnum]
      norm_num
    | negSucc n =>
      have hpr : printRat q = '-' :: printNat (n + 1) := by
        simp [printRat, hden, hnum, printInt]
      rw [hpr, List.cons_append, jsNumMatch_neg_head,
        jsNumCore_digits true (printNat_ne_nil (n + 1)) (fun c hc => printNat_digits hc) hr,
        parseNatDigits_printNat, signedVal_one]
      rw [← hq1, hnum, if_pos rfl]
      congr 1
      push_cast [Int.cast_negSucc]
      ring
  · have hk1 : 1 ≤ decExp q := decExp_pos hden hq
    have hkd : q.den ∣ 10 ^ decExp q := decExp_dvd hq
    have hL : decExp q + 1 ≤ (padDigits q).length := padDigits_len
    have htlen : ((padDigits q).take ((padDigits q).length - decExp q)).length =
        (padDigits q).length - decExp q := by
      rw [List.length_take]
      omega
    have hdlen : ((padDigits q).drop ((padDigits q).length - decExp q)).length = decExp q := by
      rw [List.length_drop]
      omega
    have htne : (padDigits q).take ((padDigits q).length - decExp q) ≠ [] := by
      intro h
      rw [h] at htlen
      simp at htlen
      omega
    have hdne : (padDigits q).drop ((padDigits q).length - decExp q) ≠ [] := by
      intro h
      rw [h] at hdlen
      simp at hdlen
      omega
    have htdig : ∀ c ∈ (padDigits q).take ((padDigits q).length - decExp q),
        c.isDigit = true := fun c hc => padDigits_digits c (List.mem_of_mem_take hc)
    have hddig : ∀ c ∈ (padDigits q).drop ((padDigits q).length - decExp q),
        c.isDigit = true := fun c hc => padDigits_digits c (List.mem_of_mem_drop hc)
    have hm : mantissa q * q.den = q.num.natAbs * 10 ^ decExp q :=
      Nat.div_mul_cancel (Dvd.dvd.mul_left hkd _)
    have hden0 : ((q.den : ℚ)) ≠ 0 := by
      have := q.den_pos
      positivity
    have h100 : ((10 : ℚ)) ^ decExp q ≠ 0 := by positivity
    have hmQ : ((mantissa q : ℚ)) * (q.den : ℚ) = ((q.num.natAbs : ℚ)) * 10 ^ decExp q := by
      exact_mod_cast hm
    have hpdn : parseNatDigits ((padDigits q).take ((padDigits q).length - decExp q) ++
        (padDigits q).drop ((padDigits q).length - decExp q)) = mantissa q := by
      rw [List.take_append_drop, padDigits_pd]
    by_cases hneg : q.num < 0
    · have hpr : printRat q ++ r =
          '-' :: ((padDigits q).take ((padDigits q).length - decExp q) ++
            '.' :: ((padDigits q).drop ((padDigits q).length - decExp q) ++ r)) := by
        simp [printRat, hden, hneg, List.append_assoc]
      rw [hpr, jsNumMatch_neg_head, jsNumCore_frac true htne htdig hdne hddig hr,
        hpdn, hdlen, signedVal_pow]
      have hna : ((q.num.natAbs : ℚ)) = -((q.num : ℚ)) := by
        rw [Int.cast_natAbs, Int.cast_abs]
        exact abs_of_neg (by exact_mod_cast hneg)
      have hmain : (if (true : Bool) then (-1 : ℚ) else 1) *
          ((mantissa q : ℚ) / 10 ^ decExp q) = q := by
        rw [if_pos rfl, neg_one_mul]
        conv_rhs => rw [← Rat.num_div_den q]
        rw [← neg_div, div_eq_div_iff h100 hden0, neg_mul, hmQ, hna]
        ring
      rw [hmain]
    · have hpr : printRat q ++ r =
          (padDigits q).take ((padDigits q).length - decExp q) ++
            '.' :: ((padDigits q).drop ((padDigits q).length - decExp q) ++ r) := by
        simp [printRat, hden, hneg, List.append_assoc]
      obtain ⟨x, xs, hxe⟩ := List.exists_cons_of_ne_nil htne
      have hhead : ((padDigits q).take ((padDigits q).length - decExp q) ++
          '.' :: ((padDigits q).drop ((padDigits q).length - decExp q) ++ r)).head? =
          some x := by rw [hxe]; rfl
      have hxd : x.isDigit = true := htdig x (by rw [hxe]; simp)
      rw [hpr, jsNumMatch_digit_head hhead hxd, jsNumCore_frac false htne htdig hdne hddig hr,
        hpdn, hdlen, signedVal_pow, if_neg (by simp), one_mul]
      have hna : ((q.num.natAbs : ℚ)) = ((q.num : ℚ)) := by
        rw [Int.cast_natAbs, Int.cast_abs]
        exact abs_of_nonneg (by exact_mod_cast (le_of_not_lt hneg))
      have hmain : ((mantissa q : ℚ) / 10 ^ decExp q) = q := by
        conv_rhs => rw [← Rat.num_div_den q]
        rw [div_eq_div_iff h100 hden0, hmQ, hna]
      rw [hmain]

theorem printRat_ne_nil (q : ℚ) : printRat q ≠ [] := by
  by_cases hden : q.den = 1
  · simp only [printRat, hden, if_true]
    cases hnum : q.num with
    | ofNat n => simp [printInt, printNat_ne_nil]
    | negSucc n => simp [printInt]
  · simp only [printRat, hden, if_false]
    intro h
    rcases List.append_eq_nil.mp h with ⟨-, h2⟩
    simp at h2

theorem dropWhile_jsWs_printRat (q : ℚ) :
    (printRat q).dropWhile isJsWs = printRat q := by
  apply dropWhile_head_neg
  intro c hc
  have hmem : c ∈ printRat q := by
    cases hp : printRat q with
    | nil => rw [hp] at hc; simp at hc
    | cons x xs =>
      rw [hp] at hc
      simp only [List.head?] at hc
      cases hc
      simp
  rcases printRat_chars hmem with h | h | h
  · exact (isDigit_excl h).2.2.2.1
  · subst h; rfl
  · subst h; rfl

theorem parseFloat_printRat {q : ℚ} (hq : IsDec q) : parseFloat (printRat q) = some q := by
  rw [parseFloat, dropWhile_jsWs_printRat]
  have := jsNumMatch_printRat hq nextOK_nil
  rwa [List.append_nil] at this

-- ===========================================================================
-- Tokenizer (src/lib/parser/tokenizer.ts)
-- ===========================================================================

/-- The token types the tokenizer actually produces (`WHITESPACE` and
`NEWLINE` appear in the source's union type but are never emitted). -/
inductive TokType
  | extendedCommand
  | command
  | eof
deriving DecidableEq

/-- A token.  The source also records line and column of the first
character; they are never consulted by the parser and no node stores
them, so the embedding omits them. -/
structure Token where
  type : TokType
  value : Str
deriving DecidableEq

/-- The characters `readCommand` accumulates: everything up to and
including the first star, or the whole remainder when no star occurs
before end of input. -/
def readCmdAcc (s : Str) : Str :=
  let v := s.takeWhile (fun c => c ≠ '*')
  if v.length = s.length then s else v ++ ['*']

/-- The tokenizer loop (`Tokenizer.tokenize` without the EOF sentinel),
fuelled for structural recursion; the fuel never runs out when it starts
at `s.length + 1`. -/
def tokenizeLoop : ℕ → Str → List Token
  | 0, _ => []
  | f + 1, s =>
    match s.dropWhile isTokWs with
    | [] => []
    | c :: cs =>
      if c = '%' then
        let v := cs.takeWhile (fun x => x ≠ '%')
        ⟨.extendedCommand, v⟩ :: tokenizeLoop f (cs.drop (v.length + 1))
      else
        let acc := readCmdAcc (c :: cs)
        ⟨.command, acc.dropLast⟩ :: tokenizeLoop f ((c :: cs).drop acc.length)

/-- `Tokenizer.tokenize` without the trailing EOF token. -/
def tokenizeAux (s : Str) : List Token :=
  tokenizeLoop (s.length + 1) s

/-- `tokenize(source)`: the token list, ended by the EOF sentinel. -/
def tokenize (s : Str) : List Token :=
  tokenizeAux s ++ [⟨.eof, []⟩]

theorem readCmdAcc_pos (c : Char) (cs : Str) : 1 ≤ (readCmdAcc (c :: cs)).length := by
  rw [readCmdAcc]
  split
  · simp
  · simp

theorem dropWhile_head_false {p : Char → Bool} : ∀ (l : Str) {c cs},
    l.dropWhile p = c :: cs → p c = false := by
  intro l
  induction l with
  | nil => intro c cs h; simp at h
  | cons x xs ih =>
    intro c cs h
    rw [List.dropWhile_cons] at h
    by_cases hp : p x = true
    · rw [if_pos hp] at h
      exact ih h
    · rw [if_neg hp] at h
      injection h with h1 h2
      subst h1
      simpa using hp

theorem dropWhile_length_le (p : Char → Bool) (l : Str) :
    (l.dropWhile p).length ≤ l.length := by
  induction l with
  | nil => simp
  | cons x xs ih =>
    rw [List.dropWhile_cons]
    split
    · simp only [List.length_cons]
      omega
    · simp

theorem tokenizeLoop_congr : ∀ f s g, s.length < f → s.length < g →
    tokenizeLoop f s = tokenizeLoop g s := by
  intro f
  induction f with
  | zero => intro s g hf _; omega
  | succ f ih =>
    intro s g hf hg
    match g, hg with
    | g + 1, _ =>
      cases hd : s.dropWhile isTokWs with
      | nil => simp only [tokenizeLoop, hd]
      | cons c cs =>
        have hdl : cs.length + 1 ≤ s.length := by
          have h1 := dropWhile_length_le isTokWs s
          rw [hd] at h1
          simpa using h1
        simp only [tokenizeLoop, hd]
        by_cases hc : c = '%'
        · rw [if_pos hc, if_pos hc]
          congr 1
          apply ih
          · have := List.length_drop ((cs.takeWhile (fun x => x ≠ '%')).length + 1) cs
            omega
          · have := List.length_drop ((cs.takeWhile (fun x => x ≠ '%')).length + 1) cs
            omega
        · rw [if_neg hc, if_neg hc]
          congr 1
          apply ih
          · have h2 := readCmdAcc_pos c cs
            have := List.length_drop (readCmdAcc (c :: cs)).length (c :: cs)
            simp only [List.length_cons] at this
            omega
          · have h2 := readCmdAcc_pos c cs
            have := List.length_drop (readCmdAcc (c :: cs)).length (c :: cs)
            simp only [List.length_cons] at this
            omega

theorem tokenizeLoop_eq_aux {f : ℕ} {s : Str} (h : s.length < f) :
    tokenizeLoop f s = tokenizeAux s :=
  tokenizeLoop_congr f s (s.length + 1) h (Nat.lt_succ_self _)

theorem tokenizeLoop_succ_pct (f : ℕ) (x : Str) :
    tokenizeLoop (f + 1) ('%' :: x) =
      Token.mk .extendedCommand (x.takeWhile (fun c => c ≠ '%')) ::
        tokenizeLoop f (x.drop ((x.takeWhile (fun c => c ≠ '%')).length + 1)) := by
  have hcw : isTokWs '%' = false := by decide
  simp only [tokenizeLoop, List.dropWhile_cons, hcw]
  simp

theorem tokenizeLoop_succ_cmd {c : Char} (hcw : isTokWs c = false) (hc : c ≠ '%')
    (f : ℕ) (cs : Str) :
    tokenizeLoop (f + 1) (c :: cs) =
      Token.mk .command (readCmdAcc (c :: cs)).dropLast ::
        tokenizeLoop f ((c :: cs).drop (readCmdAcc (c :: cs)).length) := by
  simp only [tokenizeLoop, List.dropWhile_cons, hcw]
  simp [hc]

theorem tokenizeAux_ws {c : Char} (h : isTokWs c = true) (s : Str) :
    tokenizeAux (c :: s) = tokenizeAux s := by
  show tokenizeLoop (s.length + 1 + 1) (c :: s) = tokenizeAux s
  have hstep : tokenizeLoop (s.length + 1 + 1) (c :: s) =
      tokenizeLoop (s.length + 1 + 1) s := by
    conv_rhs => rw [show s.length + 1 + 1 = (s.length + 1) + 1 from rfl]
    simp only [tokenizeLoop, List.dropWhile_cons, h]
    simp
  rw [hstep]
  exact tokenizeLoop_congr _ _ _ (by omega) (by omega)

theorem tokenizeAux_ext (e rest : Str) (he : '%' ∉ e) :
    tokenizeAux ('%' :: (e ++ '%' :: rest)) =
      Token.mk .extendedCommand e :: tokenizeAux rest := by
  have hv : (e ++ '%' :: rest).takeWhile (fun x => x ≠ '%') = e := by
    rw [takeWhile_append_all _ (fun c hc => by
      simp only [ne_eq, decide_eq_true_eq]
      intro hcc
      exact he (hcc ▸ hc))]
    rw [takeWhile_head_neg (fun c hc => by
      simp only [List.head?_cons, Option.some.injEq] at hc
      subst hc
      simp)]
    exact List.append_nil e
  have hdrop : (e ++ '%' :: rest).drop (e.length + 1) = rest := by
    have h1 : e ++ '%' :: rest = (e ++ ['%']) ++ rest := by simp
    rw [h1]
    have hlen : e.length + 1 = (e ++ ['%']).length := by simp
    rw [hlen, List.drop_left]
  show tokenizeLoop ((e ++ '%' :: rest).length + 1 + 1) ('%' :: (e ++ '%' :: rest)) = _
  rw [tokenizeLoop_succ_pct, hv, hdrop]
  congr 1
  apply tokenizeLoop_eq_aux
  simp
  omega

/-- Head condition for a command-token value: it is empty or starts with
the non-whitespace, non-`%` character the tokenizer dispatched on. -/
def CmdHead (c : Str) : Prop :=
  ∀ x, c.head? = some x → (isTokWs x = false ∧ x ≠ '%')

theorem tokenizeAux_cmd (c rest : Str) (hc : '*' ∉ c) (hh : CmdHead c) :
    tokenizeAux (c ++ '*' :: rest) = Token.mk .command c :: tokenizeAux rest := by
  cases c with
  | nil =>
    show tokenizeLoop (('*' :: rest).length + 1) ('*' :: rest) = _
    rw [show ('*' :: rest).length + 1 = rest.length + 1 + 1 from by simp]
    rw [tokenizeLoop_succ_cmd (by decide) (by decide)]
    have hacc : readCmdAcc ('*' :: rest) = ['*'] := by
      rw [readCmdAcc]
      simp [List.takeWhile_cons]
    rw [hacc]
    simp only [List.dropLast_single, List.length_singleton, List.drop_succ_cons,
      List.drop_zero]
    congr 1
  | cons x xs =>
    obtain ⟨hx1, hx2⟩ := hh x rfl
    have hxs : '*' ∉ x :: xs := hc
    have hv : (x :: (xs ++ '*' :: rest)).takeWhile (fun c => c ≠ '*') = x :: xs := by
      have h1 : x :: (xs ++ '*' :: rest) = (x :: xs) ++ '*' :: rest := by simp
      rw [h1]
      rw [takeWhile_append_all _ (fun c hcc => by
        simp only [ne_eq, decide_eq_true_eq]
        intro h
        exact hxs (h ▸ hcc))]
      rw [takeWhile_head_neg (fun c hcc => by
        simp only [List.head?_cons, Option.some.injEq] at hcc
        subst hcc
        simp)]
      exact List.append_nil _
    have hacc : readCmdAcc (x :: (xs ++ '*' :: rest)) = (x :: xs) ++ ['*'] := by
      rw [readCmdAcc, hv]
      have hne : (x :: xs).length ≠ (x :: (xs ++ '*' :: rest)).length := by
        simp
      simp only [hne, if_false]
    have hdrop : (x :: (xs ++ '*' :: rest)).drop ((x :: xs) ++ ['*']).length = rest := by
      have h1 : x :: (xs ++ '*' :: rest) = ((x :: xs) ++ ['*']) ++ rest := by simp
      rw [h1, List.drop_left]
    show tokenizeLoop ((x :: (xs ++ '*' :: rest)).length + 1) (x :: (xs ++ '*' :: rest)) = _
    rw [show (x :: (xs ++ '*' :: rest)).length + 1 =
      (xs ++ '*' :: rest).length + 1 + 1 from by simp]
    rw [tokenizeLoop_succ_cmd hx1 hx2, hacc, hdrop, List.dropLast_concat]
    congr 1
    apply tokenizeLoop_eq_aux
    simp
    omega

theorem takeWhile_eq_self_of_length {p : Char → Bool} {l : Str}
    (h : (l.takeWhile p).length = l.length) : ∀ x ∈ l, p x = true := by
  have hpre : l.takeWhile p <+: l := List.takeWhile_prefix p
  have heq : l.takeWhile p = l := List.IsPrefix.eq_of_length hpre h
  intro x hx
  exact List.mem_takeWhile_imp (heq ▸ hx)

/-- The facts every produced token satisfies: command values are
star-free and start (when nonempty) with the dispatch character; extended
values are `%`-free. -/
def TokOK (t : Token) : Prop :=
  (t.type = .command → '*' ∉ t.value ∧ CmdHead t.value) ∧
  (t.type = .extendedCommand → '%' ∉ t.value)

theorem tokenizeLoop_ok : ∀ f s t, t ∈ tokenizeLoop f s → TokOK t := by
  intro f
  induction f with
  | zero => intro s t h; simp [tokenizeLoop] at h
  | succ f ih =>
    intro s t h
    cases hd : s.dropWhile isTokWs with
    | nil =>
      simp only [tokenizeLoop, hd] at h
      simp at h
    | cons c cs =>
      have hcw : isTokWs c = false := dropWhile_head_false s hd
      simp only [tokenizeLoop, hd] at h
      by_cases hc : c = '%'
      · rw [if_pos hc] at h
        rcases List.mem_cons.mp h with h | h
        · subst h
          refine ⟨(fun ht => nomatch ht), fun _ => ?_⟩
          intro hm
          have := List.mem_takeWhile_imp hm
          simp at this
        · exact ih _ _ h
      · rw [if_neg hc] at h
        rcases List.mem_cons.mp h with h | h
        · subst h
          refine ⟨fun _ => ?_, (fun ht => nomatch ht)⟩
          rw [readCmdAcc]
          split
          · next hlen =>
            have hall := takeWhile_eq_self_of_length hlen
            constructor
            · intro hm
              have hmem : '*' ∈ c :: cs := List.dropLast_sublist _ |>.subset hm
              have := hall '*' hmem
              simp at this
            · intro x hx
              cases cs with
              | nil => simp at hx
              | cons y ys =>
                simp only [List.dropLast_cons₂, List.head?_cons, Option.some.injEq] at hx
                subst hx
                exact ⟨hcw, hc⟩
          · constructor
            · rw [List.dropLast_concat]
              intro hm
              have := List.mem_takeWhile_imp hm
              simp at this
            · rw [List.dropLast_concat]
              intro x hx
              rw [List.takeWhile_cons] at hx
              by_cases hcstar : c = '*'
              · rw [if_neg (by simp [hcstar])] at hx
                simp at hx
              · rw [if_pos (by simp [hcstar])] at hx
                simp only [List.head?_cons, Option.some.injEq] at hx
                subst hx
                exact ⟨hcw, hc⟩
        · exact ih _ _ h

theorem tokenize_ok (s : Str) : ∀ t ∈ tokenize s, TokOK t := by
  intro t ht
  rcases List.mem_append.mp ht with h | h
  · exact tokenizeLoop_ok _ _ t h
  · simp only [List.mem_singleton] at h
    subst h
    exact ⟨(fun ht => nomatch ht), (fun ht => nomatch ht)⟩

-- ===========================================================================
-- AST nodes (src/lib/ast/commands.ts, src/lib/ast/GerberNode.ts)
-- ===========================================================================

/-- Interpolation modes (`InterpolationMode`). -/
inductive IMode
  | g01
  | g02
  | g03
  | g74
  | g75
deriving DecidableEq

/-- Operation d-codes (`DCode`). -/
inductive DCode
  | d01
  | d02
  | d03
deriving DecidableEq

/-- The closed node variant.  The three `Operation` subclasses
(`Interpolate`, `Move`, `Flash`) share their fields and differ only in
`dcode`, so they appear as one constructor tagged by `DCode` (mirroring
`createOperation`).  Fields cast in the source without validation
(`unit`, `polarity`, `mirroring`, image polarity) are kept as the raw
sliced strings.  `FormatSpecification` keeps the two mode characters as
`Option Char` because the source reads `rest[0]`/`rest[1]`, which are
`undefined` on short input. -/
inductive GNode
  | formatSpecification (zeroOmission coordinateMode : Option Char)
      (xIntegerDigits xDecimalDigits yIntegerDigits yDecimalDigits : ℕ)
  | unitMode (unit : Str)
  | apertureDefinition (code : ℕ) (template : Str) (params : List (Option ℚ))
  | apertureMacro (name : Str) (content : Str)
  | loadPolarity (polarity : Str)
  | loadMirroring (mirroring : Str)
  | loadRotation (angle : Option ℚ)
  | loadScaling (scale : Option ℚ)
  | stepRepeat (x y : ℕ) (i j : ℚ)
  | fileAttribute (name : Str) (values : List Str)
  | apertureAttribute (name : Str) (values : List Str)
  | objectAttribute (name : Str) (values : List Str)
  | deleteAttribute (name : Option Str)
  | setInterpolationMode (mode : IMode)
  | comment (text : Str)
  | regionStart
  | regionEnd
  | operation (dcode : DCode) (x y i j : Option ℤ)
  | selectAperture (code : ℕ)
  | endOfFile
  | setImagePolarity (polarity : Str)
  | setOffset (a b : ℚ)
  | unknownCommand (raw : Str)
deriving DecidableEq

-- ===========================================================================
-- Regex scanners used by the parser
-- ===========================================================================

/-- Scan for `/c(\d)(\d)/`: first occurrence of `c` followed by two
digits; the captures go through single-digit `parseInt`. -/
def findDD (c : Char) : Str → Option (ℕ × ℕ)
  | x :: y :: z :: rest =>
    if x = c ∧ y.isDigit ∧ z.isDigit then some (digitVal y, digitVal z)
    else findDD c (y :: z :: rest)
  | _ => none

/-- `\d+` at the start of `s`: the captured value. -/
def natSub (s : Str) : Option ℕ :=
  let d := s.takeWhile Char.isDigit
  if d.isEmpty then none else some (parseNatDigits d)

/-- `[+-]?\d+` at the start of `s`: the capture fed through `parseInt`. -/
def intSub : Str → Option ℤ
  | '-' :: r => (natSub r).map (fun n => -(n : ℤ))
  | '+' :: r => (natSub r).map (fun n => (n : ℤ))
  | s => (natSub s).map (fun n => (n : ℤ))

/-- Matched length of `[+-]?\d+` at the start of `s`. -/
def intLen : Str → Option ℕ
  | '-' :: r =>
    (if (r.takeWhile Char.isDigit).isEmpty then none
     else some (r.takeWhile Char.isDigit).length).map (· + 1)
  | '+' :: r =>
    (if (r.takeWhile Char.isDigit).isEmpty then none
     else some (r.takeWhile Char.isDigit).length).map (· + 1)
  | s =>
    if (s.takeWhile Char.isDigit).isEmpty then none
    else some (s.takeWhile Char.isDigit).length

/-- Scan for `/c(\d+)/`. -/
def findNatAfter (c : Char) : Str → Option ℕ
  | [] => none
  | x :: xs =>
    if x = c then
      match natSub xs with
      | some v => some v
      | none => findNatAfter c xs
    else findNatAfter c xs

/-- Scan for `/c([+-]?\d+)/`. -/
def findIntAfter (c : Char) : Str → Option ℤ
  | [] => none
  | x :: xs =>
    if x = c then
      match intSub xs with
      | some v => some v
      | none => findIntAfter c xs
    else findIntAfter c xs

/-- Scan for `/c([+-]?\d*\.?\d+)/`; the capture re-read by `parseFloat`
evaluates to the matched value. -/
def findNumAfter (c : Char) : Str → Option ℚ
  | [] => none
  | x :: xs =>
    if x = c then
      match jsNumMatch xs with
      | some v => some v
      | none => findNumAfter c xs
    else findNumAfter c xs

/-- Scan for `/D0?([123])/`. -/
def findDCode : Str → Option ℕ
  | [] => none
  | 'D' :: rest =>
    match rest with
    | '0' :: d :: _ =>
      if d = '1' ∨ d = '2' ∨ d = '3' then some (digitVal d) else findDCode rest
    | d :: _ =>
      if d = '1' ∨ d = '2' ∨ d = '3' then some (digitVal d) else findDCode rest
    | [] => none
  | _ :: rest => findDCode rest

/-- Consume the optional anchored group `(c[+-]?\d+)?`. -/
def eatCoord (c : Char) (s : Str) : Str :=
  match s with
  | x :: rest =>
    if x = c then
      match intLen rest with
      | some n => rest.drop n
      | none => s
    else s
  | [] => []

/-- The terminal `D0?[123]` alternatives of the operation pattern. -/
def isDTail (s : Str) : Bool :=
  s = ['D', '1'] ∨ s = ['D', '2'] ∨ s = ['D', '3'] ∨
    s = ['D', '0', '1'] ∨ s = ['D', '0', '2'] ∨ s = ['D', '0', '3']

/-- `/^(X[+-]?\d+)?(Y[+-]?\d+)?(I[+-]?\d+)?(J[+-]?\d+)?(D0?[123])$/`. -/
def matchesOperation (v : Str) : Bool :=
  isDTail (eatCoord 'J' (eatCoord 'I' (eatCoord 'Y' (eatCoord 'X' v))))

/-- The digit captured by `/^G0?([123])/`, when it matches. -/
def gDigit : Str → Option ℕ
  | 'G' :: '0' :: d :: _ =>
    if d = '1' ∨ d = '2' ∨ d = '3' then some (digitVal d) else none
  | 'G' :: d :: _ =>
    if d = '1' ∨ d = '2' ∨ d = '3' then some (digitVal d) else none
  | _ => none

/-- `value.replace(/^G0?[123]/, "")`, when the prefix matches. -/
def gRest : Str → Option Str
  | 'G' :: '0' :: d :: r =>
    if d = '1' ∨ d = '2' ∨ d = '3' then some r else none
  | 'G' :: d :: r =>
    if d = '1' ∨ d = '2' ∨ d = '3' then some r else none
  | _ => none

/-- `/^G0?[123](X[+-]?\d+)?(Y[+-]?\d+)?(I[+-]?\d+)?(J[+-]?\d+)?(D0?[123])?$/`. -/
def matchesGCodeOperation (v : Str) : Bool :=
  match gRest v with
  | some r =>
    let r4 := eatCoord 'J' (eatCoord 'I' (eatCoord 'Y' (eatCoord 'X' r)))
    r4.isEmpty || isDTail r4
  | none => false

/-- `/^D(\d+)$/`, with the capture through `parseInt`. -/
def matchAperture : Str → Option ℕ
  | 'D' :: ds =>
    if ds ≠ [] ∧ ds.all Char.isDigit then some (parseNatDigits ds) else none
  | _ => none

/-- `value.replace(/^G0?4\s*/, "")`. -/
def stripCommentPrefix : Str → Str
  | 'G' :: '0' :: '4' :: r => r.dropWhile isJsWs
  | 'G' :: '4' :: r => r.dropWhile isJsWs
  | v => v

-- ===========================================================================
-- Parser (src/lib/parser/parser.ts)
-- ===========================================================================

/-- `D0${digit}` (digits 1-3; the default path uses 1). -/
def dcodeOfNat : ℕ → DCode
  | 2 => .d02
  | 3 => .d03
  | _ => .d01

/-- `G0${digit}` for the captured g-code digit. -/
def imodeOfNat : ℕ → IMode
  | 2 => .g02
  | 3 => .g03
  | _ => .g01

/-- `Parser.parseOperation`. -/
def parseOperation (value : Str) : GNode :=
  .operation (dcodeOfNat ((findDCode value).getD 1))
    (findIntAfter 'X' value) (findIntAfter 'Y' value)
    (findIntAfter 'I' value) (findIntAfter 'J' value)

/-- `Parser.parseGCodeOperation` (only reached when the g-code operation
pattern matched, so the prefix match never fails there). -/
def parseGCodeOperation (value : Str) : GNode :=
  let mode := imodeOfNat ((gDigit value).getD 1)
  match gRest value with
  | none => .setInterpolationMode mode
  | some rest =>
    if rest.isEmpty then .setInterpolationMode mode
    else
      match findDCode rest with
      | some dc =>
        .operation (dcodeOfNat dc) (findIntAfter 'X' rest) (findIntAfter 'Y' rest)
          (findIntAfter 'I' rest) (findIntAfter 'J' rest)
      | none => .setInterpolationMode mode

/-- The tail of `Parser.parseCommand` after the aperture-selection check:
operation, g-code operation, else unknown. -/
def parseCommandTail (value : Str) : GNode :=
  if matchesOperation value then parseOperation value
  else if matchesGCodeOperation value then parseGCodeOperation value
  else .unknownCommand (value ++ ['*'])

/-- `Parser.parseCommand`. -/
def parseCommand (value : Str) : GNode :=
  if hasPre ['G', '0', '1'] value || value = ['G', '1'] then .setInterpolationMode .g01
  else if hasPre ['G', '0', '2'] value || value = ['G', '2'] then .setInterpolationMode .g02
  else if hasPre ['G', '0', '3'] value || value = ['G', '3'] then .setInterpolationMode .g03
  else if hasPre ['G', '7', '4'] value then .setInterpolationMode .g74
  else if hasPre ['G', '7', '5'] value then .setInterpolationMode .g75
  else if hasPre ['G', '0', '4'] value || hasPre ['G', '4'] value then
    .comment (stripCommentPrefix value)
  else if value = ['G', '3', '6'] then .regionStart
  else if value = ['G', '3', '7'] then .regionEnd
  else if value = ['M', '0', '2'] ∨ value = ['M', '0', '0'] ∨ value = ['M', '2'] ∨
      value = ['M', '0'] then .endOfFile
  else
    match matchAperture value with
    | some code => if 10 ≤ code then .selectAperture code else parseCommandTail value
    | none => parseCommandTail value

/-- Strip a single trailing star (`value.endsWith("*") ? value.slice(0, -1) : value`). -/
def stripTrailingStar (v : Str) : Str :=
  if v.getLast? = some '*' then v.dropLast else v

/-- `Parser.parseFormatSpec`. -/
def parseFormatSpec (content : Str) : GNode :=
  let rest := content.drop 2
  .formatSpecification rest.head? ((rest.drop 1).head?)
    (match findDD 'X' rest with | some p => p.1 | none => 2)
    (match findDD 'X' rest with | some p => p.2 | none => 6)
    (match findDD 'Y' rest with | some p => p.1 | none => 2)
    (match findDD 'Y' rest with | some p => p.2 | none => 6)

/-- `/^ADD(\d+)([A-Za-z_][A-Za-z0-9_]*)(?:,(.*))?$/`: code capture,
template capture, optional params capture.  The `(.*)` is modelled as
taking the whole remainder; the JS `.` does not cross line terminators,
so on a params text containing a newline the source regex fails and the
parser falls back to the default `ADD10C` node where this still captures.
Both outcomes reparse to themselves, so the round-trip behaviour is the
same on either side. -/
def matchAD (content : Str) : Option (ℕ × Str × Option Str) :=
  match content with
  | 'A' :: 'D' :: 'D' :: r =>
    let ds := r.takeWhile Char.isDigit
    if ds.isEmpty then none
    else
      match r.drop ds.length with
      | t0 :: tr =>
        if isWordStart t0 then
          let trun := tr.takeWhile isWordChar
          match tr.drop trun.length with
          | [] => some (parseNatDigits ds, t0 :: trun, none)
          | ',' :: ps => some (parseNatDigits ds, t0 :: trun, some ps)
          | _ => none
        else none
      | [] => none
  | _ => none

/-- JavaScript `String.prototype.split` with a one-character separator. -/
def splitChar (sep : Char) : Str → List Str
  | [] => [[]]
  | c :: cs =>
    match splitChar sep cs with
    | [] => [[c]]
    | p :: ps => if c = sep then [] :: p :: ps else (c :: p) :: ps

/-- JavaScript `Array.prototype.join` with a one-character separator. -/
def joinSep (sep : Char) : List Str → Str
  | [] => []
  | [s] => s
  | s :: ss => s ++ sep :: joinSep sep ss

/-- `Parser.parseApertureDefinition`. -/
def parseApertureDefinition (content : Str) : GNode :=
  match matchAD content with
  | none => .apertureDefinition 10 ['C'] []
  | some (code, tpl, pso) =>
    .apertureDefinition code tpl
      (match pso with
       | some ps => if ps.isEmpty then [] else (splitChar 'X' ps).map parseFloat
       | none => [])

/-- `Parser.parseApertureMacro`. -/
def parseApertureMacro (content : Str) : GNode :=
  let pre := content.takeWhile (fun c => c ≠ '*')
  if pre.length = content.length then .apertureMacro (content.drop 2) []
  else .apertureMacro (pre.drop 2) (stripTrailingStar (content.drop (pre.length + 1)))

/-- `Parser.parseStepRepeat`. -/
def parseStepRepeat (content : Str) : GNode :=
  let rest := content.drop 2
  if rest.isEmpty then .stepRepeat 1 1 0 0
  else
    .stepRepeat ((findNatAfter 'X' rest).getD 1) ((findNatAfter 'Y' rest).getD 1)
      ((findNumAfter 'I' rest).getD 0) ((findNumAfter 'J' rest).getD 0)

/-- `Parser.parseAttribute`: split the remainder on commas; head is the
name (`?? ""`), tail the values. -/
def attrSplit (rest : Str) : Str × List Str :=
  match splitChar ',' rest with
  | [] => ([], [])
  | nm :: vs => (nm, vs)

/-- `Parser.parseExtendedCommand`. -/
def parseExtendedCommand (value : Str) : GNode :=
  let content := stripTrailingStar value
  if hasPre ['F', 'S'] content then parseFormatSpec content
  else if hasPre ['M', 'O'] content then .unitMode (content.drop 2)
  else if hasPre ['A', 'D'] content then parseApertureDefinition content
  else if hasPre ['A', 'M'] content then parseApertureMacro content
  else if hasPre ['L', 'P'] content then .loadPolarity (content.drop 2)
  else if hasPre ['L', 'M'] content then .loadMirroring (content.drop 2)
  else if hasPre ['L', 'R'] content then .loadRotation (parseFloat (content.drop 2))
  else if hasPre ['L', 'S'] content then .loadScaling (parseFloat (content.drop 2))
  else if hasPre ['S', 'R'] content then parseStepRepeat content
  else if hasPre ['T', 'F', '.'] content then
    .fileAttribute (attrSplit (content.drop 3)).1 (attrSplit (content.drop 3)).2
  else if hasPre ['T', 'A', '.'] content then
    .apertureAttribute (attrSplit (content.drop 3)).1 (attrSplit (content.drop 3)).2
  else if hasPre ['T', 'O', '.'] content then
    .objectAttribute (attrSplit (content.drop 3)).1 (attrSplit (content.drop 3)).2
  else if hasPre ['T', 'D'] content then
    match content.drop 2 with
    | '.' :: nm => .deleteAttribute (some nm)
    | _ => .deleteAttribute none
  else if hasPre ['I', 'P'] content then .setImagePolarity (content.drop 2)
  else if hasPre ['O', 'F'] content then
    .setOffset ((findNumAfter 'A' content).getD 0) ((findNumAfter 'B' content).getD 0)
  else .unknownCommand ('%' :: (value ++ ['%']))

/-- `Parser.parseToken`: extended and command tokens yield a node, the
EOF sentinel (and the never-produced whitespace kinds) yield none. -/
def parseToken (t : Token) : Option GNode :=
  match t.type with
  | .extendedCommand => some (parseExtendedCommand t.value)
  | .command => some (parseCommand t.value)
  | .eof => none

/-- `Parser.parse`: consume tokens until the EOF sentinel, keeping every
produced node in order. -/
def parseTokens : List Token → List GNode
  | [] => []
  | t :: ts =>
    if t.type = .eof then []
    else
      match parseToken t with
      | some n => n :: parseTokens ts
      | none => parseTokens ts

/-- `parseGerber(source)`. -/
def parseGerber (s : Str) : List GNode :=
  parseTokens (tokenize s)

-- ===========================================================================
-- Serialization (the getString methods) and the document
-- ===========================================================================

/-- The literal text of a d-code. -/
def dcodeStr : DCode → Str
  | .d01 => ['D', '0', '1']
  | .d02 => ['D', '0', '2']
  | .d03 => ['D', '0', '3']

/-- The literal text of an interpolation mode. -/
def imodeStr : IMode → Str
  | .g01 => ['G', '0', '1']
  | .g02 => ['G', '0', '2']
  | .g03 => ['G', '0', '3']
  | .g74 => ['G', '7', '4']
  | .g75 => ['G', '7', '5']

/-- Template interpolation of a possibly-`undefined` character field. -/
def printOptChar : Option Char → Str
  | some c => [c]
  | none => ['u', 'n', 'd', 'e', 'f', 'i', 'n', 'e', 'd']

/-- The per-node `getString` serializers.  `DeleteAttribute` tests its
name with JavaScript truthiness, so an empty name prints like a missing
one. -/
def GNode.getString : GNode → Str
  | .formatSpecification zo cm xi xd yi yd =>
    ['%', 'F', 'S'] ++ printOptChar zo ++ printOptChar cm ++
      'X' :: (printNat xi ++ printNat xd) ++ 'Y' :: (printNat yi ++ printNat yd) ++ ['*', '%']
  | .unitMode u => ['%', 'M', 'O'] ++ u ++ ['*', '%']
  | .apertureDefinition code tpl params =>
    ['%', 'A', 'D', 'D'] ++ printNat code ++ tpl ++
      (if params.isEmpty then [] else ',' :: joinSep 'X' (params.map printJsNum)) ++ ['*', '%']
  | .apertureMacro name content => ['%', 'A', 'M'] ++ name ++ '*' :: content ++ ['%']
  | .loadPolarity p => ['%', 'L', 'P'] ++ p ++ ['*', '%']
  | .loadMirroring m => ['%', 'L', 'M'] ++ m ++ ['*', '%']
  | .loadRotation a => ['%', 'L', 'R'] ++ printJsNum a ++ ['*', '%']
  | .loadScaling sc => ['%', 'L', 'S'] ++ printJsNum sc ++ ['*', '%']
  | .stepRepeat x y i j =>
    if x = 1 ∧ y = 1 ∧ i = 0 ∧ j = 0 then ['%', 'S', 'R', '*', '%']
    else
      ['%', 'S', 'R', 'X'] ++ printNat x ++ 'Y' :: printNat y ++
        'I' :: printRat i ++ 'J' :: printRat j ++ ['*', '%']
  | .fileAttribute name values =>
    ['%', 'T', 'F', '.'] ++ name ++
      (if values.isEmpty then [] else ',' :: joinSep ',' values) ++ ['*', '%']
  | .apertureAttribute name values =>
    ['%', 'T', 'A', '.'] ++ name ++
      (if values.isEmpty then [] else ',' :: joinSep ',' values) ++ ['*', '%']
  | .objectAttribute name values =>
    ['%', 'T', 'O', '.'] ++ name ++
      (if values.isEmpty then [] else ',' :: joinSep ',' values) ++ ['*', '%']
  | .deleteAttribute name =>
    match name with
    | some nm =>
      if nm.isEmpty then ['%', 'T', 'D', '*', '%']
      else ['%', 'T', 'D', '.'] ++ nm ++ ['*', '%']
    | none => ['%', 'T', 'D', '*', '%']
  | .setInterpolationMode m => imodeStr m ++ ['*']
  | .comment text => ['G', '0', '4', ' '] ++ text ++ ['*']
  | .regionStart => ['G', '3', '6', '*']
  | .regionEnd => ['G', '3', '7', '*']
  | .operation d x y i j =>
    (match x with | some v => 'X' :: printInt v | none => []) ++
    (match y with | some v => 'Y' :: printInt v | none => []) ++
    (match i with | some v => 'I' :: printInt v | none => []) ++
    (match j with | some v => 'J' :: printInt v | none => []) ++ dcodeStr d ++ ['*']
  | .selectAperture code => 'D' :: printNat code ++ ['*']
  | .endOfFile => ['M', '0', '2', '*']
  | .setImagePolarity p => ['%', 'I', 'P'] ++ p ++ ['*', '%']
  | .setOffset a b => ['%', 'O', 'F', 'A'] ++ printRat a ++ 'B' :: printRat b ++ ['*', '%']
  | .unknownCommand raw => raw

/-- `GerberFile.getString`: per-command serializations joined with a
newline, plus a trailing newline. -/
def docGetString (ns : List GNode) : Str :=
  joinSep '\n' (ns.map GNode.getString) ++ ['\n']

/-- `GerberNode.parse`: the single-node convenience; fails on zero or
more than one parsed node. -/
def gerberNodeParse (source : Str) : Except Str GNode :=
  match parseGerber source with
  | [] => .error (['F', 'a', 'i', 'l', 'e', 'd', ' ', 't', 'o', ' ', 'p', 'a', 'r', 's', 'e'] ++ source)
  | [n] => .ok n
  | _ => .error (['E', 'x', 'p', 'e', 'c', 't', 'e', 'd', ' ', 's', 'i', 'n', 'g', 'l', 'e'] ++ source)

/-- The checked `SelectAperture` constructor: throws on a code below 10
(`new SelectAperture(code)`). -/
def mkSelectAperture (code : ℤ) : Except Str GNode :=
  if code < 10 then
    .error ['A', 'p', 'e', 'r', 't', 'u', 'r', 'e', ' ', 'c', 'o', 'd', 'e', ' ', '<', '1', '0']
  else .ok (.selectAperture code.toNat)

-- ===========================================================================
-- Renderer replay (GerberToSvg in src/lib/parser/parser.ts)
-- ===========================================================================

/-- An entry of the renderer's aperture table. -/
structure Aperture where
  code : ℕ
  template : Str
  params : List (Option ℚ)
deriving DecidableEq

/-- The renderer's interpolation modes. -/
inductive Interp
  | linear
  | cw
  | ccw
deriving DecidableEq

/-- The renderer's polarity. -/
inductive Pol
  | dark
  | clear
deriving DecidableEq

/-- The fields of a stored `FormatSpecification` node. -/
structure FSpec where
  zeroOmission : Option Char
  coordinateMode : Option Char
  xIntegerDigits : ℕ
  xDecimalDigits : ℕ
  yIntegerDigits : ℕ
  yDecimalDigits : ℕ
deriving DecidableEq

/-- The graphics state (`RenderState`). -/
structure RenderState where
  x : ℚ
  y : ℚ
  aperture : Option Aperture
  interpolation : Interp
  regionMode : Bool
  polarity : Pol
  unit : Str
  formatSpec : Option FSpec
deriving DecidableEq

/-- The renderer's output accumulators.  The source also folds a bounding
box with `Math.min`/`Math.max` starting from infinities; no claim touches
the view box, so the embedding keeps the lossless log of `updateBounds`
calls instead (`none` components standing for NaN). -/
structure RenderAcc where
  apertures : List (ℕ × Aperture)
  paths : List Str
  flashes : List Str
  regionPath : Str
  regions : List Str
  boundsLog : List (Option ℚ × Option ℚ)
deriving DecidableEq

/-- Render options with their defaults. -/
structure RenderOptions where
  scale : ℚ := 1
  strokeColor : Str := ['#', '0', '0', '0']
  fillColor : Str := ['#', '0', '0', '0']
  backgroundColor : Str := ['n', 'o', 'n', 'e']
  padding : ℚ := mkRat 1 10

/-- The initial graphics state. -/
def initState : RenderState :=
  { x := 0, y := 0, aperture := none, interpolation := .linear, regionMode := false,
    polarity := .dark, unit := ['I', 'N'], formatSpec := none }

/-- The initial accumulators. -/
def initAcc : RenderAcc :=
  { apertures := [], paths := [], flashes := [], regionPath := [], regions := [],
    boundsLog := [] }

/-- `Map.set` on the aperture table. -/
def mapSet (m : List (ℕ × Aperture)) (k : ℕ) (v : Aperture) : List (ℕ × Aperture) :=
  if m.any (fun p => p.1 = k) then m.map (fun p => if p.1 = k then (k, v) else p)
  else m ++ [(k, v)]

/-- `Map.get` on the aperture table (`?? null` becomes `Option`). -/
def mapGet (m : List (ℕ × Aperture)) (k : ℕ) : Option Aperture :=
  (m.find? (fun p => p.1 = k)).map (fun p => p.2)

/-- `GerberToSvg.convertCoordinate`: divide by ten to the x-decimal-digit
count of the stored format specification, defaulting to the 2.4 format. -/
def convertCoordinate (st : RenderState) (value : ℤ) : ℚ :=
  match st.formatSpec with
  | none => (value : ℚ) / 10000
  | some fs => (value : ℚ) / 10 ^ fs.xDecimalDigits

/-- `params[k] ?? dflt`: the nullish default applies only to a missing
entry, a NaN entry (`none`) passes through. -/
def getParam (ps : List (Option ℚ)) (k : ℕ) (dflt : Option ℚ) : Option ℚ :=
  match ps[k]? with
  | none => dflt
  | some v => v

/-- `GerberToSvg.getApertureWidth`. -/
def getApertureWidth (st : RenderState) : Option ℚ :=
  match st.aperture with
  | none => some (mkRat 1 100)
  | some ap =>
    match ap.params with
    | [] => some (mkRat 1 100)
    | p :: _ => p

/-- NaN-propagating arithmetic on JavaScript numbers. -/
def omap2 (f : ℚ → ℚ → ℚ) : Option ℚ → Option ℚ → Option ℚ
  | some a, some b => some (f a b)
  | _, _ => none

/-- NaN-propagating subtraction. -/
def oSub : Option ℚ → Option ℚ → Option ℚ := omap2 (fun a b => a - b)

/-- NaN-propagating addition. -/
def oAdd : Option ℚ → Option ℚ → Option ℚ := omap2 (fun a b => a + b)

/-- NaN-propagating `Math.min`. -/
def oMin : Option ℚ → Option ℚ → Option ℚ := omap2 min

/-- NaN-propagating halving. -/
def oHalf (a : Option ℚ) : Option ℚ := a.map (fun v => v / 2)

/-- The `<line/>` text pushed for a stroked D01. -/
def lineStr (o : RenderOptions) (x1 y1 x2 y2 : ℚ) (w : Option ℚ) : Str :=
  ("<line x1=\"".data) ++ printRat x1 ++ ("\" y1=\"".data) ++ printRat y1 ++
    ("\" x2=\"".data) ++ printRat x2 ++ ("\" y2=\"".data) ++ printRat y2 ++
    ("\" stroke=\"".data) ++ o.strokeColor ++ ("\" stroke-width=\"".data) ++ printJsNum w ++
    ("\" stroke-linecap=\"round\"/>".data)

/-- The `<circle/>` text of a circular flash. -/
def circleStr (o : RenderOptions) (x y : ℚ) (r : Option ℚ) : Str :=
  ("<circle cx=\"".data) ++ printRat x ++ ("\" cy=\"".data) ++ printRat y ++
    ("\" r=\"".data) ++ printJsNum r ++ ("\" fill=\"".data) ++ o.fillColor ++ ("\"/>".data)

/-- The `<rect/>` text of a rectangular flash. -/
def rectStr (o : RenderOptions) (rx ry w h : Option ℚ) : Str :=
  ("<rect x=\"".data) ++ printJsNum rx ++ ("\" y=\"".data) ++ printJsNum ry ++
    ("\" width=\"".data) ++ printJsNum w ++ ("\" height=\"".data) ++ printJsNum h ++
    ("\" fill=\"".data) ++ o.fillColor ++ ("\"/>".data)

/-- The `<rect/>` text of an obround flash. -/
def obroundStr (o : RenderOptions) (rx ry w h rad : Option ℚ) : Str :=
  ("<rect x=\"".data) ++ printJsNum rx ++ ("\" y=\"".data) ++ printJsNum ry ++
    ("\" width=\"".data) ++ printJsNum w ++ ("\" height=\"".data) ++ printJsNum h ++
    ("\" rx=\"".data) ++ printJsNum rad ++ ("\" ry=\"".data) ++ printJsNum rad ++
    ("\" fill=\"".data) ++ o.fillColor ++ ("\"/>".data)

/-- `GerberToSvg.createFlash`: the bounds updates it performs and the
shape it returns (`none` when no aperture is selected). -/
def createFlash (o : RenderOptions) (st : RenderState) (x y : ℚ) :
    List (Option ℚ × Option ℚ) × Option Str :=
  match st.aperture with
  | none => ([], none)
  | some ap =>
    if ap.template = ['C'] then
      let diameter := getParam ap.params 0 (some (mkRat 1 100))
      let r := oHalf diameter
      ([(oSub (some x) r, oSub (some y) r), (oAdd (some x) r, oAdd (some y) r)],
       some (circleStr o x y r))
    else if ap.template = ['R'] then
      let w := getParam ap.params 0 (some (mkRat 1 100))
      let h := getParam ap.params 1 w
      let rx := oSub (some x) (oHalf w)
      let ry := oSub (some y) (oHalf h)
      ([(rx, ry), (oAdd rx w, oAdd ry h)], some (rectStr o rx ry w h))
    else if ap.template = ['O'] then
      let w := getParam ap.params 0 (some (mkRat 1 100))
      let h := getParam ap.params 1 w
      let rad := oHalf (oMin w h)
      let rx := oSub (some x) (oHalf w)
      let ry := oSub (some y) (oHalf h)
      ([(rx, ry), (oAdd rx w, oAdd ry h)], some (obroundStr o rx ry w h rad))
    else
      ([], some (circleStr o x y (some (mkRat 1 200))))

/-- `GerberToSvg.handleOperation`. -/
def handleOperation (o : RenderOptions) (st : RenderState) (acc : RenderAcc)
    (d : DCode) (x y i j : Option ℤ) : RenderState × RenderAcc :=
  let newX := match x with | some v => convertCoordinate st v | none => st.x
  let newY := match y with | some v => convertCoordinate st v | none => st.y
  let acc0 := { acc with boundsLog := acc.boundsLog ++ [(some newX, some newY)] }
  let acc1 :=
    match d with
    | .d01 =>
      if st.regionMode then
        let base :=
          if acc0.regionPath.isEmpty then
            ("M ".data) ++ printRat st.x ++ [' '] ++ printRat st.y
          else acc0.regionPath
        { acc0 with regionPath :=
            base ++ (" L ".data) ++ printRat newX ++ [' '] ++ printRat newY }
      else
        match st.aperture with
        | some _ =>
          { acc0 with paths :=
              acc0.paths ++ [lineStr o st.x st.y newX newY (getApertureWidth st)] }
        | none => acc0
    | .d02 =>
      if st.regionMode ∧ ¬acc0.regionPath.isEmpty then
        { acc0 with regionPath :=
            acc0.regionPath ++ (" M ".data) ++ printRat newX ++ [' '] ++ printRat newY }
      else acc0
    | .d03 =>
      match st.aperture with
      | some _ =>
        let fl := createFlash o st newX newY
        match fl.2 with
        | some sh =>
          { acc0 with
            boundsLog := acc0.boundsLog ++ fl.1
            flashes := acc0.flashes ++ [sh] }
        | none => { acc0 with boundsLog := acc0.boundsLog ++ fl.1 }
      | none => acc0
  ({ st with x := newX, y := newY }, acc1)

/-- `GerberToSvg.processCommand`: one step of the replay.  Nodes without
a rendering effect leave state and accumulators unchanged. -/
def processCommand (o : RenderOptions) (st : RenderState) (acc : RenderAcc) :
    GNode → RenderState × RenderAcc
  | .formatSpecification zo cm xi xd yi yd =>
    ({ st with formatSpec := some ⟨zo, cm, xi, xd, yi, yd⟩ }, acc)
  | .unitMode u => ({ st with unit := u }, acc)
  | .apertureDefinition code tpl ps =>
    (st, { acc with apertures := mapSet acc.apertures code ⟨code, tpl, ps⟩ })
  | .selectAperture code => ({ st with aperture := mapGet acc.apertures code }, acc)
  | .setInterpolationMode m =>
    (match m with
     | .g01 => ({ st with interpolation := .linear }, acc)
     | .g02 => ({ st with interpolation := .cw }, acc)
     | .g03 => ({ st with interpolation := .ccw }, acc)
     | _ => (st, acc))
  | .loadPolarity p =>
    ({ st with polarity := if p = ['D'] then .dark else .clear }, acc)
  | .regionStart => ({ st with regionMode := true }, { acc with regionPath := [] })
  | .regionEnd =>
    ({ st with regionMode := false },
      if acc.regionPath.isEmpty then { acc with regionPath := [] }
      else
        { acc with
          regions := acc.regions ++ [acc.regionPath ++ (" Z".data)]
          regionPath := [] })
  | .operation d x y i j => handleOperation o st acc d x y i j
  | _ => (st, acc)

/-- Replay a command list from a given state. -/
def replayFrom (o : RenderOptions) (start : RenderState × RenderAcc)
    (cmds : List GNode) : RenderState × RenderAcc :=
  cmds.foldl (fun p n => processCommand o p.1 p.2 n) start

/-- The state-collection pass of `GerberToSvg.render` on a document. -/
def replay (o : RenderOptions) (cmds : List GNode) : RenderState × RenderAcc :=
  replayFrom o (initState, initAcc) cmds

/-- The most recent `FormatSpecification` node of a command list. -/
def lastFS (cmds : List GNode) : Option FSpec :=
  cmds.foldl
    (fun a n =>
      match n with
      | .formatSpecification zo cm xi xd yi yd => some ⟨zo, cm, xi, xd, yi, yd⟩
      | _ => a)
    none

theorem processCommand_formatSpec (o : RenderOptions) (st : RenderState)
    (acc : RenderAcc) (n : GNode) :
    (processCommand o st acc n).1.formatSpec =
      (match n with
       | .formatSpecification zo cm xi xd yi yd => some ⟨zo, cm, xi, xd, yi, yd⟩
       | _ => st.formatSpec) := by
  cases n
  case setInterpolationMode m => cases m <;> rfl
  all_goals rfl

theorem replayFrom_formatSpec (o : RenderOptions) :
    ∀ (cmds : List GNode) (p : RenderState × RenderAcc),
      (replayFrom o p cmds).1.formatSpec =
        cmds.foldl
          (fun a n =>
            match n with
            | .formatSpecification zo cm xi xd yi yd => some ⟨zo, cm, xi, xd, yi, yd⟩
            | _ => a)
          p.1.formatSpec := by
  intro cmds
  induction cmds with
  | nil => intro p; rfl
  | cons c rest ih =>
    intro p
    have hstep : replayFrom o p (c :: rest) =
        replayFrom o (processCommand o p.1 p.2 c) rest := rfl
    rw [hstep, ih (processCommand o p.1 p.2 c), List.foldl_cons,
      processCommand_formatSpec]

/-- The replayed graphics state holds exactly the most recent format
specification (none before the first). -/
theorem replay_formatSpec (o : RenderOptions) (cmds : List GNode) :
    (replay o cmds).1.formatSpec = lastFS cmds := by
  rw [replay, replayFrom_formatSpec o cmds (initState, initAcc), lastFS]
  rfl

theorem tokenizeLoop_nil : ∀ f, tokenizeLoop f [] = []
  | 0 => rfl
  | _ + 1 => rfl

/-- `createFlash` returns a shape whenever an aperture is selected, for
every template (the final branch is a catch-all default dot). -/
theorem createFlash_shape (o : RenderOptions) (st : RenderState) (ap : Aperture)
    (hap : st.aperture = some ap) (x y : ℚ) :
    ∃ sh, (createFlash o st x y).2 = some sh := by
  simp only [createFlash, hap]
  split_ifs <;> exact ⟨_, rfl⟩

-- ===========================================================================
-- The claims
-- ===========================================================================

/-- C2: during rendering, a signed integer coordinate literal `v` of an
operation is converted to `v / 10 ^ d` where `d` is the x-decimal-digit
count of the most recent format specification, used for both the X and
the Y axis, and `d = 4` when no format specification has been seen. -/
theorem c2_convert_coordinate_latest_fs (o : RenderOptions) (cmds : List GNode)
    (v : ℤ) (d : DCode) (x y i j : Option ℤ) :
    (convertCoordinate (replay o cmds).1 v =
      (v : ℚ) / 10 ^ (match lastFS cmds with
        | some fs => fs.xDecimalDigits
        | none => 4)) ∧
    ((handleOperation o (replay o cmds).1 (replay o cmds).2 d x y i j).1.x =
      (match x with
       | some w => (w : ℚ) / 10 ^ (match lastFS cmds with
           | some fs => fs.xDecimalDigits
           | none => 4)
       | none => (replay o cmds).1.x)) ∧
    ((handleOperation o (replay o cmds).1 (replay o cmds).2 d x y i j).1.y =
      (match y with
       | some w => (w : ℚ) / 10 ^ (match lastFS cmds with
           | some fs => fs.xDecimalDigits
           | none => 4)
       | none => (replay o cmds).1.y)) := by
  have hfs := replay_formatSpec o cmds
  have hconv : ∀ w : ℤ, convertCoordinate (replay o cmds).1 w =
      (w : ℚ) / 10 ^ (match lastFS cmds with
        | some fs => fs.xDecimalDigits
        | none => 4) := by
    intro w
    rw [convertCoordinate, hfs]
    cases lastFS cmds with
    | none => norm_num
    | some fs => rfl
  refine ⟨hconv v, ?_, ?_⟩
  · cases x with
    | none => rfl
    | some w => exact hconv w
  · cases y with
    | none => rfl
    | some w => exact hconv w

/-- C3: for consecutive operations the point used for the second is its
own converted coordinates where present and the previous operation's
point for each omitted axis; after every operation, regardless of its
d-code, the graphics-state current point becomes that point. -/
theorem c3_operation_modal_point (o : RenderOptions) (st : RenderState)
    (acc : RenderAcc) (d1 d2 : DCode) (x1 y1 i1 j1 x2 y2 i2 j2 : Option ℤ) :
    ((handleOperation o st acc d1 x1 y1 i1 j1).1.x =
      (match x1 with | some v => convertCoordinate st v | none => st.x)) ∧
    ((handleOperation o st acc d1 x1 y1 i1 j1).1.y =
      (match y1 with | some v => convertCoordinate st v | none => st.y)) ∧
    ((handleOperation o (handleOperation o st acc d1 x1 y1 i1 j1).1
        (handleOperation o st acc d1 x1 y1 i1 j1).2 d2 x2 y2 i2 j2).1.x =
      (match x2 with
       | some v => convertCoordinate (handleOperation o st acc d1 x1 y1 i1 j1).1 v
       | none => (match x1 with | some v => convertCoordinate st v | none => st.x))) ∧
    ((handleOperation o (handleOperation o st acc d1 x1 y1 i1 j1).1
        (handleOperation o st acc d1 x1 y1 i1 j1).2 d2 x2 y2 i2 j2).1.y =
      (match y2 with
       | some v => convertCoordinate (handleOperation o st acc d1 x1 y1 i1 j1).1 v
       | none => (match y1 with | some v => convertCoordinate st v | none => st.y))) := by
  cases x1 <;> cases y1 <;> cases x2 <;> cases y2 <;> exact ⟨rfl, rfl, rfl, rfl⟩

/-- A replay exhibiting a flash produced inside region mode: define an
aperture, select it, start a region, and flash. -/
def regionFlashCmds : List GNode :=
  [GNode.apertureDefinition 10 ['C'] [some (mkRat 1 2)], GNode.selectAperture 10,
    GNode.regionStart, GNode.operation DCode.d03 (some 5) (some 5) none none]

/-- C4 counterexample: with region mode on at the D03, the replay still
appends a flash — the D03 is not ignored. -/
theorem c4_region_d03_counterexample :
    (replay {} (regionFlashCmds.take 3)).1.regionMode = true ∧
    ((replay {} regionFlashCmds).2.flashes).length = 1 := by
  constructor <;> decide

/-- C4 (amended): region mode does not suppress D03.  With the region
flag true, a D03 with an aperture selected appends exactly one flash
shape, and only a missing aperture makes it a no-op on the flashes. -/
theorem c4_region_d03_flashes (o : RenderOptions) (st : RenderState)
    (acc : RenderAcc) (x y i j : Option ℤ) (hreg : st.regionMode = true) :
    (st.aperture = none →
      (handleOperation o st acc DCode.d03 x y i j).2.flashes = acc.flashes) ∧
    (∀ ap, st.aperture = some ap →
      ∃ sh, (handleOperation o st acc DCode.d03 x y i j).2.flashes =
        acc.flashes ++ [sh]) := by
  constructor
  · intro hap
    simp only [handleOperation, hap]
  · intro ap hap
    obtain ⟨sh, hsh⟩ := createFlash_shape o st ap hap
      (match x with | some v => convertCoordinate st v | none => st.x)
      (match y with | some v => convertCoordinate st v | none => st.y)
    refine ⟨sh, ?_⟩
    simp only [handleOperation, hap, hsh]

/-- C4 witness: a concrete region-mode state with a circle aperture where
the amended theorem yields the appended flash. -/
theorem c4_region_d03_flashes_witness :
    ∃ sh, (handleOperation {}
        { initState with
            regionMode := true
            aperture := some ⟨10, ['C'], [some (mkRat 1 2)]⟩ }
        initAcc DCode.d03
        (some 5) (some 5) none none).2.flashes = initAcc.flashes ++ [sh] :=
  (c4_region_d03_flashes {} _ initAcc (some 5) (some 5) none none rfl).2
    ⟨10, ['C'], [some (mkRat 1 2)]⟩ rfl

/-- C5 counterexample: an unterminated extended block whose content is a
recognised construct does not become an UnknownCommand — the stray-`%`
input `%MOMM*` parses to a UnitMode node. -/
theorem c5_unterminated_counterexample :
    parseGerber ('%' :: ('M' :: ('O' :: ('M' :: ('M' :: ['*']))))) =
      [GNode.unitMode ['M', 'M']] := by
  decide

/-- C5 (amended): when input ends inside an unterminated extended block,
the tokenizer emits the accumulated characters as a tentative
EXTENDED_COMMAND token and the parser dispatches it through the ordinary
extended-command table — an UnknownCommand results only when no
recognised prefix matches. -/
theorem c5_unterminated_tentative_token (q : Str) (hq : '%' ∉ q) :
    tokenize ('%' :: q) = [Token.mk TokType.extendedCommand q, Token.mk TokType.eof []] ∧
    parseGerber ('%' :: q) = [parseExtendedCommand q] := by
  have htw : q.takeWhile (fun x => x ≠ '%') = q := by
    have h := takeWhile_append_all (a := q) (p := fun x => x ≠ '%') []
      (fun c hc => by
        simp only [ne_eq, decide_eq_true_eq]
        intro hcc
        exact hq (hcc ▸ hc))
    simpa using h
  have hdrop : q.drop (q.length + 1) = [] := by
    apply List.drop_eq_nil_of_le
    omega
  have haux : tokenizeAux ('%' :: q) = [Token.mk TokType.extendedCommand q] := by
    show tokenizeLoop (('%' :: q).length + 1) ('%' :: q) = _
    rw [show ('%' :: q).length + 1 = q.length + 1 + 1 from by simp]
    rw [tokenizeLoop_succ_pct, htw, hdrop, tokenizeLoop_nil]
  have htok : tokenize ('%' :: q) =
      [Token.mk TokType.extendedCommand q, Token.mk TokType.eof []] := by
    rw [tokenize, haux]
    rfl
  refine ⟨htok, ?_⟩
  rw [parseGerber, htok]
  rfl

/-- C5 witness: an unrecognised unterminated block tokenizes tentatively
and parses through the normal dispatch. -/
theorem c5_unterminated_tentative_token_witness :
    tokenize ('%' :: ['Z', 'Z']) =
      [Token.mk TokType.extendedCommand ['Z', 'Z'], Token.mk TokType.eof []] ∧
    parseGerber ('%' :: ['Z', 'Z']) = [parseExtendedCommand ['Z', 'Z']] :=
  c5_unterminated_tentative_token ['Z', 'Z'] (by decide)

/-- C6 (code bug): when the input ends inside a command with no
terminating star, `readCommand` still executes `value.slice(0, -1)` and
so strips the final accumulated character, contradicting both the spec
and the source's own "remove trailing *" comment: tokenizing `X100D0`
yields the command value `X100D`. -/
theorem c6_eof_truncates_command :
    tokenize ['X', '1', '0', '0', 'D', '0'] =
      [Token.mk TokType.command ['X', '1', '0', '0', 'D'], Token.mk TokType.eof []] := by
  decide

/-- C7: the single-node convenience fails exactly when the source parses
to zero or more than one node, and returns the node when it parses to
exactly one. -/
theorem c7_single_node_parse (s : Str) :
    ((∃ e, gerberNodeParse s = Except.error e) ↔ (parseGerber s).length ≠ 1) ∧
    (∀ n, parseGerber s = [n] → gerberNodeParse s = Except.ok n) := by
  constructor
  · rcases hp : parseGerber s with _ | ⟨n1, _ | ⟨n2, rest⟩⟩
    · simp [gerberNodeParse, hp]
    · simp [gerberNodeParse, hp]
    · simp [gerberNodeParse, hp]
  · intro n hn
    simp [gerberNodeParse, hn]

/-- C7 witness: a single-command source returns its node. -/
theorem c7_single_node_parse_witness :
    gerberNodeParse ['D', '1', '0', '*'] = Except.ok (GNode.selectAperture 10) :=
  (c7_single_node_parse ['D', '1', '0', '*']).2 (GNode.selectAperture 10) (by decide)

/-- C8: constructing a SelectAperture with a code below 10 throws, and
with a code of at least 10 succeeds storing that code. -/
theorem c8_select_aperture_code_check (code : ℤ) :
    (code < 10 → ∃ e, mkSelectAperture code = Except.error e) ∧
    (10 ≤ code → mkSelectAperture code = Except.ok (GNode.selectAperture code.toNat) ∧
      (code.toNat : ℤ) = code) := by
  constructor
  · intro h
    exact ⟨_, by rw [mkSelectAperture, if_pos h]⟩
  · intro h
    refine ⟨by rw [mkSelectAperture, if_neg (not_lt.mpr h)], ?_⟩
    omega

/-- C8 witness: code 5 fails, code 10 succeeds. -/
theorem c8_select_aperture_code_check_witness :
    (∃ e, mkSelectAperture 5 = Except.error e) ∧
      mkSelectAperture 10 = Except.ok (GNode.selectAperture 10) :=
  ⟨(c8_select_aperture_code_check 5).1 (by decide),
    ((c8_select_aperture_code_check 10).2 (by decide)).1⟩

/-- C9: every COMMAND token the tokenizer produces, on any input, has a
star-free value: the command is cut at the first star and the star is
stripped before the token is emitted. -/
theorem c9_command_tokens_star_free (s : Str) (t : Token)
    (ht : t ∈ tokenize s) (hc : t.type = TokType.command) : '*' ∉ t.value :=
  ((tokenize_ok s t ht).1 hc).1

/-- C9 witness: the command token of `X100Y200D01*` and its star-free
value. -/
theorem c9_command_tokens_star_free_witness :
    Token.mk TokType.command ['X', '1', '0', '0', 'Y', '2', '0', '0', 'D', '0', '1'] ∈
      tokenize (['X', '1', '0', '0', 'Y', '2', '0', '0', 'D', '0', '1', '*'] : Str) ∧
    '*' ∉ (Token.mk TokType.command
      ['X', '1', '0', '0', 'Y', '2', '0', '0', 'D', '0', '1']).value :=
  ⟨by decide, c9_command_tokens_star_free
    ['X', '1', '0', '0', 'Y', '2', '0', '0', 'D', '0', '1', '*']
    (Token.mk TokType.command ['X', '1', '0', '0', 'Y', '2', '0', '0', 'D', '0', '1'])
    (by decide) rfl⟩

/-- C10: a bare `D<n>*` with a single digit 4 ≤ n ≤ 9 parses neither to a
SelectAperture (code below 10) nor to an Operation, but to an
UnknownCommand whose raw text is the command text with the star back. -/
theorem c10_low_dcode_unknown (n : ℕ) (h4 : 4 ≤ n) (h9 : n ≤ 9) :
    parseGerber ['D', Char.ofNat (48 + n), '*'] =
      [GNode.unknownCommand ['D', Char.ofNat (48 + n), '*']] := by
  interval_cases n <;> decide

/-- C10 witness: `D5*` parses to the UnknownCommand `D5*`. -/
theorem c10_low_dcode_unknown_witness :
    parseGerber ['D', '5', '*'] = [GNode.unknownCommand ['D', '5', '*']] :=
  c10_low_dcode_unknown 5 (by decide) (by decide)

-- ===========================================================================
-- Round-trip analysis (C1): utilities and character classes
-- ===========================================================================

theorem dropWhile_idem (p : Char → Bool) (l : Str) :
    (l.dropWhile p).dropWhile p = l.dropWhile p := by
  induction l with
  | nil => rfl
  | cons x xs ih =>
    rw [List.dropWhile_cons]
    by_cases hp : p x = true
    · rw [if_pos hp]; exact ih
    · rw [if_neg hp, List.dropWhile_cons, if_neg hp]

theorem isDigit_toNat {c : Char} (h : c.isDigit = true) :
    48 ≤ c.toNat ∧ c.toNat ≤ 57 := by
  simp only [Char.isDigit, Bool.and_eq_true, decide_eq_true_eq] at h
  exact h

theorem digitVal_lt_ten {c : Char} (h : c.isDigit = true) : digitVal c < 10 := by
  obtain ⟨h1, h2⟩ := isDigit_toNat h
  rw [digitVal]
  omega

/-- Digit characters are none of the letters the parser scans for. -/
theorem isDigit_ne_letters {c : Char} (h : c.isDigit = true) :
    c ≠ 'X' ∧ c ≠ 'Y' ∧ c ≠ 'I' ∧ c ≠ 'J' ∧ c ≠ 'D' ∧ c ≠ 'G' ∧ c ≠ 'M' ∧
      c ≠ 'A' ∧ c ≠ 'B' ∧ c ≠ ',' := by
  refine ⟨?_, ?_, ?_, ?_, ?_, ?_, ?_, ?_, ?_, ?_⟩ <;>
    (intro hc; subst hc; exact absurd h (by decide))

theorem printNat_single {n : ℕ} (h : n < 10) : printNat n = [digitChar n] := by
  interval_cases n <;> rfl

theorem stripTrailingStar_concat (a : Str) : stripTrailingStar (a ++ ['*']) = a := by
  rw [stripTrailingStar, List.getLast?_concat, if_pos rfl, List.dropLast_concat]

theorem cmdHead_cons {c : Char} {cs : Str} (h1 : isTokWs c = false) (h2 : c ≠ '%') :
    CmdHead (c :: cs) := by
  intro x hx
  simp only [List.head?_cons, Option.some.injEq] at hx
  subst hx
  exact ⟨h1, h2⟩

theorem hasPre_false_of_not_mem {p s : Str} {c : Char} (hc : c ∈ p) (hs : c ∉ s) :
    hasPre p s = false := by
  cases hp : hasPre p s
  · rfl
  · obtain ⟨r, rfl⟩ := hasPre_iff_append.mp hp
    exact absurd (List.mem_append.mpr (Or.inl hc)) hs

theorem head_append_cases {a b : Str} {ch : Char} (h : (a ++ b).head? = some ch) :
    a.head? = some ch ∨ (a = [] ∧ b.head? = some ch) := by
  cases a with
  | nil => exact Or.inr ⟨rfl, h⟩
  | cons x xs =>
    simp only [List.cons_append, List.head?_cons] at h ⊢
    exact Or.inl h

-- ===========================================================================
-- Round-trip analysis (C1): every parseFloat value is decimal
-- ===========================================================================

theorem isDec_signedVal (neg : Bool) (n k : ℕ) : IsDec (signedVal neg n (10 ^ k)) := by
  refine ⟨k, ?_⟩
  have hd := Rat.den_dvd (if neg then -(n : ℤ) else (n : ℤ)) ((10 : ℤ) ^ k)
  rw [signedVal, Rat.mkRat_eq_divInt]
  have hcast : ((10 ^ k : ℕ) : ℤ) = (10 : ℤ) ^ k := by push_cast; ring
  rw [hcast]
  exact_mod_cast hd

theorem isDec_one_den (neg : Bool) (n : ℕ) : IsDec (signedVal neg n 1) := by
  have h := isDec_signedVal neg n 0
  simpa using h

theorem jsNumCore_isDec {neg : Bool} {s : Str} {q : ℚ}
    (h : jsNumCore neg s = some q) : IsDec q := by
  simp only [jsNumCore] at h
  split_ifs at h with h1 h2 h3 h4
  · injection h with h
    subst h
    exact isDec_one_den _ _
  · injection h with h
    subst h
    exact isDec_signedVal _ _ _
  · injection h with h
    subst h
    exact isDec_one_den _ _

theorem jsNumMatch_isDec {s : Str} {q : ℚ} (h : jsNumMatch s = some q) : IsDec q :=
  jsNumCore_isDec h

theorem parseFloat_isDec {s : Str} {q : ℚ} (h : parseFloat s = some q) : IsDec q :=
  jsNumMatch_isDec h

theorem isDec_zero : IsDec 0 := ⟨0, by norm_num⟩

theorem findNumAfter_isDec {c : Char} : ∀ {s : Str} {q : ℚ},
    findNumAfter c s = some q → IsDec q := by
  intro s
  induction s with
  | nil => intro q h; simp [findNumAfter] at h
  | cons x xs ih =>
    intro q h
    simp only [findNumAfter] at h
    by_cases hx : x = c
    · rw [if_pos hx] at h
      cases hm : jsNumMatch xs with
      | some v =>
        rw [hm] at h
        injection h with h
        subst h
        exact jsNumMatch_isDec hm
      | none =>
        rw [hm] at h
        exact ih h
    · rw [if_neg hx] at h
      exact ih h

/-- A `NaN` never re-reads as a number. -/
theorem parseFloat_nan : parseFloat ['N', 'a', 'N'] = none := by decide

theorem parseFloat_printJsNum {a : Option ℚ}
    (ha : ∀ q, a = some q → IsDec q) : parseFloat (printJsNum a) = a := by
  cases a with
  | none => exact parseFloat_nan
  | some q => exact parseFloat_printRat (ha q rfl)

theorem printJsNum_ne_nil (a : Option ℚ) : printJsNum a ≠ [] := by
  cases a with
  | none => simp [printJsNum]
  | some q => simpa [printJsNum] using printRat_ne_nil q

theorem printJsNum_chars {a : Option ℚ} {c : Char} (hc : c ∈ printJsNum a) :
    c.isDigit = true ∨ c = '-' ∨ c = '.' ∨ c = 'N' ∨ c = 'a' := by
  cases a with
  | none =>
    have h2 : c = 'N' ∨ c = 'a' := by
      have h3 := hc
      simp only [printJsNum, List.mem_cons, List.not_mem_nil, or_false] at h3
      tauto
    rcases h2 with rfl | rfl
    · exact Or.inr (Or.inr (Or.inr (Or.inl rfl)))
    · exact Or.inr (Or.inr (Or.inr (Or.inr rfl)))
  | some q =>
    rcases printRat_chars hc with h | h | h
    · exact Or.inl h
    · exact Or.inr (Or.inl h)
    · exact Or.inr (Or.inr (Or.inl h))

-- ===========================================================================
-- Round-trip analysis (C1): split and join
-- ===========================================================================

theorem splitChar_ne_nil (sep : Char) : ∀ (s : Str), splitChar sep s ≠ [] := by
  intro s
  cases s with
  | nil => simp [splitChar]
  | cons c cs =>
    simp only [splitChar]
    cases hsc : splitChar sep cs with
    | nil => simp
    | cons q qs =>
      by_cases hc : c = sep
      · simp [hc]
      · simp [hc]

theorem splitChar_no_sep (sep : Char) : ∀ (s : Str), ∀ p ∈ splitChar sep s, sep ∉ p := by
  intro s
  induction s with
  | nil =>
    intro p hp
    simp only [splitChar, List.mem_singleton] at hp
    subst hp
    simp
  | cons c cs ih =>
    intro p hp
    cases hsc : splitChar sep cs with
    | nil => exact absurd hsc (splitChar_ne_nil sep cs)
    | cons q qs =>
      by_cases hc : c = sep
      · simp only [splitChar, hsc, hc, eq_self_iff_true, if_true, List.mem_cons] at hp
        rcases hp with rfl | rfl | hp
        · simp
        · exact ih p (by rw [hsc]; exact List.mem_cons_self p qs)
        · exact ih p (by rw [hsc]; exact List.mem_cons_of_mem q hp)
      · simp only [splitChar, hsc, if_neg hc, List.mem_cons] at hp
        rcases hp with rfl | hp
        · intro hm
          rcases List.mem_cons.mp hm with heq | hm
          · exact hc heq.symm
          · exact ih q (by rw [hsc]; exact List.mem_cons_self q qs) hm
        · exact ih p (by rw [hsc]; exact List.mem_cons_of_mem q hp)

theorem splitChar_of_no_sep {sep : Char} : ∀ {s : Str}, sep ∉ s →
    splitChar sep s = [s] := by
  intro s
  induction s with
  | nil => intro _; rfl
  | cons c cs ih =>
    intro h
    have hc : c ≠ sep := fun hh => h (by simp [hh])
    have hcs : sep ∉ cs := fun hm => h (by simp [hm])
    simp only [splitChar, ih hcs]
    rw [if_neg hc]

theorem splitChar_cons_sep {sep : Char} : ∀ {s : Str} (r : Str), sep ∉ s →
    splitChar sep (s ++ sep :: r) = s :: splitChar sep r := by
  intro s
  induction s with
  | nil =>
    intro r _
    cases hsc : splitChar sep r with
    | nil => exact absurd hsc (splitChar_ne_nil sep r)
    | cons q qs =>
      simp only [List.nil_append, splitChar, hsc, eq_self_iff_true, if_true]
  | cons c cs ih =>
    intro r h
    have hc : c ≠ sep := fun hh => h (by simp [hh])
    have hcs : sep ∉ cs := fun hm => h (by simp [hm])
    have hrec := ih r hcs
    have hstep : splitChar sep ((c :: cs) ++ sep :: r) =
        (match splitChar sep (cs ++ sep :: r) with
         | [] => [[c]]
         | p :: ps => if c = sep then [] :: p :: ps else (c :: p) :: ps) := rfl
    rw [hstep, hrec]
    show (if c = sep then [] :: cs :: splitChar sep r
      else (c :: cs) :: splitChar sep r) = (c :: cs) :: splitChar sep r
    rw [if_neg hc]

theorem splitChar_joinSep {sep : Char} : ∀ {l : List Str}, l ≠ [] →
    (∀ p ∈ l, sep ∉ p) → splitChar sep (joinSep sep l) = l := by
  intro l
  induction l with
  | nil => intro h _; exact absurd rfl h
  | cons s ss ih =>
    intro _ hall
    cases ss with
    | nil =>
      rw [joinSep]
      exact splitChar_of_no_sep (hall s (by simp))
    | cons s2 ss2 =>
      have hj : joinSep sep (s :: s2 :: ss2) = s ++ sep :: joinSep sep (s2 :: ss2) := rfl
      rw [hj, splitChar_cons_sep _ (hall s (by simp)),
        ih (by simp) (fun p hp => hall p (by simp [hp]))]

theorem joinSep_ne_nil {sep : Char} {s : Str} (ss : List Str) (hs : s ≠ []) :
    joinSep sep (s :: ss) ≠ [] := by
  cases ss with
  | nil => simpa [joinSep] using hs
  | cons s2 ss2 =>
    have hj : joinSep sep (s :: s2 :: ss2) = s ++ sep :: joinSep sep (s2 :: ss2) := rfl
    rw [hj]
    cases s with
    | nil => exact absurd rfl hs
    | cons c cs => simp

-- ===========================================================================
-- Round-trip analysis (C1): the scanners applied to printed text
-- ===========================================================================

theorem printInt_chars {v : ℤ} {c : Char} (hc : c ∈ printInt v) :
    c.isDigit = true ∨ c = '-' := by
  cases v with
  | ofNat n =>
    simp only [printInt] at hc
    exact Or.inl (printNat_digits hc)
  | negSucc n =>
    simp only [printInt, List.mem_cons] at hc
    rcases hc with rfl | hc
    · exact Or.inr rfl
    · exact Or.inl (printNat_digits hc)

theorem takeWhile_digits_print (n : ℕ) {r : Str}
    (hr : ∀ ch, r.head? = some ch → ch.isDigit = false) :
    (printNat n ++ r).takeWhile Char.isDigit = printNat n := by
  rw [takeWhile_append_all r (fun c hc => printNat_digits hc), takeWhile_head_neg hr,
    List.append_nil]

theorem natSub_print (n : ℕ) {r : Str}
    (hr : ∀ ch, r.head? = some ch → ch.isDigit = false) :
    natSub (printNat n ++ r) = some n := by
  have h1 := takeWhile_digits_print n hr
  have h2 : (printNat n).isEmpty = false := by
    simpa [List.isEmpty_iff] using printNat_ne_nil n
  simp [natSub, h1, h2, parseNatDigits_printNat]

theorem intSub_default {s : Str} (h1 : s.head? ≠ some '-') (h2 : s.head? ≠ some '+') :
    intSub s = (natSub s).map (fun n => (n : ℤ)) := by
  rw [intSub.eq_def]
  split <;> simp_all

theorem intLen_default {s : Str} (h1 : s.head? ≠ some '-') (h2 : s.head? ≠ some '+') :
    intLen s = (if (s.takeWhile Char.isDigit).isEmpty then none
      else some (s.takeWhile Char.isDigit).length) := by
  rw [intLen.eq_def]
  split <;> simp_all

theorem printNat_head_not_sign (n : ℕ) (r : Str) :
    (printNat n ++ r).head? ≠ some '-' ∧ (printNat n ++ r).head? ≠ some '+' := by
  obtain ⟨d, ds, hds⟩ := List.exists_cons_of_ne_nil (printNat_ne_nil n)
  have hd : d.isDigit = true := printNat_digits (by rw [hds]; simp)
  obtain ⟨hm, hp, _⟩ := isDigit_excl hd
  rw [hds]
  constructor
  · simp only [List.cons_append, List.head?_cons, ne_eq, Option.some.injEq]
    exact fun hh => hm hh
  · simp only [List.cons_append, List.head?_cons, ne_eq, Option.some.injEq]
    exact fun hh => hp hh

theorem intSub_print (v : ℤ) {r : Str}
    (hr : ∀ ch, r.head? = some ch → ch.isDigit = false) :
    intSub (printInt v ++ r) = some v := by
  cases v with
  | ofNat n =>
    obtain ⟨h1, h2⟩ := printNat_head_not_sign n r
    rw [printInt, intSub_default h1 h2, natSub_print n hr]
    rfl
  | negSucc n =>
    have hstep : intSub (printInt (Int.negSucc n) ++ r) =
        (natSub (printNat (n + 1) ++ r)).map (fun m => -(m : ℤ)) := rfl
    rw [hstep, natSub_print (n + 1) hr]
    rfl

theorem intLen_print (v : ℤ) {r : Str}
    (hr : ∀ ch, r.head? = some ch → ch.isDigit = false) :
    intLen (printInt v ++ r) = some (printInt v).length := by
  cases v with
  | ofNat n =>
    obtain ⟨h1, h2⟩ := printNat_head_not_sign n r
    rw [printInt, intLen_default h1 h2, takeWhile_digits_print n hr]
    have h2e : (printNat n).isEmpty = false := by
      simpa [List.isEmpty_iff] using printNat_ne_nil n
    simp [h2e]
  | negSucc n =>
    have hstep : intLen (printInt (Int.negSucc n) ++ r) =
        ((if ((printNat (n + 1) ++ r).takeWhile Char.isDigit).isEmpty then none
          else some ((printNat (n + 1) ++ r).takeWhile Char.isDigit).length).map
            (fun m => m + 1)) := rfl
    rw [hstep, takeWhile_digits_print (n + 1) hr]
    have h2e : (printNat (n + 1)).isEmpty = false := by
      simpa [List.isEmpty_iff] using printNat_ne_nil (n + 1)
    simp [h2e, printInt]

theorem eatCoord_print (c : Char) (v : ℤ) {r : Str}
    (hr : ∀ ch, r.head? = some ch → ch.isDigit = false) :
    eatCoord c (c :: (printInt v ++ r)) = r := by
  have hstep : eatCoord c (c :: (printInt v ++ r)) =
      (if c = c then
        (match intLen (printInt v ++ r) with
         | some n => (printInt v ++ r).drop n
         | none => c :: (printInt v ++ r))
       else c :: (printInt v ++ r)) := rfl
  rw [hstep, if_pos rfl, intLen_print v hr]
  show (printInt v ++ r).drop (printInt v).length = r
  exact List.drop_left _ _

theorem eatCoord_ne {c x : Char} (hx : x ≠ c) (l : Str) :
    eatCoord c (x :: l) = x :: l := by
  have hstep : eatCoord c (x :: l) =
      (if x = c then
        (match intLen l with
         | some n => l.drop n
         | none => x :: l)
       else x :: l) := rfl
  rw [hstep, if_neg hx]

theorem findIntAfter_cons_ne {c x : Char} (hx : x ≠ c) (xs : Str) :
    findIntAfter c (x :: xs) = findIntAfter c xs := by
  simp only [findIntAfter]
  rw [if_neg hx]

theorem findIntAfter_skip {c : Char} : ∀ {a : Str}, c ∉ a → ∀ b,
    findIntAfter c (a ++ b) = findIntAfter c b := by
  intro a
  induction a with
  | nil => intro _ b; rfl
  | cons x xs ih =>
    intro hna b
    have hx : x ≠ c := fun hh => hna (by simp [hh])
    rw [List.cons_append, findIntAfter_cons_ne hx, ih (fun hm => hna (by simp [hm])) b]

theorem findIntAfter_none {c : Char} : ∀ {s : Str}, c ∉ s → findIntAfter c s = none := by
  intro s
  induction s with
  | nil => intro _; rfl
  | cons x xs ih =>
    intro hna
    have hx : x ≠ c := fun hh => hna (by simp [hh])
    rw [findIntAfter_cons_ne hx]
    exact ih (fun hm => hna (by simp [hm]))

theorem findIntAfter_here (c : Char) (v : ℤ) {r : Str}
    (hr : ∀ ch, r.head? = some ch → ch.isDigit = false) :
    findIntAfter c (c :: (printInt v ++ r)) = some v := by
  have hstep : findIntAfter c (c :: (printInt v ++ r)) =
      (if c = c then
        (match intSub (printInt v ++ r) with
         | some w => some w
         | none => findIntAfter c (printInt v ++ r))
       else findIntAfter c (printInt v ++ r)) := rfl
  rw [hstep, if_pos rfl, intSub_print v hr]

theorem findNatAfter_cons_ne {c x : Char} (hx : x ≠ c) (xs : Str) :
    findNatAfter c (x :: xs) = findNatAfter c xs := by
  simp only [findNatAfter]
  rw [if_neg hx]

theorem findNatAfter_skip {c : Char} : ∀ {a : Str}, c ∉ a → ∀ b,
    findNatAfter c (a ++ b) = findNatAfter c b := by
  intro a
  induction a with
  | nil => intro _ b; rfl
  | cons x xs ih =>
    intro hna b
    have hx : x ≠ c := fun hh => hna (by simp [hh])
    rw [List.cons_append, findNatAfter_cons_ne hx, ih (fun hm => hna (by simp [hm])) b]

theorem findNatAfter_here (c : Char) (n : ℕ) {r : Str}
    (hr : ∀ ch, r.head? = some ch → ch.isDigit = false) :
    findNatAfter c (c :: (printNat n ++ r)) = some n := by
  have hstep : findNatAfter c (c :: (printNat n ++ r)) =
      (if c = c then
        (match natSub (printNat n ++ r) with
         | some w => some w
         | none => findNatAfter c (printNat n ++ r))
       else findNatAfter c (printNat n ++ r)) := rfl
  rw [hstep, if_pos rfl, natSub_print n hr]

theorem findNumAfter_cons_ne {c x : Char} (hx : x ≠ c) (xs : Str) :
    findNumAfter c (x :: xs) = findNumAfter c xs := by
  simp only [findNumAfter]
  rw [if_neg hx]

theorem findNumAfter_skip {c : Char} : ∀ {a : Str}, c ∉ a → ∀ b,
    findNumAfter c (a ++ b) = findNumAfter c b := by
  intro a
  induction a with
  | nil => intro _ b; rfl
  | cons x xs ih =>
    intro hna b
    have hx : x ≠ c := fun hh => hna (by simp [hh])
    rw [List.cons_append, findNumAfter_cons_ne hx, ih (fun hm => hna (by simp [hm])) b]

theorem findNumAfter_here (c : Char) {q : ℚ} (hq : IsDec q) {r : Str} (hr : NextOK r) :
    findNumAfter c (c :: (printRat q ++ r)) = some q := by
  have hstep : findNumAfter c (c :: (printRat q ++ r)) =
      (if c = c then
        (match jsNumMatch (printRat q ++ r) with
         | some w => some w
         | none => findNumAfter c (printRat q ++ r))
       else findNumAfter c (printRat q ++ r)) := rfl
  rw [hstep, if_pos rfl, jsNumMatch_printRat hq hr]

theorem findDCode_cons_ne {x : Char} (hx : x ≠ 'D') (l : Str) :
    findDCode (x :: l) = findDCode l := by
  rw [findDCode.eq_def]
  split <;> simp_all

theorem findDCode_skip : ∀ {a : Str}, 'D' ∉ a → ∀ b,
    findDCode (a ++ b) = findDCode b := by
  intro a
  induction a with
  | nil => intro _ b; rfl
  | cons x xs ih =>
    intro hna b
    have hx : x ≠ 'D' := fun hh => hna (by simp [hh])
    rw [List.cons_append, findDCode_cons_ne hx, ih (fun hm => hna (by simp [hm])) b]

theorem findDD_skip {c : Char} {x y z : Char} (rest : Str)
    (h : ¬(x = c ∧ y.isDigit = true ∧ z.isDigit = true)) :
    findDD c (x :: y :: z :: rest) = findDD c (y :: z :: rest) := by
  have hstep : findDD c (x :: y :: z :: rest) =
      (if x = c ∧ y.isDigit = true ∧ z.isDigit = true
       then some (digitVal y, digitVal z) else findDD c (y :: z :: rest)) := rfl
  rw [hstep, if_neg h]

theorem findDD_here (c : Char) {y z : Char} (rest : Str)
    (hy : y.isDigit = true) (hz : z.isDigit = true) :
    findDD c (c :: y :: z :: rest) = some (digitVal y, digitVal z) := by
  have hstep : findDD c (c :: y :: z :: rest) =
      (if c = c ∧ y.isDigit = true ∧ z.isDigit = true
       then some (digitVal y, digitVal z) else findDD c (y :: z :: rest)) := rfl
  rw [hstep, if_pos ⟨rfl, hy, hz⟩]

theorem findDD_le (c : Char) : ∀ (s : Str) (p : ℕ × ℕ), findDD c s = some p →
    p.1 < 10 ∧ p.2 < 10 := by
  intro s
  induction s with
  | nil => intro p hp; simp [findDD] at hp
  | cons x xs ih =>
    intro p hp
    cases xs with
    | nil => simp [findDD] at hp
    | cons y ys =>
      cases ys with
      | nil => simp [findDD] at hp
      | cons z rest =>
        by_cases hcond : x = c ∧ y.isDigit = true ∧ z.isDigit = true
        · obtain ⟨rfl, hy, hz⟩ := hcond
          rw [findDD_here x rest hy hz] at hp
          injection hp with hp
          subst hp
          exact ⟨digitVal_lt_ten hy, digitVal_lt_ten hz⟩
        · rw [findDD_skip rest hcond] at hp
          exact ih p hp

theorem matchAperture_cons_ne {x : Char} (hx : x ≠ 'D') (l : Str) :
    matchAperture (x :: l) = none := by
  rw [matchAperture.eq_def]
  split <;> simp_all

theorem stripCommentPrefix_mem {v : Str} {c : Char} (hc : c ∈ stripCommentPrefix v) :
    c ∈ v := by
  rw [stripCommentPrefix.eq_def] at hc
  split at hc
  · have h2 := (List.dropWhile_sublist _).subset hc
    simp [h2]
  · have h2 := (List.dropWhile_sublist _).subset hc
    simp [h2]
  · exact hc

-- ===========================================================================
-- Round-trip analysis (C1): node-level round trips, command side
-- ===========================================================================

/-- A node that reprints to exactly one well-formed token which reparses
to the node itself: either an extended command with a `%`-free body, or a
star-terminated command with a star-free, well-headed body. -/
def NodeRT (n : GNode) : Prop :=
  (∃ e, GNode.getString n = '%' :: (e ++ ['%']) ∧ '%' ∉ e ∧ parseExtendedCommand e = n) ∨
  (∃ c, GNode.getString n = c ++ ['*'] ∧ '*' ∉ c ∧ CmdHead c ∧ parseCommand c = n)

theorem nrt_imode (m : IMode) : NodeRT (GNode.setInterpolationMode m) := by
  cases m with
  | g01 => exact Or.inr ⟨['G', '0', '1'], rfl, by decide,
      cmdHead_cons (by decide) (by decide), by decide⟩
  | g02 => exact Or.inr ⟨['G', '0', '2'], rfl, by decide,
      cmdHead_cons (by decide) (by decide), by decide⟩
  | g03 => exact Or.inr ⟨['G', '0', '3'], rfl, by decide,
      cmdHead_cons (by decide) (by decide), by decide⟩
  | g74 => exact Or.inr ⟨['G', '7', '4'], rfl, by decide,
      cmdHead_cons (by decide) (by decide), by decide⟩
  | g75 => exact Or.inr ⟨['G', '7', '5'], rfl, by decide,
      cmdHead_cons (by decide) (by decide), by decide⟩

theorem nrt_regionStart : NodeRT GNode.regionStart :=
  Or.inr ⟨['G', '3', '6'], rfl, by decide, cmdHead_cons (by decide) (by decide), by decide⟩

theorem nrt_regionEnd : NodeRT GNode.regionEnd :=
  Or.inr ⟨['G', '3', '7'], rfl, by decide, cmdHead_cons (by decide) (by decide), by decide⟩

theorem nrt_endOfFile : NodeRT GNode.endOfFile :=
  Or.inr ⟨['M', '0', '2'], rfl, by decide, cmdHead_cons (by decide) (by decide), by decide⟩

theorem nrt_comment {t : Str} (hs : '*' ∉ t) (hd : t.dropWhile isJsWs = t) :
    NodeRT (GNode.comment t) := by
  refine Or.inr ⟨'G' :: '0' :: '4' :: ' ' :: t, rfl, ?_,
    cmdHead_cons (by decide) (by decide), ?_⟩
  · intro hm
    simp only [List.mem_cons] at hm
    rcases hm with h | h | h | h | hm
    · exact absurd h (by decide)
    · exact absurd h (by decide)
    · exact absurd h (by decide)
    · exact absurd h (by decide)
    · exact hs hm
  · have hstep : parseCommand ('G' :: '0' :: '4' :: ' ' :: t) =
        GNode.comment (t.dropWhile isJsWs) := rfl
    rw [hstep, hd]

theorem parseCommand_not_gm {v : Str} {ch : Char} (hh : v.head? = some ch)
    (hG : ch ≠ 'G') (hM : ch ≠ 'M') :
    parseCommand v =
      (match matchAperture v with
       | some code => if 10 ≤ code then GNode.selectAperture code
           else parseCommandTail v
       | none => parseCommandTail v) := by
  cases v with
  | nil => simp at hh
  | cons c cs =>
    simp only [List.head?_cons, Option.some.injEq] at hh
    subst hh
    have hG2 : ¬(('G' : Char) = c) := fun hgc => hG hgc.symm
    have hM2 : ¬(('M' : Char) = c) := fun hmc => hM hmc.symm
    have hpreG : ∀ ps, hasPre ('G' :: ps) (c :: cs) = false := fun ps => by
      show (decide (('G' : Char) = c) && hasPre ps cs) = false
      rw [decide_eq_false hG2, Bool.false_and]
    have hpreM : ∀ ps, hasPre ('M' :: ps) (c :: cs) = false := fun ps => by
      show (decide (('M' : Char) = c) && hasPre ps cs) = false
      rw [decide_eq_false hM2, Bool.false_and]
    rw [parseCommand]
    simp [hpreG, hpreM, hG, hM, List.cons.injEq]

theorem nrt_selectAperture {code : ℕ} (h : 10 ≤ code) :
    NodeRT (GNode.selectAperture code) := by
  refine Or.inr ⟨'D' :: printNat code, rfl, ?_,
    cmdHead_cons (by decide) (by decide), ?_⟩
  · intro hm
    rcases List.mem_cons.mp hm with heq | hm
    · exact absurd heq (by decide)
    · exact absurd (printNat_digits hm) (by decide)
  · have hma : matchAperture ('D' :: printNat code) = some code := by
      have hstep : matchAperture ('D' :: printNat code) =
          (if printNat code ≠ [] ∧ (printNat code).all Char.isDigit
           then some (parseNatDigits (printNat code)) else none) := rfl
      rw [hstep, if_pos ⟨printNat_ne_nil code, by
        rw [List.all_eq_true]
        intro c hc
        exact printNat_digits hc⟩, parseNatDigits_printNat]
    rw [parseCommand_not_gm (rfl : ('D' :: printNat code).head? = some 'D')
      (by decide) (by decide), hma]
    show (if 10 ≤ code then GNode.selectAperture code
      else parseCommandTail ('D' :: printNat code)) = GNode.selectAperture code
    rw [if_pos h]

-- The printed text of an operation and its reparse.

/-- One optional printed coordinate of an operation. -/
def opPart (c : Char) : Option ℤ → Str
  | some v => c :: printInt v
  | none => []

/-- The star-free body of a printed operation. -/
def opCore (d : DCode) (x y i j : Option ℤ) : Str :=
  opPart 'X' x ++ (opPart 'Y' y ++ (opPart 'I' i ++ (opPart 'J' j ++ dcodeStr d)))

theorem getString_operation (d : DCode) (x y i j : Option ℤ) :
    (GNode.operation d x y i j).getString = opCore d x y i j ++ ['*'] := by
  cases x <;> cases y <;> cases i <;> cases j <;>
    simp [GNode.getString, opCore, opPart, List.append_assoc]

theorem opPart_chars {c : Char} {o : Option ℤ} {ch : Char} (h : ch ∈ opPart c o) :
    ch = c ∨ ch = '-' ∨ ch.isDigit = true := by
  cases o with
  | none => simp [opPart] at h
  | some v =>
    simp only [opPart, List.mem_cons] at h
    rcases h with rfl | h
    · exact Or.inl rfl
    · rcases printInt_chars h with h2 | h2
      · exact Or.inr (Or.inr h2)
      · exact Or.inr (Or.inl h2)

theorem dcodeStr_chars {d : DCode} {ch : Char} (h : ch ∈ dcodeStr d) :
    ch = 'D' ∨ ch.isDigit = true := by
  cases d <;>
    (simp only [dcodeStr, List.mem_cons, List.not_mem_nil, or_false] at h
     rcases h with rfl | rfl | rfl)
  all_goals first
    | exact Or.inl rfl
    | exact Or.inr (by decide)

theorem not_mem_opPart {c bad : Char} {o : Option ℤ} (h1 : bad ≠ c) (h2 : bad ≠ '-')
    (h3 : bad.isDigit = false) : bad ∉ opPart c o := by
  intro hm
  rcases opPart_chars hm with rfl | rfl | hd
  · exact h1 rfl
  · exact h2 rfl
  · simp [h3] at hd

theorem not_mem_dcodeStr {bad : Char} {d : DCode} (h1 : bad ≠ 'D')
    (h3 : bad.isDigit = false) : bad ∉ dcodeStr d := by
  intro hm
  rcases dcodeStr_chars hm with rfl | hd
  · exact h1 rfl
  · simp [h3] at hd

theorem opCore_chars {d : DCode} {x y i j : Option ℤ} {ch : Char}
    (h : ch ∈ opCore d x y i j) :
    ch = 'X' ∨ ch = 'Y' ∨ ch = 'I' ∨ ch = 'J' ∨ ch = 'D' ∨ ch = '-' ∨
      ch.isDigit = true := by
  simp only [opCore, List.mem_append] at h
  rcases h with h | h | h | h | h
  · rcases opPart_chars h with rfl | rfl | h2 <;> tauto
  · rcases opPart_chars h with rfl | rfl | h2 <;> tauto
  · rcases opPart_chars h with rfl | rfl | h2 <;> tauto
  · rcases opPart_chars h with rfl | rfl | h2 <;> tauto
  · rcases dcodeStr_chars h with rfl | h2 <;> tauto

theorem opCore_cmdHead (d : DCode) (x y i j : Option ℤ) : CmdHead (opCore d x y i j) := by
  intro ch hch
  have hmem : ch ∈ opCore d x y i j := List.mem_of_mem_head? (by rw [hch]; rfl)
  rcases opCore_chars hmem with rfl | rfl | rfl | rfl | rfl | rfl | h
  · exact ⟨by decide, by decide⟩
  · exact ⟨by decide, by decide⟩
  · exact ⟨by decide, by decide⟩
  · exact ⟨by decide, by decide⟩
  · exact ⟨by decide, by decide⟩
  · exact ⟨by decide, by decide⟩
  · exact ⟨(isDigit_excl h).2.2.2.2.1, (isDigit_excl h).2.2.2.2.2.2⟩

theorem opTail1_head {j : Option ℤ} {d : DCode} {ch : Char}
    (h : (opPart 'J' j ++ dcodeStr d).head? = some ch) :
    ch = 'J' ∨ ch = 'D' := by
  cases j <;> cases d <;>
    (simp only [opPart, dcodeStr, List.cons_append, List.nil_append, List.head?_cons,
       Option.some.injEq] at h
     subst h
     simp)

theorem opTail2_head {i j : Option ℤ} {d : DCode} {ch : Char}
    (h : (opPart 'I' i ++ (opPart 'J' j ++ dcodeStr d)).head? = some ch) :
    ch = 'I' ∨ ch = 'J' ∨ ch = 'D' := by
  cases i with
  | some v =>
    simp only [opPart, List.cons_append, List.head?_cons, Option.some.injEq] at h
    subst h
    simp
  | none =>
    simp only [opPart, List.nil_append] at h
    rcases opTail1_head h with rfl | rfl <;> tauto

theorem opTail3_head {y i j : Option ℤ} {d : DCode} {ch : Char}
    (h : (opPart 'Y' y ++ (opPart 'I' i ++ (opPart 'J' j ++ dcodeStr d))).head? = some ch) :
    ch = 'Y' ∨ ch = 'I' ∨ ch = 'J' ∨ ch = 'D' := by
  cases y with
  | some v =>
    simp only [opPart, List.cons_append, List.head?_cons, Option.some.injEq] at h
    subst h
    simp
  | none =>
    simp only [opPart, List.nil_append] at h
    rcases opTail2_head h with rfl | rfl | rfl <;> tauto

theorem opTail1_nondigit {j : Option ℤ} {d : DCode} :
    ∀ ch, (opPart 'J' j ++ dcodeStr d).head? = some ch → ch.isDigit = false :=
  fun _ h => by rcases opTail1_head h with rfl | rfl <;> decide

theorem opTail2_nondigit {i j : Option ℤ} {d : DCode} :
    ∀ ch, (opPart 'I' i ++ (opPart 'J' j ++ dcodeStr d)).head? = some ch →
      ch.isDigit = false :=
  fun _ h => by rcases opTail2_head h with rfl | rfl | rfl <;> decide

theorem opTail3_nondigit {y i j : Option ℤ} {d : DCode} :
    ∀ ch, (opPart 'Y' y ++ (opPart 'I' i ++ (opPart 'J' j ++ dcodeStr d))).head? =
      some ch → ch.isDigit = false :=
  fun _ h => by rcases opTail3_head h with rfl | rfl | rfl | rfl <;> decide

theorem opTail3_head_ex (y i j : Option ℤ) (d : DCode) :
    ∃ ch, (opPart 'Y' y ++ (opPart 'I' i ++ (opPart 'J' j ++ dcodeStr d))).head? =
      some ch := by
  cases y <;> cases i <;> cases j <;> cases d <;> exact ⟨_, rfl⟩

theorem opTail2_head_ex (i j : Option ℤ) (d : DCode) :
    ∃ ch, (opPart 'I' i ++ (opPart 'J' j ++ dcodeStr d)).head? = some ch := by
  cases i <;> cases j <;> cases d <;> exact ⟨_, rfl⟩

theorem opTail1_head_ex (j : Option ℤ) (d : DCode) :
    ∃ ch, (opPart 'J' j ++ dcodeStr d).head? = some ch := by
  cases j <;> cases d <;> exact ⟨_, rfl⟩

theorem eatCoord_head_ne {c : Char} {s : Str} {ch : Char} (hh : s.head? = some ch)
    (hne : ch ≠ c) : eatCoord c s = s := by
  cases s with
  | nil => simp at hh
  | cons a l =>
    simp only [List.head?_cons, Option.some.injEq] at hh
    subst hh
    exact eatCoord_ne hne l

theorem findIntAfter_opX (d : DCode) (x y i j : Option ℤ) :
    findIntAfter 'X' (opCore d x y i j) = x := by
  cases x with
  | some v =>
    show findIntAfter 'X' ('X' :: (printInt v ++
      (opPart 'Y' y ++ (opPart 'I' i ++ (opPart 'J' j ++ dcodeStr d))))) = some v
    exact findIntAfter_here 'X' v opTail3_nondigit
  | none =>
    show findIntAfter 'X'
      (opPart 'Y' y ++ (opPart 'I' i ++ (opPart 'J' j ++ dcodeStr d))) = none
    apply findIntAfter_none
    intro hm
    simp only [List.mem_append] at hm
    rcases hm with h | h | h | h
    · rcases opPart_chars h with h2 | h2 | h2 <;> exact absurd h2 (by decide)
    · rcases opPart_chars h with h2 | h2 | h2 <;> exact absurd h2 (by decide)
    · rcases opPart_chars h with h2 | h2 | h2 <;> exact absurd h2 (by decide)
    · rcases dcodeStr_chars h with h2 | h2 <;> exact absurd h2 (by decide)

theorem findIntAfter_opY (d : DCode) (x y i j : Option ℤ) :
    findIntAfter 'Y' (opCore d x y i j) = y := by
  rw [opCore, findIntAfter_skip (not_mem_opPart (by decide) (by decide) (by decide)) _]
  cases y with
  | some v =>
    show findIntAfter 'Y' ('Y' :: (printInt v ++
      (opPart 'I' i ++ (opPart 'J' j ++ dcodeStr d)))) = some v
    exact findIntAfter_here 'Y' v opTail2_nondigit
  | none =>
    show findIntAfter 'Y' (opPart 'I' i ++ (opPart 'J' j ++ dcodeStr d)) = none
    apply findIntAfter_none
    intro hm
    simp only [List.mem_append] at hm
    rcases hm with h | h | h
    · rcases opPart_chars h with h2 | h2 | h2 <;> exact absurd h2 (by decide)
    · rcases opPart_chars h with h2 | h2 | h2 <;> exact absurd h2 (by decide)
    · rcases dcodeStr_chars h with h2 | h2 <;> exact absurd h2 (by decide)

theorem findIntAfter_opI (d : DCode) (x y i j : Option ℤ) :
    findIntAfter 'I' (opCore d x y i j) = i := by
  rw [opCore, findIntAfter_skip (not_mem_opPart (by decide) (by decide) (by decide)) _,
    findIntAfter_skip (not_mem_opPart (by decide) (by decide) (by decide)) _]
  cases i with
  | some v =>
    show findIntAfter 'I' ('I' :: (printInt v ++
      (opPart 'J' j ++ dcodeStr d))) = some v
    exact findIntAfter_here 'I' v opTail1_nondigit
  | none =>
    show findIntAfter 'I' (opPart 'J' j ++ dcodeStr d) = none
    apply findIntAfter_none
    intro hm
    simp only [List.mem_append] at hm
    rcases hm with h | h
    · rcases opPart_chars h with h2 | h2 | h2 <;> exact absurd h2 (by decide)
    · rcases dcodeStr_chars h with h2 | h2 <;> exact absurd h2 (by decide)

theorem findIntAfter_opJ (d : DCode) (x y i j : Option ℤ) :
    findIntAfter 'J' (opCore d x y i j) = j := by
  rw [opCore, findIntAfter_skip (not_mem_opPart (by decide) (by decide) (by decide)) _,
    findIntAfter_skip (not_mem_opPart (by decide) (by decide) (by decide)) _,
    findIntAfter_skip (not_mem_opPart (by decide) (by decide) (by decide)) _]
  cases j with
  | some v =>
    show findIntAfter 'J' ('J' :: (printInt v ++ dcodeStr d)) = some v
    apply findIntAfter_here 'J' v
    intro ch h
    cases d <;>
      (simp only [dcodeStr, List.head?_cons, Option.some.injEq] at h
       subst h
       decide)
  | none =>
    show findIntAfter 'J' (dcodeStr d) = none
    apply findIntAfter_none
    intro hm
    rcases dcodeStr_chars hm with h2 | h2 <;> exact absurd h2 (by decide)

theorem findDCode_opCore (d : DCode) (x y i j : Option ℤ) :
    dcodeOfNat ((findDCode (opCore d x y i j)).getD 1) = d := by
  rw [opCore, findDCode_skip (not_mem_opPart (by decide) (by decide) (by decide)) _,
    findDCode_skip (not_mem_opPart (by decide) (by decide) (by decide)) _,
    findDCode_skip (not_mem_opPart (by decide) (by decide) (by decide)) _,
    findDCode_skip (not_mem_opPart (by decide) (by decide) (by decide)) _]
  cases d <;> decide

theorem matchesOperation_opCore (d : DCode) (x y i j : Option ℤ) :
    matchesOperation (opCore d x y i j) = true := by
  have hX : eatCoord 'X' (opCore d x y i j) =
      opPart 'Y' y ++ (opPart 'I' i ++ (opPart 'J' j ++ dcodeStr d)) := by
    cases x with
    | some v =>
      show eatCoord 'X' ('X' :: (printInt v ++
        (opPart 'Y' y ++ (opPart 'I' i ++ (opPart 'J' j ++ dcodeStr d))))) = _
      exact eatCoord_print 'X' v opTail3_nondigit
    | none =>
      obtain ⟨ch, hch⟩ := opTail3_head_ex y i j d
      exact eatCoord_head_ne hch
        (by rcases opTail3_head hch with rfl | rfl | rfl | rfl <;> decide)
  have hY : eatCoord 'Y' (opPart 'Y' y ++ (opPart 'I' i ++ (opPart 'J' j ++ dcodeStr d))) =
      opPart 'I' i ++ (opPart 'J' j ++ dcodeStr d) := by
    cases y with
    | some v =>
      show eatCoord 'Y' ('Y' :: (printInt v ++
        (opPart 'I' i ++ (opPart 'J' j ++ dcodeStr d)))) = _
      exact eatCoord_print 'Y' v opTail2_nondigit
    | none =>
      obtain ⟨ch, hch⟩ := opTail2_head_ex i j d
      exact eatCoord_head_ne hch
        (by rcases opTail2_head hch with rfl | rfl | rfl <;> decide)
  have hI : eatCoord 'I' (opPart 'I' i ++ (opPart 'J' j ++ dcodeStr d)) =
      opPart 'J' j ++ dcodeStr d := by
    cases i with
    | some v =>
      show eatCoord 'I' ('I' :: (printInt v ++ (opPart 'J' j ++ dcodeStr d))) = _
      exact eatCoord_print 'I' v opTail1_nondigit
    | none =>
      obtain ⟨ch, hch⟩ := opTail1_head_ex j d
      exact eatCoord_head_ne hch
        (by rcases opTail1_head hch with rfl | rfl <;> decide)
  have hJ : eatCoord 'J' (opPart 'J' j ++ dcodeStr d) = dcodeStr d := by
    cases j with
    | some v =>
      show eatCoord 'J' ('J' :: (printInt v ++ dcodeStr d)) = _
      apply eatCoord_print 'J' v
      intro ch h
      cases d <;>
        (simp only [dcodeStr, List.head?_cons, Option.some.injEq] at h
         subst h
         decide)
    | none =>
      have hch : (dcodeStr d).head? = some 'D' := by cases d <;> rfl
      exact eatCoord_head_ne hch (by decide)
  rw [matchesOperation, hX, hY, hI, hJ]
  cases d <;> decide

theorem parseOperation_opCore (d : DCode) (x y i j : Option ℤ) :
    parseOperation (opCore d x y i j) = GNode.operation d x y i j := by
  rw [parseOperation, findIntAfter_opX, findIntAfter_opY, findIntAfter_opI,
    findIntAfter_opJ, findDCode_opCore]

theorem nrt_operation (d : DCode) (x y i j : Option ℤ) :
    NodeRT (GNode.operation d x y i j) := by
  refine Or.inr ⟨opCore d x y i j, getString_operation d x y i j, ?_,
    opCore_cmdHead d x y i j, ?_⟩
  · intro hm
    rcases opCore_chars hm with h | h | h | h | h | h | h <;> exact absurd h (by decide)
  · by_cases hall : x = none ∧ y = none ∧ i = none ∧ j = none
    · obtain ⟨rfl, rfl, rfl, rfl⟩ := hall
      cases d <;> decide
    · have hhead : ∃ ch, (opCore d x y i j).head? = some ch ∧
          (ch = 'X' ∨ ch = 'Y' ∨ ch = 'I' ∨ ch = 'J') := by
        cases x with
        | some v => exact ⟨'X', rfl, Or.inl rfl⟩
        | none =>
          cases y with
          | some v => exact ⟨'Y', rfl, Or.inr (Or.inl rfl)⟩
          | none =>
            cases i with
            | some v => exact ⟨'I', rfl, Or.inr (Or.inr (Or.inl rfl))⟩
            | none =>
              cases j with
              | some v => exact ⟨'J', rfl, Or.inr (Or.inr (Or.inr rfl))⟩
              | none => exact absurd ⟨rfl, rfl, rfl, rfl⟩ hall
      obtain ⟨ch, hch, hch4⟩ := hhead
      rw [parseCommand_not_gm hch
        (by rcases hch4 with rfl | rfl | rfl | rfl <;> decide)
        (by rcases hch4 with rfl | rfl | rfl | rfl <;> decide)]
      have hma : matchAperture (opCore d x y i j) = none := by
        cases hcc : opCore d x y i j with
        | nil => rw [hcc] at hch; exact absurd hch (by simp)
        | cons a l =>
          rw [hcc] at hch
          simp only [List.head?_cons, Option.some.injEq] at hch
          subst hch
          exact matchAperture_cons_ne
            (by rcases hch4 with rfl | rfl | rfl | rfl <;> decide) l
      rw [hma]
      show parseCommandTail (opCore d x y i j) = GNode.operation d x y i j
      rw [parseCommandTail, if_pos (matchesOperation_opCore d x y i j)]
      exact parseOperation_opCore d x y i j

-- ===========================================================================
-- Round-trip analysis (C1): node-level round trips, extended side
-- ===========================================================================

theorem parseExtendedCommand_eq {v c : Str} (hc : stripTrailingStar v = c) :
    parseExtendedCommand v =
      (if hasPre ['F', 'S'] c then parseFormatSpec c
       else if hasPre ['M', 'O'] c then GNode.unitMode (c.drop 2)
       else if hasPre ['A', 'D'] c then parseApertureDefinition c
       else if hasPre ['A', 'M'] c then parseApertureMacro c
       else if hasPre ['L', 'P'] c then GNode.loadPolarity (c.drop 2)
       else if hasPre ['L', 'M'] c then GNode.loadMirroring (c.drop 2)
       else if hasPre ['L', 'R'] c then GNode.loadRotation (parseFloat (c.drop 2))
       else if hasPre ['L', 'S'] c then GNode.loadScaling (parseFloat (c.drop 2))
       else if hasPre ['S', 'R'] c then parseStepRepeat c
       else if hasPre ['T', 'F', '.'] c then
         GNode.fileAttribute (attrSplit (c.drop 3)).1 (attrSplit (c.drop 3)).2
       else if hasPre ['T', 'A', '.'] c then
         GNode.apertureAttribute (attrSplit (c.drop 3)).1 (attrSplit (c.drop 3)).2
       else if hasPre ['T', 'O', '.'] c then
         GNode.objectAttribute (attrSplit (c.drop 3)).1 (attrSplit (c.drop 3)).2
       else if hasPre ['T', 'D'] c then
         (match c.drop 2 with
          | '.' :: nm => GNode.deleteAttribute (some nm)
          | _ => GNode.deleteAttribute none)
       else if hasPre ['I', 'P'] c then GNode.setImagePolarity (c.drop 2)
       else if hasPre ['O', 'F'] c then
         GNode.setOffset ((findNumAfter 'A' c).getD 0) ((findNumAfter 'B' c).getD 0)
       else GNode.unknownCommand ('%' :: (v ++ ['%']))) := by
  subst hc
  rfl

theorem isWordStart_facts {c : Char} (h : isWordStart c = true) :
    c.isDigit = false ∧ c ≠ '%' ∧ c ≠ ',' := by
  simp only [isWordStart, Bool.or_eq_true, Bool.and_eq_true, decide_eq_true_eq] at h
  have hval : (65 ≤ c.toNat ∧ c.toNat ≤ 90) ∨ (97 ≤ c.toNat ∧ c.toNat ≤ 122) ∨
      c.toNat = 95 := by
    rcases h with (⟨h1, h2⟩ | ⟨h1, h2⟩) | rfl
    · exact Or.inl ⟨h1, h2⟩
    · exact Or.inr (Or.inl ⟨h1, h2⟩)
    · exact Or.inr (Or.inr rfl)
  refine ⟨?_, ?_, ?_⟩
  · cases hd : c.isDigit
    · rfl
    · obtain ⟨hd1, hd2⟩ := (by
        simp only [Char.isDigit, Bool.and_eq_true, decide_eq_true_eq] at hd
        exact hd : 48 ≤ c.toNat ∧ c.toNat ≤ 57)
      omega
  · intro hc; subst hc; simp at hval
  · intro hc; subst hc; simp at hval

theorem isWordChar_facts {c : Char} (h : isWordChar c = true) :
    c ≠ '%' ∧ c ≠ ',' := by
  simp only [isWordChar, Bool.or_eq_true] at h
  rcases h with h | h
  · exact ⟨(isWordStart_facts h).2.1, (isWordStart_facts h).2.2⟩
  · exact ⟨(isDigit_excl h).2.2.2.2.2.2, (isDigit_ne_letters h).2.2.2.2.2.2.2.2.2⟩

theorem printRat_not_mem {q : ℚ} {bad : Char} (h1 : bad.isDigit = false)
    (h2 : bad ≠ '-') (h3 : bad ≠ '.') : bad ∉ printRat q := by
  intro hm
  rcases printRat_chars hm with h | h | h
  · simp [h1] at h
  · exact h2 h
  · exact h3 h

theorem printJsNum_not_mem {a : Option ℚ} {bad : Char} (h1 : bad.isDigit = false)
    (h2 : bad ≠ '-') (h3 : bad ≠ '.') (h4 : bad ≠ 'N') (h5 : bad ≠ 'a') :
    bad ∉ printJsNum a := by
  intro hm
  rcases printJsNum_chars hm with h | h | h | h | h
  · simp [h1] at h
  · exact h2 h
  · exact h3 h
  · exact h4 h
  · exact h5 h

theorem not_mem_printNat {bad : Char} (h : bad.isDigit = false) (n : ℕ) :
    bad ∉ printNat n :=
  fun hm => absurd (printNat_digits hm) (by simp [h])

theorem takeWhile_all {p : Char → Bool} {l : Str} (h : ∀ ch ∈ l, p ch = true) :
    l.takeWhile p = l := by
  have h2 := takeWhile_append_all (p := p) (a := l) [] h
  simpa using h2

theorem nrt_unitMode {u : Str} (hp : '%' ∉ u) : NodeRT (GNode.unitMode u) := by
  refine Or.inl ⟨('M' :: 'O' :: u) ++ ['*'], ?_, ?_, ?_⟩
  · simp [GNode.getString, List.append_assoc]
  · intro hm
    simp only [List.mem_append, List.mem_cons, List.not_mem_nil, or_false] at hm
    rcases hm with (h | h | hm) | h
    · exact absurd h (by decide)
    · exact absurd h (by decide)
    · exact hp hm
    · exact absurd h (by decide)
  · rw [parseExtendedCommand_eq (stripTrailingStar_concat ('M' :: 'O' :: u))]
    rfl

theorem nrt_loadPolarity {u : Str} (hp : '%' ∉ u) : NodeRT (GNode.loadPolarity u) := by
  refine Or.inl ⟨('L' :: 'P' :: u) ++ ['*'], ?_, ?_, ?_⟩
  · simp [GNode.getString, List.append_assoc]
  · intro hm
    simp only [List.mem_append, List.mem_cons, List.not_mem_nil, or_false] at hm
    rcases hm with (h | h | hm) | h
    · exact absurd h (by decide)
    · exact absurd h (by decide)
    · exact hp hm
    · exact absurd h (by decide)
  · rw [parseExtendedCommand_eq (stripTrailingStar_concat ('L' :: 'P' :: u))]
    rfl

theorem nrt_loadMirroring {u : Str} (hp : '%' ∉ u) : NodeRT (GNode.loadMirroring u) := by
  refine Or.inl ⟨('L' :: 'M' :: u) ++ ['*'], ?_, ?_, ?_⟩
  · simp [GNode.getString, List.append_assoc]
  · intro hm
    simp only [List.mem_append, List.mem_cons, List.not_mem_nil, or_false] at hm
    rcases hm with (h | h | hm) | h
    · exact absurd h (by decide)
    · exact absurd h (by decide)
    · exact hp hm
    · exact absurd h (by decide)
  · rw [parseExtendedCommand_eq (stripTrailingStar_concat ('L' :: 'M' :: u))]
    rfl

theorem nrt_setImagePolarity {u : Str} (hp : '%' ∉ u) :
    NodeRT (GNode.setImagePolarity u) := by
  refine Or.inl ⟨('I' :: 'P' :: u) ++ ['*'], ?_, ?_, ?_⟩
  · simp [GNode.getString, List.append_assoc]
  · intro hm
    simp only [List.mem_append, List.mem_cons, List.not_mem_nil, or_false] at hm
    rcases hm with (h | h | hm) | h
    · exact absurd h (by decide)
    · exact absurd h (by decide)
    · exact hp hm
    · exact absurd h (by decide)
  · rw [parseExtendedCommand_eq (stripTrailingStar_concat ('I' :: 'P' :: u))]
    rfl

theorem nrt_loadRotation {a : Option ℚ} (ha : ∀ q, a = some q → IsDec q) :
    NodeRT (GNode.loadRotation a) := by
  refine Or.inl ⟨('L' :: 'R' :: printJsNum a) ++ ['*'], ?_, ?_, ?_⟩
  · simp [GNode.getString, List.append_assoc]
  · intro hm
    simp only [List.mem_append, List.mem_cons, List.not_mem_nil, or_false] at hm
    rcases hm with (h | h | hm) | h
    · exact absurd h (by decide)
    · exact absurd h (by decide)
    · exact printJsNum_not_mem (by decide) (by decide) (by decide) (by decide)
        (by decide) hm
    · exact absurd h (by decide)
  · rw [parseExtendedCommand_eq (stripTrailingStar_concat ('L' :: 'R' :: printJsNum a))]
    show GNode.loadRotation (parseFloat (printJsNum a)) = GNode.loadRotation a
    rw [parseFloat_printJsNum ha]

theorem nrt_loadScaling {a : Option ℚ} (ha : ∀ q, a = some q → IsDec q) :
    NodeRT (GNode.loadScaling a) := by
  refine Or.inl ⟨('L' :: 'S' :: printJsNum a) ++ ['*'], ?_, ?_, ?_⟩
  · simp [GNode.getString, List.append_assoc]
  · intro hm
    simp only [List.mem_append, List.mem_cons, List.not_mem_nil, or_false] at hm
    rcases hm with (h | h | hm) | h
    · exact absurd h (by decide)
    · exact absurd h (by decide)
    · exact printJsNum_not_mem (by decide) (by decide) (by decide) (by decide)
        (by decide) hm
    · exact absurd h (by decide)
  · rw [parseExtendedCommand_eq (stripTrailingStar_concat ('L' :: 'S' :: printJsNum a))]
    show GNode.loadScaling (parseFloat (printJsNum a)) = GNode.loadScaling a
    rw [parseFloat_printJsNum ha]

theorem nrt_deleteAttribute_none : NodeRT (GNode.deleteAttribute none) :=
  Or.inl ⟨['T', 'D', '*'], rfl, by decide, by decide⟩

theorem nrt_deleteAttribute_some {nm : Str} (hne : nm ≠ []) (hp : '%' ∉ nm) :
    NodeRT (GNode.deleteAttribute (some nm)) := by
  have hie : nm.isEmpty = false := by simpa [List.isEmpty_iff] using hne
  refine Or.inl ⟨('T' :: 'D' :: '.' :: nm) ++ ['*'], ?_, ?_, ?_⟩
  · simp [GNode.getString, hie, List.append_assoc]
  · intro hm
    simp only [List.mem_append, List.mem_cons, List.not_mem_nil, or_false] at hm
    rcases hm with (h | h | h | hm) | h
    · exact absurd h (by decide)
    · exact absurd h (by decide)
    · exact absurd h (by decide)
    · exact hp hm
    · exact absurd h (by decide)
  · rw [parseExtendedCommand_eq (stripTrailingStar_concat ('T' :: 'D' :: '.' :: nm))]
    rfl

theorem nrt_formatSpec {z c : Char} {xi xd yi yd : ℕ}
    (hz : z ≠ '%') (hcp : c ≠ '%')
    (hxi : xi < 10) (hxd : xd < 10) (hyi : yi < 10) (hyd : yd < 10) :
    NodeRT (GNode.formatSpecification (some z) (some c) xi xd yi yd) := by
  refine Or.inl ⟨('F' :: 'S' :: z :: c :: 'X' :: digitChar xi :: digitChar xd ::
    'Y' :: digitChar yi :: digitChar yd :: []) ++ ['*'], ?_, ?_, ?_⟩
  · simp [GNode.getString, printOptChar, printNat_single hxi, printNat_single hxd,
      printNat_single hyi, printNat_single hyd, List.append_assoc]
  · intro hm
    simp only [List.mem_append, List.mem_cons, List.not_mem_nil, or_false] at hm
    rcases hm with (h | h | h | h | h | h | h | h | h | h) | h
    · exact absurd h (by decide)
    · exact absurd h (by decide)
    · exact hz h.symm
    · exact hcp h.symm
    · exact absurd h (by decide)
    · have h2 := digitChar_isDigit hxi
      rw [← h] at h2
      exact absurd h2 (by decide)
    · have h2 := digitChar_isDigit hxd
      rw [← h] at h2
      exact absurd h2 (by decide)
    · exact absurd h (by decide)
    · have h2 := digitChar_isDigit hyi
      rw [← h] at h2
      exact absurd h2 (by decide)
    · have h2 := digitChar_isDigit hyd
      rw [← h] at h2
      exact absurd h2 (by decide)
    · exact absurd h (by decide)
  · rw [parseExtendedCommand_eq (stripTrailingStar_concat _)]
    show parseFormatSpec ('F' :: 'S' :: z :: c :: 'X' :: digitChar xi :: digitChar xd ::
      'Y' :: digitChar yi :: digitChar yd :: []) = _
    have hdd1 : findDD 'X' (z :: c :: 'X' :: digitChar xi :: digitChar xd ::
        'Y' :: digitChar yi :: digitChar yd :: []) = some (xi, xd) := by
      rw [findDD_skip _ (fun hand => absurd hand.2.2 (by decide)),
        findDD_skip _ (fun hand => absurd hand.2.1 (by decide)),
        findDD_here 'X' _ (digitChar_isDigit hxi) (digitChar_isDigit hxd),
        digitVal_digitChar hxi, digitVal_digitChar hxd]
    have hdd2 : findDD 'Y' (z :: c :: 'X' :: digitChar xi :: digitChar xd ::
        'Y' :: digitChar yi :: digitChar yd :: []) = some (yi, yd) := by
      rw [findDD_skip _ (fun hand => absurd hand.2.2 (by decide)),
        findDD_skip _ (fun hand => absurd hand.2.1 (by decide)),
        findDD_skip _ (fun hand => absurd hand.1 (by decide)),
        findDD_skip _ (fun hand =>
          (isDigit_ne_letters (digitChar_isDigit hxi)).2.1 hand.1),
        findDD_skip _ (fun hand =>
          (isDigit_ne_letters (digitChar_isDigit hxd)).2.1 hand.1),
        findDD_here 'Y' _ (digitChar_isDigit hyi) (digitChar_isDigit hyd),
        digitVal_digitChar hyi, digitVal_digitChar hyd]
    simp only [parseFormatSpec]
    have hdrop2 : List.drop 2 ['F', 'S', z, c, 'X', digitChar xi, digitChar xd, 'Y',
        digitChar yi, digitChar yd] = [z, c, 'X', digitChar xi, digitChar xd, 'Y',
        digitChar yi, digitChar yd] := rfl
    rw [hdrop2, hdd1, hdd2]
    rfl

theorem joinSep_mem {sep : Char} : ∀ {l : List Str} {c : Char}, c ∈ joinSep sep l →
    c = sep ∨ ∃ p ∈ l, c ∈ p := by
  intro l
  induction l with
  | nil => intro c hc; simp [joinSep] at hc
  | cons s ss ih =>
    intro c hc
    cases ss with
    | nil =>
      rw [joinSep] at hc
      exact Or.inr ⟨s, by simp, hc⟩
    | cons s2 ss2 =>
      have hj : joinSep sep (s :: s2 :: ss2) = s ++ sep :: joinSep sep (s2 :: ss2) := rfl
      rw [hj] at hc
      simp only [List.mem_append, List.mem_cons] at hc
      rcases hc with hc | hc | hc
      · exact Or.inr ⟨s, by simp, hc⟩
      · exact Or.inl hc
      · rcases ih hc with h | ⟨p, hp1, hp2⟩
        · exact Or.inl h
        · exact Or.inr ⟨p, by simp [hp1], hp2⟩

theorem attr_body_no_pct {name : Str} {values : List Str} (hn2 : '%' ∉ name)
    (hv : ∀ p ∈ values, '%' ∉ p) :
    '%' ∉ (name ++ (if values.isEmpty then [] else ',' :: joinSep ',' values)) := by
  intro hm
  rcases List.mem_append.mp hm with h | h
  · exact hn2 h
  · by_cases hve : values.isEmpty
    · rw [if_pos hve] at h; simp at h
    · rw [if_neg hve] at h
      rcases List.mem_cons.mp h with heq | h
      · exact absurd heq (by decide)
      · rcases joinSep_mem h with heq | ⟨p, hp1, hp2⟩
        · exact absurd heq (by decide)
        · exact hv p hp1 hp2

theorem attrSplit_print {name : Str} {values : List Str} (hn : ',' ∉ name)
    (hv : ∀ p ∈ values, ',' ∉ p) :
    attrSplit (name ++ (if values.isEmpty then [] else ',' :: joinSep ',' values)) =
      (name, values) := by
  cases values with
  | nil =>
    have hcond : (List.isEmpty ([] : List Str)) = true := rfl
    rw [if_pos hcond, List.append_nil, attrSplit, splitChar_of_no_sep hn]
  | cons v0 vrest =>
    rw [if_neg (by simp), attrSplit, splitChar_cons_sep _ hn,
      splitChar_joinSep (by simp) (fun p hp => hv p hp)]

theorem nrt_fileAttribute {name : Str} {values : List Str}
    (hn1 : ',' ∉ name) (hn2 : '%' ∉ name)
    (hv1 : ∀ p ∈ values, ',' ∉ p) (hv2 : ∀ p ∈ values, '%' ∉ p) :
    NodeRT (GNode.fileAttribute name values) := by
  refine Or.inl ⟨('T' :: 'F' :: '.' ::
    (name ++ (if values.isEmpty then [] else ',' :: joinSep ',' values))) ++ ['*'],
    ?_, ?_, ?_⟩
  · simp [GNode.getString, List.append_assoc]
  · intro hm
    simp only [List.mem_append, List.mem_cons, List.not_mem_nil, or_false] at hm
    rcases hm with (h | h | h | hm) | h
    · exact absurd h (by decide)
    · exact absurd h (by decide)
    · exact absurd h (by decide)
    · exact attr_body_no_pct hn2 hv2 (List.mem_append.mpr hm)
    · exact absurd h (by decide)
  · rw [parseExtendedCommand_eq (stripTrailingStar_concat _)]
    show GNode.fileAttribute
        (attrSplit (name ++ (if values.isEmpty then [] else ',' :: joinSep ',' values))).1
        (attrSplit (name ++ (if values.isEmpty then [] else ',' :: joinSep ',' values))).2 =
      GNode.fileAttribute name values
    rw [attrSplit_print hn1 hv1]

theorem nrt_apertureAttribute {name : Str} {values : List Str}
    (hn1 : ',' ∉ name) (hn2 : '%' ∉ name)
    (hv1 : ∀ p ∈ values, ',' ∉ p) (hv2 : ∀ p ∈ values, '%' ∉ p) :
    NodeRT (GNode.apertureAttribute name values) := by
  refine Or.inl ⟨('T' :: 'A' :: '.' ::
    (name ++ (if values.isEmpty then [] else ',' :: joinSep ',' values))) ++ ['*'],
    ?_, ?_, ?_⟩
  · simp [GNode.getString, List.append_assoc]
  · intro hm
    simp only [List.mem_append, List.mem_cons, List.not_mem_nil, or_false] at hm
    rcases hm with (h | h | h | hm) | h
    · exact absurd h (by decide)
    · exact absurd h (by decide)
    · exact absurd h (by decide)
    · exact attr_body_no_pct hn2 hv2 (List.mem_append.mpr hm)
    · exact absurd h (by decide)
  · rw [parseExtendedCommand_eq (stripTrailingStar_concat _)]
    show GNode.apertureAttribute
        (attrSplit (name ++ (if values.isEmpty then [] else ',' :: joinSep ',' values))).1
        (attrSplit (name ++ (if values.isEmpty then [] else ',' :: joinSep ',' values))).2 =
      GNode.apertureAttribute name values
    rw [attrSplit_print hn1 hv1]

theorem nrt_objectAttribute {name : Str} {values : List Str}
    (hn1 : ',' ∉ name) (hn2 : '%' ∉ name)
    (hv1 : ∀ p ∈ values, ',' ∉ p) (hv2 : ∀ p ∈ values, '%' ∉ p) :
    NodeRT (GNode.objectAttribute name values) := by
  refine Or.inl ⟨('T' :: 'O' :: '.' ::
    (name ++ (if values.isEmpty then [] else ',' :: joinSep ',' values))) ++ ['*'],
    ?_, ?_, ?_⟩
  · simp [GNode.getString, List.append_assoc]
  · intro hm
    simp only [List.mem_append, List.mem_cons, List.not_mem_nil, or_false] at hm
    rcases hm with (h | h | h | hm) | h
    · exact absurd h (by decide)
    · exact absurd h (by decide)
    · exact absurd h (by decide)
    · exact attr_body_no_pct hn2 hv2 (List.mem_append.mpr hm)
    · exact absurd h (by decide)
  · rw [parseExtendedCommand_eq (stripTrailingStar_concat _)]
    show GNode.objectAttribute
        (attrSplit (name ++ (if values.isEmpty then [] else ',' :: joinSep ',' values))).1
        (attrSplit (name ++ (if values.isEmpty then [] else ',' :: joinSep ',' values))).2 =
      GNode.objectAttribute name values
    rw [attrSplit_print hn1 hv1]

theorem nrt_setOffset {a b : ℚ} (ha : IsDec a) (hb : IsDec b) :
    NodeRT (GNode.setOffset a b) := by
  refine Or.inl ⟨('O' :: 'F' :: 'A' :: (printRat a ++ 'B' :: printRat b)) ++ ['*'],
    ?_, ?_, ?_⟩
  · simp [GNode.getString, List.append_assoc]
  · intro hm
    simp only [List.mem_append, List.mem_cons, List.not_mem_nil, or_false] at hm
    rcases hm with (h | h | h | hpa | h | hpb) | h
    · exact absurd h (by decide)
    · exact absurd h (by decide)
    · exact absurd h (by decide)
    · exact printRat_not_mem (by decide) (by decide) (by decide) hpa
    · exact absurd h (by decide)
    · exact printRat_not_mem (by decide) (by decide) (by decide) hpb
    · exact absurd h (by decide)
  · rw [parseExtendedCommand_eq (stripTrailingStar_concat _)]
    have hfa : findNumAfter 'A' ('O' :: 'F' :: 'A' :: (printRat a ++ 'B' :: printRat b)) =
        some a := by
      rw [findNumAfter_cons_ne (by decide), findNumAfter_cons_ne (by decide)]
      exact findNumAfter_here 'A' ha (fun ch h => by
        simp only [List.head?_cons, Option.some.injEq] at h
        subst h
        exact ⟨by decide, by decide⟩)
    have hfb : findNumAfter 'B' ('O' :: 'F' :: 'A' :: (printRat a ++ 'B' :: printRat b)) =
        some b := by
      rw [findNumAfter_cons_ne (by decide), findNumAfter_cons_ne (by decide),
        findNumAfter_cons_ne (by decide),
        findNumAfter_skip (printRat_not_mem (by decide) (by decide) (by decide)) _]
      have h2 := findNumAfter_here 'B' hb nextOK_nil
      rwa [List.append_nil] at h2
    show GNode.setOffset
        ((findNumAfter 'A' ('O' :: 'F' :: 'A' :: (printRat a ++ 'B' :: printRat b))).getD 0)
        ((findNumAfter 'B' ('O' :: 'F' :: 'A' :: (printRat a ++ 'B' :: printRat b))).getD 0) =
      GNode.setOffset a b
    rw [hfa, hfb]
    rfl

theorem nrt_stepRepeat {x y : ℕ} {i j : ℚ} (hi : IsDec i) (hj : IsDec j) :
    NodeRT (GNode.stepRepeat x y i j) := by
  by_cases hdef : x = 1 ∧ y = 1 ∧ i = 0 ∧ j = 0
  · obtain ⟨rfl, rfl, rfl, rfl⟩ := hdef
    refine Or.inl ⟨['S', 'R', '*'], ?_, by decide, by decide⟩
    simp [GNode.getString]
  · refine Or.inl ⟨('S' :: 'R' :: 'X' :: (printNat x ++ 'Y' :: (printNat y ++ 'I' ::
      (printRat i ++ 'J' :: printRat j)))) ++ ['*'], ?_, ?_, ?_⟩
    · simp [GNode.getString, hdef, List.append_assoc]
    · intro hm
      simp only [List.mem_append, List.mem_cons, List.not_mem_nil, or_false] at hm
      rcases hm with (h | h | h | hpx | h | hpy | h | hpi | h | hpj) | h
      · exact absurd h (by decide)
      · exact absurd h (by decide)
      · exact absurd h (by decide)
      · exact not_mem_printNat (by decide) x hpx
      · exact absurd h (by decide)
      · exact not_mem_printNat (by decide) y hpy
      · exact absurd h (by decide)
      · exact printRat_not_mem (by decide) (by decide) (by decide) hpi
      · exact absurd h (by decide)
      · exact printRat_not_mem (by decide) (by decide) (by decide) hpj
      · exact absurd h (by decide)
    · rw [parseExtendedCommand_eq (stripTrailingStar_concat _)]
      have hfx : findNatAfter 'X' ('X' :: (printNat x ++ 'Y' :: (printNat y ++ 'I' ::
          (printRat i ++ 'J' :: printRat j)))) = some x := by
        exact findNatAfter_here 'X' x (fun ch h => by
          simp only [List.head?_cons, Option.some.injEq] at h
          subst h
          decide)
      have hfy : findNatAfter 'Y' ('X' :: (printNat x ++ 'Y' :: (printNat y ++ 'I' ::
          (printRat i ++ 'J' :: printRat j)))) = some y := by
        rw [findNatAfter_cons_ne (by decide),
          findNatAfter_skip (not_mem_printNat (by decide) x) _]
        exact findNatAfter_here 'Y' y (fun ch h => by
          simp only [List.head?_cons, Option.some.injEq] at h
          subst h
          decide)
      have hfi : findNumAfter 'I' ('X' :: (printNat x ++ 'Y' :: (printNat y ++ 'I' ::
          (printRat i ++ 'J' :: printRat j)))) = some i := by
        rw [findNumAfter_cons_ne (by decide),
          findNumAfter_skip (not_mem_printNat (by decide) x) _,
          findNumAfter_cons_ne (by decide),
          findNumAfter_skip (not_mem_printNat (by decide) y) _]
        exact findNumAfter_here 'I' hi (fun ch h => by
          simp only [List.head?_cons, Option.some.injEq] at h
          subst h
          exact ⟨by decide, by decide⟩)
      have hfj : findNumAfter 'J' ('X' :: (printNat x ++ 'Y' :: (printNat y ++ 'I' ::
          (printRat i ++ 'J' :: printRat j)))) = some j := by
        rw [findNumAfter_cons_ne (by decide),
          findNumAfter_skip (not_mem_printNat (by decide) x) _,
          findNumAfter_cons_ne (by decide),
          findNumAfter_skip (not_mem_printNat (by decide) y) _,
          findNumAfter_cons_ne (by decide),
          findNumAfter_skip (printRat_not_mem (by decide) (by decide) (by decide)) _]
        have h2 := findNumAfter_here 'J' hj nextOK_nil
        rwa [List.append_nil] at h2
      show parseStepRepeat ('S' :: 'R' :: 'X' :: (printNat x ++ 'Y' :: (printNat y ++
        'I' :: (printRat i ++ 'J' :: printRat j)))) = GNode.stepRepeat x y i j
      have hps : parseStepRepeat ('S' :: 'R' :: 'X' :: (printNat x ++ 'Y' ::
          (printNat y ++ 'I' :: (printRat i ++ 'J' :: printRat j)))) =
          GNode.stepRepeat
            ((findNatAfter 'X' ('X' :: (printNat x ++ 'Y' :: (printNat y ++ 'I' ::
              (printRat i ++ 'J' :: printRat j))))).getD 1)
            ((findNatAfter 'Y' ('X' :: (printNat x ++ 'Y' :: (printNat y ++ 'I' ::
              (printRat i ++ 'J' :: printRat j))))).getD 1)
            ((findNumAfter 'I' ('X' :: (printNat x ++ 'Y' :: (printNat y ++ 'I' ::
              (printRat i ++ 'J' :: printRat j))))).getD 0)
            ((findNumAfter 'J' ('X' :: (printNat x ++ 'Y' :: (printNat y ++ 'I' ::
              (printRat i ++ 'J' :: printRat j))))).getD 0) := rfl
      rw [hps, hfx, hfy, hfi, hfj]
      rfl

theorem nrt_apertureMacro {name content : Str} (hs : '*' ∉ name)
    (hp1 : '%' ∉ name) (hp2 : '%' ∉ content)
    (hlast : content.getLast? ≠ some '*') :
    NodeRT (GNode.apertureMacro name content) := by
  refine Or.inl ⟨'A' :: 'M' :: (name ++ '*' :: content), ?_, ?_, ?_⟩
  · simp [GNode.getString, List.append_assoc]
  · intro hm
    simp only [List.mem_cons, List.mem_append] at hm
    rcases hm with h | h | h | h | h
    · exact absurd h (by decide)
    · exact absurd h (by decide)
    · exact hp1 h
    · exact absurd h (by decide)
    · exact hp2 h
  · have hnamechars : ∀ ch ∈ 'A' :: 'M' :: name,
        (fun c2 => c2 ≠ '*' : Char → Bool) ch = true := by
      intro ch hch
      simp only [ne_eq, decide_eq_true_eq]
      rcases List.mem_cons.mp hch with rfl | hch
      · decide
      rcases List.mem_cons.mp hch with rfl | hch
      · decide
      · exact fun heq => hs (heq ▸ hch)
    cases content with
    | nil =>
      have he : 'A' :: 'M' :: (name ++ '*' :: ([] : Str)) =
          ('A' :: 'M' :: name) ++ ['*'] := by simp
      rw [he, parseExtendedCommand_eq (stripTrailingStar_concat _)]
      show parseApertureMacro ('A' :: 'M' :: name) = GNode.apertureMacro name []
      have htw : ('A' :: 'M' :: name).takeWhile (fun c2 => c2 ≠ '*') =
          'A' :: 'M' :: name := takeWhile_all hnamechars
      have hstep : parseApertureMacro ('A' :: 'M' :: name) =
          (if (('A' :: 'M' :: name).takeWhile (fun c2 => c2 ≠ '*')).length =
              ('A' :: 'M' :: name).length
           then GNode.apertureMacro (('A' :: 'M' :: name).drop 2) []
           else GNode.apertureMacro
             ((('A' :: 'M' :: name).takeWhile (fun c2 => c2 ≠ '*')).drop 2)
             (stripTrailingStar (('A' :: 'M' :: name).drop
               ((('A' :: 'M' :: name).takeWhile (fun c2 => c2 ≠ '*')).length + 1)))) := rfl
      rw [hstep, htw, if_pos rfl]
      rfl
    | cons c0 crest =>
      obtain ⟨v, hv⟩ := Option.isSome_iff_exists.mp
        (by simp [List.getLast?_isSome] :
          (((c0 :: crest) : Str).getLast?).isSome = true)
      have hvstar : v ≠ '*' := by
        intro hveq
        subst hveq
        exact hlast hv
      have hglast : ('A' :: 'M' :: (name ++ '*' :: (c0 :: crest))).getLast? = some v := by
        rw [show 'A' :: 'M' :: (name ++ '*' :: (c0 :: crest)) =
          ('A' :: 'M' :: (name ++ ['*'])) ++ (c0 :: crest) from by simp]
        rw [List.getLast?_append, hv]
        rfl
      have hstrip : stripTrailingStar ('A' :: 'M' :: (name ++ '*' :: (c0 :: crest))) =
          'A' :: 'M' :: (name ++ '*' :: (c0 :: crest)) := by
        rw [stripTrailingStar, hglast, if_neg (by simpa using hvstar)]
      rw [parseExtendedCommand_eq hstrip]
      show parseApertureMacro ('A' :: 'M' :: (name ++ '*' :: (c0 :: crest))) =
        GNode.apertureMacro name (c0 :: crest)
      have htw : ('A' :: 'M' :: (name ++ '*' :: (c0 :: crest))).takeWhile
          (fun c2 => c2 ≠ '*') = 'A' :: 'M' :: name := by
        rw [show 'A' :: 'M' :: (name ++ '*' :: (c0 :: crest)) =
          ('A' :: 'M' :: name) ++ '*' :: (c0 :: crest) from by simp]
        rw [takeWhile_append_all _ hnamechars]
        rw [takeWhile_head_neg (fun c2 hc2 => by
          simp only [List.head?_cons, Option.some.injEq] at hc2
          subst hc2
          decide)]
        exact List.append_nil _
      have hlen : (('A' :: 'M' :: name) : Str).length ≠
          ('A' :: 'M' :: (name ++ '*' :: (c0 :: crest))).length := by simp
      have hstep : parseApertureMacro ('A' :: 'M' :: (name ++ '*' :: (c0 :: crest))) =
          (if (('A' :: 'M' :: (name ++ '*' :: (c0 :: crest))).takeWhile
              (fun c2 => c2 ≠ '*')).length =
              ('A' :: 'M' :: (name ++ '*' :: (c0 :: crest))).length
           then GNode.apertureMacro
             (('A' :: 'M' :: (name ++ '*' :: (c0 :: crest))).drop 2) []
           else GNode.apertureMacro
             ((('A' :: 'M' :: (name ++ '*' :: (c0 :: crest))).takeWhile
               (fun c2 => c2 ≠ '*')).drop 2)
             (stripTrailingStar (('A' :: 'M' :: (name ++ '*' :: (c0 :: crest))).drop
               ((('A' :: 'M' :: (name ++ '*' :: (c0 :: crest))).takeWhile
                 (fun c2 => c2 ≠ '*')).length + 1)))) := rfl
      rw [hstep, htw, if_neg hlen]
      have hdrop : ('A' :: 'M' :: (name ++ '*' :: (c0 :: crest))).drop
          ((('A' :: 'M' :: name) : Str).length + 1) = c0 :: crest := by
        rw [show 'A' :: 'M' :: (name ++ '*' :: (c0 :: crest)) =
          (('A' :: 'M' :: name) ++ ['*']) ++ (c0 :: crest) from by simp]
        rw [show (('A' :: 'M' :: name) : Str).length + 1 =
          (('A' :: 'M' :: name) ++ ['*']).length from by simp]
        exact List.drop_left _ _
      rw [hdrop, stripTrailingStar, hv, if_neg (by simpa using hvstar)]
      rfl

theorem matchAD_print_none (code : ℕ) (t0 : Char) (trun : Str)
    (ht0 : isWordStart t0 = true) (htr : ∀ ch ∈ trun, isWordChar ch = true) :
    matchAD ('A' :: 'D' :: 'D' :: (printNat code ++ (t0 :: trun))) =
      some (code, t0 :: trun, none) := by
  have hstep : matchAD ('A' :: 'D' :: 'D' :: (printNat code ++ (t0 :: trun))) =
      (if ((printNat code ++ (t0 :: trun)).takeWhile Char.isDigit).isEmpty then none
       else
         (match (printNat code ++ (t0 :: trun)).drop
             (((printNat code ++ (t0 :: trun)).takeWhile Char.isDigit).length) with
          | t1 :: tr =>
            if isWordStart t1 then
              (match tr.drop ((tr.takeWhile isWordChar).length) with
               | [] => some (parseNatDigits
                   ((printNat code ++ (t0 :: trun)).takeWhile Char.isDigit),
                   t1 :: tr.takeWhile isWordChar, none)
               | ',' :: ps => some (parseNatDigits
                   ((printNat code ++ (t0 :: trun)).takeWhile Char.isDigit),
                   t1 :: tr.takeWhile isWordChar, some ps)
               | _ => none)
            else none
          | [] => none)) := rfl
  have hds : (printNat code ++ (t0 :: trun)).takeWhile Char.isDigit = printNat code :=
    takeWhile_digits_print code (fun ch h => by
      simp only [List.head?_cons, Option.some.injEq] at h
      subst h
      exact (isWordStart_facts ht0).1)
  rw [hstep, hds, if_neg (by
    simp only [List.isEmpty_iff]
    exact printNat_ne_nil code), List.drop_left]
  show (if isWordStart t0 then
      (match trun.drop ((trun.takeWhile isWordChar).length) with
       | [] => some (parseNatDigits (printNat code), t0 :: trun.takeWhile isWordChar, none)
       | ',' :: ps => some (parseNatDigits (printNat code),
           t0 :: trun.takeWhile isWordChar, some ps)
       | _ => none)
    else none) = some (code, t0 :: trun, none)
  rw [if_pos ht0, takeWhile_all htr, List.drop_length, parseNatDigits_printNat]

theorem matchAD_print_some (code : ℕ) (t0 : Char) (trun : Str) (ps : Str)
    (ht0 : isWordStart t0 = true) (htr : ∀ ch ∈ trun, isWordChar ch = true) :
    matchAD ('A' :: 'D' :: 'D' :: (printNat code ++ (t0 :: (trun ++ ',' :: ps)))) =
      some (code, t0 :: trun, some ps) := by
  have hstep : matchAD ('A' :: 'D' :: 'D' :: (printNat code ++ (t0 :: (trun ++ ',' :: ps)))) =
      (if ((printNat code ++ (t0 :: (trun ++ ',' :: ps))).takeWhile Char.isDigit).isEmpty
       then none
       else
         (match (printNat code ++ (t0 :: (trun ++ ',' :: ps))).drop
             (((printNat code ++ (t0 :: (trun ++ ',' :: ps))).takeWhile
               Char.isDigit).length) with
          | t1 :: tr =>
            if isWordStart t1 then
              (match tr.drop ((tr.takeWhile isWordChar).length) with
               | [] => some (parseNatDigits
                   ((printNat code ++ (t0 :: (trun ++ ',' :: ps))).takeWhile Char.isDigit),
                   t1 :: tr.takeWhile isWordChar, none)
               | ',' :: ps2 => some (parseNatDigits
                   ((printNat code ++ (t0 :: (trun ++ ',' :: ps))).takeWhile Char.isDigit),
                   t1 :: tr.takeWhile isWordChar, some ps2)
               | _ => none)
            else none
          | [] => none)) := rfl
  have hds : (printNat code ++ (t0 :: (trun ++ ',' :: ps))).takeWhile Char.isDigit =
      printNat code :=
    takeWhile_digits_print code (fun ch h => by
      simp only [List.head?_cons, Option.some.injEq] at h
      subst h
      exact (isWordStart_facts ht0).1)
  rw [hstep, hds, if_neg (by
    simp only [List.isEmpty_iff]
    exact printNat_ne_nil code), List.drop_left]
  show (if isWordStart t0 then
      (match (trun ++ ',' :: ps).drop
          (((trun ++ ',' :: ps).takeWhile isWordChar).length) with
       | [] => some (parseNatDigits (printNat code),
           t0 :: (trun ++ ',' :: ps).takeWhile isWordChar, none)
       | ',' :: ps2 => some (parseNatDigits (printNat code),
           t0 :: (trun ++ ',' :: ps).takeWhile isWordChar, some ps2)
       | _ => none)
    else none) = some (code, t0 :: trun, some ps)
  have htw : (trun ++ ',' :: ps).takeWhile isWordChar = trun := by
    rw [takeWhile_append_all _ htr, takeWhile_head_neg (fun c2 hc2 => by
      simp only [List.head?_cons, Option.some.injEq] at hc2
      subst hc2
      decide)]
    exact List.append_nil _
  rw [if_pos ht0, htw, List.drop_left, parseNatDigits_printNat]
  rfl

theorem map_parseFloat_printJsNum {params : List (Option ℚ)}
    (hps : ∀ p ∈ params, ∀ q, p = some q → IsDec q) :
    (params.map printJsNum).map parseFloat = params := by
  induction params with
  | nil => rfl
  | cons p ps ih =>
    simp only [List.map_cons]
    rw [parseFloat_printJsNum (fun q hq => hps p (by simp) q hq),
      ih (fun p2 hp2 q hq => hps p2 (by simp [hp2]) q hq)]

theorem nrt_apertureDefinition {code : ℕ} {t0 : Char} {trun : Str}
    (ht0 : isWordStart t0 = true) (htr : ∀ ch ∈ trun, isWordChar ch = true)
    {params : List (Option ℚ)}
    (hps : ∀ p ∈ params, ∀ q, p = some q → IsDec q) :
    NodeRT (GNode.apertureDefinition code (t0 :: trun) params) := by
  cases params with
  | nil =>
    refine Or.inl ⟨('A' :: 'D' :: 'D' :: (printNat code ++ (t0 :: trun))) ++ ['*'],
      ?_, ?_, ?_⟩
    · simp [GNode.getString, List.append_assoc]
    · intro hm
      simp only [List.mem_append, List.mem_cons, List.not_mem_nil, or_false] at hm
      rcases hm with (h | h | h | hpn | h | htm) | h
      · exact absurd h (by decide)
      · exact absurd h (by decide)
      · exact absurd h (by decide)
      · exact not_mem_printNat (by decide) code hpn
      · exact (isWordStart_facts ht0).2.1 h.symm
      · exact (isWordChar_facts (htr _ htm)).1 rfl
      · exact absurd h (by decide)
    · rw [parseExtendedCommand_eq (stripTrailingStar_concat _)]
      show parseApertureDefinition ('A' :: 'D' :: 'D' ::
        (printNat code ++ (t0 :: trun))) = GNode.apertureDefinition code (t0 :: trun) []
      simp only [parseApertureDefinition, matchAD_print_none code t0 trun ht0 htr]
  | cons p0 prest =>
    refine Or.inl ⟨('A' :: 'D' :: 'D' :: (printNat code ++ (t0 :: (trun ++ ',' ::
      joinSep 'X' ((p0 :: prest).map printJsNum))))) ++ ['*'], ?_, ?_, ?_⟩
    · simp [GNode.getString, List.append_assoc]
    · intro hm
      simp only [List.mem_append, List.mem_cons, List.not_mem_nil, or_false] at hm
      rcases hm with (h | h | h | hpn | h | htm | h | hjm) | h
      · exact absurd h (by decide)
      · exact absurd h (by decide)
      · exact absurd h (by decide)
      · exact not_mem_printNat (by decide) code hpn
      · exact (isWordStart_facts ht0).2.1 h.symm
      · exact (isWordChar_facts (htr _ htm)).1 rfl
      · exact absurd h (by decide)
      · rcases joinSep_mem hjm with heq | ⟨p, hpmem, hin⟩
        · exact absurd heq (by decide)
        · obtain ⟨a, _, ha2⟩ := List.mem_map.mp hpmem
          rw [← ha2] at hin
          exact printJsNum_not_mem (by decide) (by decide) (by decide) (by decide)
            (by decide) hin
      · exact absurd h (by decide)
    · rw [parseExtendedCommand_eq (stripTrailingStar_concat _)]
      show parseApertureDefinition ('A' :: 'D' :: 'D' :: (printNat code ++ (t0 ::
        (trun ++ ',' :: joinSep 'X' ((p0 :: prest).map printJsNum))))) =
        GNode.apertureDefinition code (t0 :: trun) (p0 :: prest)
      simp only [parseApertureDefinition, matchAD_print_some code t0 trun
        (joinSep 'X' ((p0 :: prest).map printJsNum)) ht0 htr]
      have hne : joinSep 'X' ((p0 :: prest).map printJsNum) ≠ [] := by
        have hmap : (p0 :: prest).map printJsNum =
            printJsNum p0 :: prest.map printJsNum := rfl
        rw [hmap]
        exact joinSep_ne_nil _ (printJsNum_ne_nil p0)
      rw [if_neg (by
        simp only [List.isEmpty_iff]
        exact hne)]
      rw [splitChar_joinSep (by simp) (fun p hp => by
        obtain ⟨a, _, ha2⟩ := List.mem_map.mp hp
        rw [← ha2]
        exact printJsNum_not_mem (by decide) (by decide) (by decide) (by decide)
          (by decide))]
      rw [map_parseFloat_printJsNum hps]

-- ===========================================================================
-- Round-trip analysis (C1): per-token round trips
-- ===========================================================================

theorem matchAD_shape {content : Str} {code : ℕ} {tpl : Str} {pso : Option Str}
    (h : matchAD content = some (code, tpl, pso)) :
    ∃ t0 trun, tpl = t0 :: trun ∧ isWordStart t0 = true ∧
      ∀ ch ∈ trun, isWordChar ch = true := by
  rw [matchAD.eq_def] at h
  split at h
  · rename_i r
    replace h :
        (if ((r.takeWhile Char.isDigit)).isEmpty then (none : Option (ℕ × Str × Option Str))
         else
           (match r.drop ((r.takeWhile Char.isDigit).length) with
            | t1 :: tr =>
              if isWordStart t1 then
                (match tr.drop ((tr.takeWhile isWordChar).length) with
                 | [] => some (parseNatDigits (r.takeWhile Char.isDigit),
                     t1 :: tr.takeWhile isWordChar, none)
                 | ',' :: ps2 => some (parseNatDigits (r.takeWhile Char.isDigit),
                     t1 :: tr.takeWhile isWordChar, some ps2)
                 | _ => none)
              else none
            | [] => none)) = some (code, tpl, pso) := h
    split_ifs at h
    split at h
    · rename_i t1 tr heq
      split_ifs at h with h2
      · split at h
        · injection h with h
          obtain ⟨h5, h6, h7⟩ : parseNatDigits (r.takeWhile Char.isDigit) = code ∧
              t1 :: tr.takeWhile isWordChar = tpl ∧ (none : Option Str) = pso := by
            simpa [Prod.ext_iff] using h
          refine ⟨t1, tr.takeWhile isWordChar, h6.symm, h2, ?_⟩
          intro ch hch
          exact List.mem_takeWhile_imp hch
        · injection h with h
          obtain ⟨h5, h6, h7⟩ : parseNatDigits (r.takeWhile Char.isDigit) = code ∧
              t1 :: tr.takeWhile isWordChar = tpl ∧ _ = pso := by
            simpa [Prod.ext_iff] using h
          refine ⟨t1, tr.takeWhile isWordChar, h6.symm, h2, ?_⟩
          intro ch hch
          exact List.mem_takeWhile_imp hch
        · exact absurd h (by simp)
    · exact absurd h (by simp)
  · exact absurd h (by simp)

theorem splitChar_mem_subset {sep : Char} : ∀ {s : Str} {p : Str}, p ∈ splitChar sep s →
    ∀ ch ∈ p, ch ∈ s := by
  intro s
  induction s with
  | nil =>
    intro p hp ch hch
    simp only [splitChar, List.mem_singleton] at hp
    subst hp
    simp at hch
  | cons c cs ih =>
    intro p hp ch hch
    cases hsc : splitChar sep cs with
    | nil => exact absurd hsc (splitChar_ne_nil sep cs)
    | cons q qs =>
      by_cases hc : c = sep
      · simp only [splitChar, hsc, hc, eq_self_iff_true, if_true, List.mem_cons] at hp
        rcases hp with rfl | rfl | hp
        · simp at hch
        · exact List.mem_cons_of_mem _
            (ih (by rw [hsc]; exact List.mem_cons_self p qs) ch hch)
        · exact List.mem_cons_of_mem _
            (ih (by rw [hsc]; exact List.mem_cons_of_mem q hp) ch hch)
      · simp only [splitChar, hsc, if_neg hc, List.mem_cons] at hp
        rcases hp with rfl | hp
        · rcases List.mem_cons.mp hch with rfl | hch
          · exact List.mem_cons_self ch cs
          · exact List.mem_cons_of_mem _
              (ih (by rw [hsc]; exact List.mem_cons_self q qs) ch hch)
        · exact List.mem_cons_of_mem _
            (ih (by rw [hsc]; exact List.mem_cons_of_mem q hp) ch hch)

theorem cmd_tail_rt {v : Str} (hs : '*' ∉ v) (hh : CmdHead v)
    (hpc0 : parseCommand v = parseCommandTail v) :
    NodeRT (parseCommandTail v) := by
  rw [parseCommandTail]
  split_ifs with ho hg
  · exact nrt_operation _ _ _ _ _
  · rw [show parseGCodeOperation v =
      (match gRest v with
       | none => GNode.setInterpolationMode (imodeOfNat ((gDigit v).getD 1))
       | some rest =>
         if rest.isEmpty then GNode.setInterpolationMode (imodeOfNat ((gDigit v).getD 1))
         else
           (match findDCode rest with
            | some dc => GNode.operation (dcodeOfNat dc) (findIntAfter 'X' rest)
                (findIntAfter 'Y' rest) (findIntAfter 'I' rest) (findIntAfter 'J' rest)
            | none => GNode.setInterpolationMode (imodeOfNat ((gDigit v).getD 1)))) from rfl]
    cases hgr : gRest v with
    | none => exact nrt_imode _
    | some rest =>
      show NodeRT (if rest.isEmpty then
          GNode.setInterpolationMode (imodeOfNat ((gDigit v).getD 1))
        else
          (match findDCode rest with
           | some dc => GNode.operation (dcodeOfNat dc) (findIntAfter 'X' rest)
               (findIntAfter 'Y' rest) (findIntAfter 'I' rest) (findIntAfter 'J' rest)
           | none => GNode.setInterpolationMode (imodeOfNat ((gDigit v).getD 1))))
      by_cases hre : rest.isEmpty
      · rw [if_pos hre]
        exact nrt_imode _
      · rw [if_neg hre]
        cases hdc : findDCode rest with
        | some dc => exact nrt_operation _ _ _ _ _
        | none => exact nrt_imode _
  · exact Or.inr ⟨v, rfl, hs, hh, by
      rw [hpc0, parseCommandTail, if_neg ho, if_neg hg]⟩

theorem cmd_token_rt {v : Str} (hs : '*' ∉ v) (hh : CmdHead v) :
    NodeRT (parseCommand v) := by
  rw [parseCommand]
  by_cases h1 : (hasPre ['G', '0', '1'] v || decide (v = ['G', '1'])) = true
  · rw [if_pos h1]; exact nrt_imode _
  rw [if_neg h1]
  by_cases h2 : (hasPre ['G', '0', '2'] v || decide (v = ['G', '2'])) = true
  · rw [if_pos h2]; exact nrt_imode _
  rw [if_neg h2]
  by_cases h3 : (hasPre ['G', '0', '3'] v || decide (v = ['G', '3'])) = true
  · rw [if_pos h3]; exact nrt_imode _
  rw [if_neg h3]
  by_cases h4 : hasPre ['G', '7', '4'] v = true
  · rw [if_pos h4]; exact nrt_imode _
  rw [if_neg h4]
  by_cases h5 : hasPre ['G', '7', '5'] v = true
  · rw [if_pos h5]; exact nrt_imode _
  rw [if_neg h5]
  by_cases h6 : (hasPre ['G', '0', '4'] v || hasPre ['G', '4'] v) = true
  case pos =>
    rw [if_pos h6]
    apply nrt_comment (fun hm => hs (stripCommentPrefix_mem hm))
    rcases Bool.or_eq_true _ _ |>.mp h6 with hA | hB
    · obtain ⟨r, hr⟩ := hasPre_iff_append.mp hA
      rw [hr]
      have hrw : stripCommentPrefix (['G', '0', '4'] ++ r) = r.dropWhile isJsWs := rfl
      rw [hrw, dropWhile_idem]
    · by_cases hA2 : hasPre ['G', '0', '4'] v = true
      · obtain ⟨r2, hr2⟩ := hasPre_iff_append.mp hA2
        rw [hr2]
        have hrw : stripCommentPrefix (['G', '0', '4'] ++ r2) = r2.dropWhile isJsWs := rfl
        rw [hrw, dropWhile_idem]
      · obtain ⟨r, hr⟩ := hasPre_iff_append.mp hB
        rw [hr]
        have hrw : stripCommentPrefix (['G', '4'] ++ r) = r.dropWhile isJsWs := by
          cases r with
          | nil => rfl
          | cons c0 r0 =>
            by_cases hc0 : c0 = '0'
            · subst hc0
              rfl
            · rfl
        rw [hrw, dropWhile_idem]
  rw [if_neg h6]
  by_cases h7 : v = ['G', '3', '6']
  · rw [if_pos h7]; exact nrt_regionStart
  rw [if_neg h7]
  by_cases h8 : v = ['G', '3', '7']
  · rw [if_pos h8]; exact nrt_regionEnd
  rw [if_neg h8]
  by_cases h9 : v = ['M', '0', '2'] ∨ v = ['M', '0', '0'] ∨ v = ['M', '2'] ∨ v = ['M', '0']
  · rw [if_pos h9]; exact nrt_endOfFile
  rw [if_neg h9]
  cases hma : matchAperture v with
  | none =>
    have hpc0 : parseCommand v = parseCommandTail v := by
      rw [parseCommand, if_neg h1, if_neg h2, if_neg h3, if_neg h4, if_neg h5,
        if_neg h6, if_neg h7, if_neg h8, if_neg h9, hma]
    exact cmd_tail_rt hs hh hpc0
  | some code =>
    show NodeRT (if 10 ≤ code then GNode.selectAperture code else parseCommandTail v)
    by_cases h10 : 10 ≤ code
    · rw [if_pos h10]; exact nrt_selectAperture h10
    · have hpc0 : parseCommand v = parseCommandTail v := by
        rw [parseCommand, if_neg h1, if_neg h2, if_neg h3, if_neg h4, if_neg h5,
          if_neg h6, if_neg h7, if_neg h8, if_neg h9, hma]
        show (if 10 ≤ code then GNode.selectAperture code else parseCommandTail v) =
          parseCommandTail v
        rw [if_neg h10]
      rw [if_neg h10]
      exact cmd_tail_rt hs hh hpc0

theorem tokenizeLoop_not_eof : ∀ f s t, t ∈ tokenizeLoop f s →
    t.type ≠ TokType.eof := by
  intro f
  induction f with
  | zero => intro s t h; simp [tokenizeLoop] at h
  | succ f ih =>
    intro s t h
    cases hd : s.dropWhile isTokWs with
    | nil =>
      simp only [tokenizeLoop, hd] at h
      simp at h
    | cons c cs =>
      simp only [tokenizeLoop, hd] at h
      by_cases hc : c = '%'
      · rw [if_pos hc] at h
        rcases List.mem_cons.mp h with h | h
        · subst h; exact fun ht => nomatch ht
        · exact ih _ _ h
      · rw [if_neg hc] at h
        rcases List.mem_cons.mp h with h | h
        · subst h; exact fun ht => nomatch ht
        · exact ih _ _ h

theorem parseTokens_append_eof : ∀ ts : List Token,
    (∀ t ∈ ts, t.type ≠ TokType.eof) →
    parseTokens (ts ++ [Token.mk .eof []]) = parseTokens ts := by
  intro ts
  induction ts with
  | nil => intro _; rfl
  | cons t ts ih =>
    intro hne
    have ht : t.type ≠ TokType.eof := hne t (List.mem_cons_self t ts)
    rw [List.cons_append, parseTokens, parseTokens, if_neg ht, if_neg ht]
    rw [ih (fun u hu => hne u (List.mem_cons_of_mem t hu))]

theorem tokenizeAux_ws_all : ∀ r : Str, (∀ c ∈ r, isTokWs c = true) →
    tokenizeAux r = [] := by
  intro r
  induction r with
  | nil => intro _; rfl
  | cons c cs ih =>
    intro hall
    rw [tokenizeAux_ws (hall c (List.mem_cons_self c cs))]
    exact ih (fun x hx => hall x (List.mem_cons_of_mem c hx))

theorem tokenizeAux_node {n : GNode} (hn : NodeRT n) (r : Str) :
    ∃ t, tokenizeAux (GNode.getString n ++ r) = t :: tokenizeAux r ∧
      parseToken t = some n ∧ t.type ≠ TokType.eof := by
  rcases hn with ⟨e, hg, hp, hpe⟩ | ⟨c, hg, hsc, hh, hpc⟩
  · refine ⟨Token.mk .extendedCommand e, ?_, ?_, fun ht => nomatch ht⟩
    · rw [hg, show ('%' :: (e ++ ['%'])) ++ r = '%' :: (e ++ '%' :: r) from by simp]
      exact tokenizeAux_ext e r hp
    · show some (parseExtendedCommand e) = some n
      rw [hpe]
  · refine ⟨Token.mk .command c, ?_, ?_, fun ht => nomatch ht⟩
    · rw [hg, show (c ++ ['*']) ++ r = c ++ '*' :: r from by simp]
      exact tokenizeAux_cmd c r hsc hh
    · show some (parseCommand c) = some n
      rw [hpc]

/-- The content field `parseApertureMacro` stores for a given token body. -/
def amContent (content : Str) : Str :=
  let pre := content.takeWhile (fun c2 => c2 ≠ '*')
  if pre.length = content.length then []
  else stripTrailingStar (content.drop (pre.length + 1))

/-- Extended-command token values whose parse result serializes back to an
equivalent token: the three quirky families are excluded (FS bodies shorter
than four characters, AM bodies whose stored content still ends in a star,
TD with an empty dotted attribute name). -/
def extOK (value : Str) : Bool :=
  (!hasPre ['F', 'S'] (stripTrailingStar value) ||
    decide (4 ≤ (stripTrailingStar value).length)) &&
  (!hasPre ['A', 'M'] (stripTrailingStar value) ||
    decide ((amContent (stripTrailingStar value)).getLast? ≠ some '*')) &&
  (!hasPre ['T', 'D'] (stripTrailingStar value) ||
    decide ((stripTrailingStar value).drop 2 ≠ ['.']))

theorem stripTrailingStar_mem {l : Str} {ch : Char} (h : ch ∈ stripTrailingStar l) :
    ch ∈ l := by
  rw [stripTrailingStar] at h
  split at h
  · exact (List.dropLast_sublist l).subset h
  · exact h

theorem getD_zero_isDec {o : Option ℚ} (h : ∀ q, o = some q → IsDec q) :
    IsDec (o.getD 0) := by
  cases o with
  | none => exact isDec_zero
  | some q => exact h q rfl

theorem ext_token_rt {v : Str} (hp : '%' ∉ v) (hok : extOK v = true) :
    NodeRT (parseExtendedCommand v) := by
  have hpc : '%' ∉ stripTrailingStar v := fun hm => hp (stripTrailingStar_mem hm)
  have hdropm : ∀ (k : ℕ) {ch : Char}, ch ∈ (stripTrailingStar v).drop k → ch ∈ v :=
    fun k _ hm => stripTrailingStar_mem ((List.drop_sublist k _).subset hm)
  obtain ⟨⟨hok1, hok2⟩, hok3⟩ :
      ((!hasPre ['F', 'S'] (stripTrailingStar v) ||
        decide (4 ≤ (stripTrailingStar v).length)) = true ∧
       (!hasPre ['A', 'M'] (stripTrailingStar v) ||
        decide ((amContent (stripTrailingStar v)).getLast? ≠ some '*')) = true) ∧
      (!hasPre ['T', 'D'] (stripTrailingStar v) ||
        decide ((stripTrailingStar v).drop 2 ≠ ['.'])) = true := by
    simpa only [extOK, Bool.and_eq_true] using hok
  rw [parseExtendedCommand_eq rfl]
  by_cases hFS : hasPre ['F', 'S'] (stripTrailingStar v) = true
  case pos =>
    rw [if_pos hFS]
    have hlen : 4 ≤ (stripTrailingStar v).length := by
      simpa [hFS] using hok1
    obtain ⟨r0, hr0⟩ := hasPre_iff_append.mp hFS
    cases r0 with
    | nil => rw [hr0] at hlen; simp at hlen
    | cons z r1 =>
      cases r1 with
      | nil => rw [hr0] at hlen; simp at hlen
      | cons c2 r2 =>
        have hz : z ≠ '%' := by
          rintro rfl
          exact hpc (by rw [hr0]; simp)
        have hc2 : c2 ≠ '%' := by
          rintro rfl
          exact hpc (by rw [hr0]; simp)
        rw [hr0]
        show NodeRT (GNode.formatSpecification (some z) (some c2)
          (match findDD 'X' (z :: c2 :: r2) with | some p => p.1 | none => 2)
          (match findDD 'X' (z :: c2 :: r2) with | some p => p.2 | none => 6)
          (match findDD 'Y' (z :: c2 :: r2) with | some p => p.1 | none => 2)
          (match findDD 'Y' (z :: c2 :: r2) with | some p => p.2 | none => 6))
        cases hdd1 : findDD 'X' (z :: c2 :: r2) with
        | none =>
          cases hdd2 : findDD 'Y' (z :: c2 :: r2) with
          | none =>
            show NodeRT (GNode.formatSpecification (some z) (some c2) 2 6 2 6)
            exact nrt_formatSpec hz hc2 (by decide) (by decide) (by decide) (by decide)
          | some q =>
            show NodeRT (GNode.formatSpecification (some z) (some c2) 2 6 q.1 q.2)
            exact nrt_formatSpec hz hc2 (by decide) (by decide)
              (findDD_le 'Y' _ q hdd2).1 (findDD_le 'Y' _ q hdd2).2
        | some p =>
          cases hdd2 : findDD 'Y' (z :: c2 :: r2) with
          | none =>
            show NodeRT (GNode.formatSpecification (some z) (some c2) p.1 p.2 2 6)
            exact nrt_formatSpec hz hc2 (findDD_le 'X' _ p hdd1).1
              (findDD_le 'X' _ p hdd1).2 (by decide) (by decide)
          | some q =>
            show NodeRT (GNode.formatSpecification (some z) (some c2) p.1 p.2 q.1 q.2)
            exact nrt_formatSpec hz hc2 (findDD_le 'X' _ p hdd1).1
              (findDD_le 'X' _ p hdd1).2 (findDD_le 'Y' _ q hdd2).1
              (findDD_le 'Y' _ q hdd2).2
  rw [if_neg hFS]
  by_cases hMO : hasPre ['M', 'O'] (stripTrailingStar v) = true
  · rw [if_pos hMO]
    exact nrt_unitMode (fun hm => hp (hdropm 2 hm))
  rw [if_neg hMO]
  by_cases hAD : hasPre ['A', 'D'] (stripTrailingStar v) = true
  case pos =>
    rw [if_pos hAD]
    show NodeRT (match matchAD (stripTrailingStar v) with
      | none => GNode.apertureDefinition 10 ['C'] []
      | some (code, tpl, pso) =>
        GNode.apertureDefinition code tpl
          (match pso with
           | some ps => if ps.isEmpty then [] else (splitChar 'X' ps).map parseFloat
           | none => []))
    cases hmad : matchAD (stripTrailingStar v) with
    | none =>
      exact nrt_apertureDefinition (by decide)
        (fun ch hch => absurd hch (List.not_mem_nil ch))
        (fun p hp2 => absurd hp2 (List.not_mem_nil p))
    | some x =>
      obtain ⟨code, tpl, pso⟩ := x
      obtain ⟨t0, trun, rfl, ht0, htr⟩ := matchAD_shape hmad
      cases pso with
      | none =>
        exact nrt_apertureDefinition ht0 htr
          (fun p hp2 => absurd hp2 (List.not_mem_nil p))
      | some ps =>
        show NodeRT (GNode.apertureDefinition code (t0 :: trun)
          (if ps.isEmpty then [] else (splitChar 'X' ps).map parseFloat))
        by_cases hpe : ps.isEmpty
        · rw [if_pos hpe]
          exact nrt_apertureDefinition ht0 htr
            (fun p hp2 => absurd hp2 (List.not_mem_nil p))
        · rw [if_neg hpe]
          refine nrt_apertureDefinition ht0 htr ?_
          intro p hp2 q hq
          obtain ⟨a, _, ha2⟩ := List.mem_map.mp hp2
          rw [← ha2] at hq
          exact parseFloat_isDec hq
  rw [if_neg hAD]
  by_cases hAM : hasPre ['A', 'M'] (stripTrailingStar v) = true
  case pos =>
    rw [if_pos hAM]
    have hokam : (amContent (stripTrailingStar v)).getLast? ≠ some '*' := by
      simpa [hAM] using hok2
    show NodeRT (if (((stripTrailingStar v).takeWhile (fun c => c ≠ '*'))).length =
        (stripTrailingStar v).length
      then GNode.apertureMacro ((stripTrailingStar v).drop 2) []
      else GNode.apertureMacro
        (((stripTrailingStar v).takeWhile (fun c => c ≠ '*')).drop 2)
        (stripTrailingStar ((stripTrailingStar v).drop
          (((stripTrailingStar v).takeWhile (fun c => c ≠ '*')).length + 1))))
    by_cases heq : (((stripTrailingStar v).takeWhile (fun c => c ≠ '*'))).length =
        (stripTrailingStar v).length
    · rw [if_pos heq]
      have hall := takeWhile_eq_self_of_length heq
      refine nrt_apertureMacro ?_ (fun hm => hp (hdropm 2 hm)) ?_ ?_
      · intro hm
        have := hall '*' ((List.drop_sublist 2 _).subset hm)
        simp at this
      · exact List.not_mem_nil '%'
      · simp
    · rw [if_neg heq]
      have hamc : amContent (stripTrailingStar v) =
          stripTrailingStar ((stripTrailingStar v).drop
            (((stripTrailingStar v).takeWhile (fun c => c ≠ '*')).length + 1)) := by
        show (if (((stripTrailingStar v).takeWhile (fun c => c ≠ '*'))).length =
            (stripTrailingStar v).length then []
          else stripTrailingStar ((stripTrailingStar v).drop
            (((stripTrailingStar v).takeWhile (fun c => c ≠ '*')).length + 1))) = _
        rw [if_neg heq]
      refine nrt_apertureMacro ?_ ?_ ?_ ?_
      · intro hm
        have := List.mem_takeWhile_imp ((List.drop_sublist 2 _).subset hm)
        simp at this
      · intro hm
        exact hpc ((List.takeWhile_sublist _).subset
          ((List.drop_sublist 2 _).subset hm))
      · intro hm
        exact hp (hdropm _ (stripTrailingStar_mem hm))
      · rw [← hamc]
        exact hokam
  rw [if_neg hAM]
  by_cases hLP : hasPre ['L', 'P'] (stripTrailingStar v) = true
  · rw [if_pos hLP]
    exact nrt_loadPolarity (fun hm => hp (hdropm 2 hm))
  rw [if_neg hLP]
  by_cases hLM : hasPre ['L', 'M'] (stripTrailingStar v) = true
  · rw [if_pos hLM]
    exact nrt_loadMirroring (fun hm => hp (hdropm 2 hm))
  rw [if_neg hLM]
  by_cases hLR : hasPre ['L', 'R'] (stripTrailingStar v) = true
  · rw [if_pos hLR]
    exact nrt_loadRotation (fun q hq => parseFloat_isDec hq)
  rw [if_neg hLR]
  by_cases hLS : hasPre ['L', 'S'] (stripTrailingStar v) = true
  · rw [if_pos hLS]
    exact nrt_loadScaling (fun q hq => parseFloat_isDec hq)
  rw [if_neg hLS]
  by_cases hSR : hasPre ['S', 'R'] (stripTrailingStar v) = true
  case pos =>
    rw [if_pos hSR]
    show NodeRT (if ((stripTrailingStar v).drop 2).isEmpty then GNode.stepRepeat 1 1 0 0
      else GNode.stepRepeat
        ((findNatAfter 'X' ((stripTrailingStar v).drop 2)).getD 1)
        ((findNatAfter 'Y' ((stripTrailingStar v).drop 2)).getD 1)
        ((findNumAfter 'I' ((stripTrailingStar v).drop 2)).getD 0)
        ((findNumAfter 'J' ((stripTrailingStar v).drop 2)).getD 0))
    by_cases hre : ((stripTrailingStar v).drop 2).isEmpty
    · rw [if_pos hre]
      exact nrt_stepRepeat isDec_zero isDec_zero
    · rw [if_neg hre]
      exact nrt_stepRepeat
        (getD_zero_isDec (fun q hq => findNumAfter_isDec hq))
        (getD_zero_isDec (fun q hq => findNumAfter_isDec hq))
  rw [if_neg hSR]
  by_cases hTF : hasPre ['T', 'F', '.'] (stripTrailingStar v) = true
  case pos =>
    rw [if_pos hTF]
    cases hsp : splitChar ',' ((stripTrailingStar v).drop 3) with
    | nil => exact absurd hsp (splitChar_ne_nil ',' _)
    | cons nm vs =>
      have hats : attrSplit ((stripTrailingStar v).drop 3) = (nm, vs) := by
        rw [attrSplit, hsp]
      rw [hats]
      exact nrt_fileAttribute
        (splitChar_no_sep ',' _ nm (hsp ▸ List.mem_cons_self nm vs))
        (fun hm => hp (hdropm 3
          (splitChar_mem_subset (hsp ▸ List.mem_cons_self nm vs) '%' hm)))
        (fun p hp2 => splitChar_no_sep ',' _ p (hsp ▸ List.mem_cons_of_mem nm hp2))
        (fun p hp2 hm => hp (hdropm 3
          (splitChar_mem_subset (hsp ▸ List.mem_cons_of_mem nm hp2) '%' hm)))
  rw [if_neg hTF]
  by_cases hTA : hasPre ['T', 'A', '.'] (stripTrailingStar v) = true
  case pos =>
    rw [if_pos hTA]
    cases hsp : splitChar ',' ((stripTrailingStar v).drop 3) with
    | nil => exact absurd hsp (splitChar_ne_nil ',' _)
    | cons nm vs =>
      have hats : attrSplit ((stripTrailingStar v).drop 3) = (nm, vs) := by
        rw [attrSplit, hsp]
      rw [hats]
      exact nrt_apertureAttribute
        (splitChar_no_sep ',' _ nm (hsp ▸ List.mem_cons_self nm vs))
        (fun hm => hp (hdropm 3
          (splitChar_mem_subset (hsp ▸ List.mem_cons_self nm vs) '%' hm)))
        (fun p hp2 => splitChar_no_sep ',' _ p (hsp ▸ List.mem_cons_of_mem nm hp2))
        (fun p hp2 hm => hp (hdropm 3
          (splitChar_mem_subset (hsp ▸ List.mem_cons_of_mem nm hp2) '%' hm)))
  rw [if_neg hTA]
  by_cases hTO : hasPre ['T', 'O', '.'] (stripTrailingStar v) = true
  case pos =>
    rw [if_pos hTO]
    cases hsp : splitChar ',' ((stripTrailingStar v).drop 3) with
    | nil => exact absurd hsp (splitChar_ne_nil ',' _)
    | cons nm vs =>
      have hats : attrSplit ((stripTrailingStar v).drop 3) = (nm, vs) := by
        rw [attrSplit, hsp]
      rw [hats]
      exact nrt_objectAttribute
        (splitChar_no_sep ',' _ nm (hsp ▸ List.mem_cons_self nm vs))
        (fun hm => hp (hdropm 3
          (splitChar_mem_subset (hsp ▸ List.mem_cons_self nm vs) '%' hm)))
        (fun p hp2 => splitChar_no_sep ',' _ p (hsp ▸ List.mem_cons_of_mem nm hp2))
        (fun p hp2 hm => hp (hdropm 3
          (splitChar_mem_subset (hsp ▸ List.mem_cons_of_mem nm hp2) '%' hm)))
  rw [if_neg hTO]
  by_cases hTD : hasPre ['T', 'D'] (stripTrailingStar v) = true
  case pos =>
    rw [if_pos hTD]
    have hoktd : (stripTrailingStar v).drop 2 ≠ ['.'] := by
      simpa [hTD] using hok3
    show NodeRT (match (stripTrailingStar v).drop 2 with
      | '.' :: nm => GNode.deleteAttribute (some nm)
      | _ => GNode.deleteAttribute none)
    split
    · rename_i nm heq
      refine nrt_deleteAttribute_some ?_ ?_
      · rintro rfl
        exact hoktd heq
      · intro hm
        exact hp (hdropm 2 (heq ▸ List.mem_cons_of_mem '.' hm))
    · exact nrt_deleteAttribute_none
  rw [if_neg hTD]
  by_cases hIP : hasPre ['I', 'P'] (stripTrailingStar v) = true
  · rw [if_pos hIP]
    exact nrt_setImagePolarity (fun hm => hp (hdropm 2 hm))
  rw [if_neg hIP]
  by_cases hOF : hasPre ['O', 'F'] (stripTrailingStar v) = true
  · rw [if_pos hOF]
    exact nrt_setOffset
      (getD_zero_isDec (fun q hq => findNumAfter_isDec hq))
      (getD_zero_isDec (fun q hq => findNumAfter_isDec hq))
  rw [if_neg hOF]
  refine Or.inl ⟨v, rfl, hp, ?_⟩
  rw [parseExtendedCommand_eq rfl, if_neg hFS, if_neg hMO, if_neg hAD, if_neg hAM,
    if_neg hLP, if_neg hLM, if_neg hLR, if_neg hLS, if_neg hSR, if_neg hTF,
    if_neg hTA, if_neg hTO, if_neg hTD, if_neg hIP, if_neg hOF]

theorem parseTokens_rt : ∀ ts : List Token,
    (∀ t ∈ ts, TokOK t ∧ (t.type = TokType.extendedCommand → extOK t.value = true)) →
    ∀ n ∈ parseTokens ts, NodeRT n := by
  intro ts
  induction ts with
  | nil => intro _ n hn; simp [parseTokens] at hn
  | cons t ts ih =>
    intro hall n hn
    rw [parseTokens] at hn
    split_ifs at hn with heof
    · simp at hn
    · obtain ⟨⟨hcmd, hext⟩, hok⟩ := hall t (List.mem_cons_self t ts)
      have hih := ih (fun u hu => hall u (List.mem_cons_of_mem t hu))
      cases htt : t.type with
      | eof => exact absurd htt heof
      | extendedCommand =>
        have hpt : parseToken t = some (parseExtendedCommand t.value) := by
          rw [parseToken, htt]
        rw [hpt] at hn
        replace hn : n ∈ parseExtendedCommand t.value :: parseTokens ts := hn
        rcases List.mem_cons.mp hn with rfl | hn
        · exact ext_token_rt (hext htt) (hok htt)
        · exact hih n hn
      | command =>
        have hpt : parseToken t = some (parseCommand t.value) := by
          rw [parseToken, htt]
        rw [hpt] at hn
        replace hn : n ∈ parseCommand t.value :: parseTokens ts := hn
        rcases List.mem_cons.mp hn with rfl | hn
        · exact cmd_token_rt (hcmd htt).1 (hcmd htt).2
        · exact hih n hn

theorem reparse_list : ∀ ns : List GNode, (∀ n ∈ ns, NodeRT n) →
    ∀ r : Str, (∀ ch ∈ r, isTokWs ch = true) →
    parseTokens (tokenizeAux (joinSep '\n' (ns.map GNode.getString) ++ r)) = ns := by
  intro ns
  induction ns with
  | nil =>
    intro _ r hr
    show parseTokens (tokenizeAux (joinSep '\n' [] ++ r)) = []
    rw [show joinSep '\n' ([] : List Str) = [] from rfl, List.nil_append,
      tokenizeAux_ws_all r hr]
    rfl
  | cons n ns ih =>
    intro hall r hr
    cases ns with
    | nil =>
      have hj : joinSep '\n' ([n].map GNode.getString) = GNode.getString n := rfl
      rw [hj]
      obtain ⟨t, ht1, ht2, ht3⟩ := tokenizeAux_node (hall n (List.mem_cons_self n [])) r
      rw [ht1, tokenizeAux_ws_all r hr, parseTokens, if_neg ht3, ht2]
      rfl
    | cons n2 ns2 =>
      have hj : joinSep '\n' ((n :: n2 :: ns2).map GNode.getString) =
          GNode.getString n ++ '\n' ::
            joinSep '\n' ((n2 :: ns2).map GNode.getString) := rfl
      rw [hj]
      rw [show (GNode.getString n ++ '\n' ::
          joinSep '\n' ((n2 :: ns2).map GNode.getString)) ++ r =
        GNode.getString n ++
          ('\n' :: (joinSep '\n' ((n2 :: ns2).map GNode.getString) ++ r)) from by simp]
      obtain ⟨t, ht1, ht2, ht3⟩ := tokenizeAux_node (hall n (List.mem_cons_self n _))
        ('\n' :: (joinSep '\n' ((n2 :: ns2).map GNode.getString) ++ r))
      rw [ht1, tokenizeAux_ws (show isTokWs '\n' = true from by decide) _,
        parseTokens, if_neg ht3, ht2]
      show n :: parseTokens (tokenizeAux
          (joinSep '\n' ((n2 :: ns2).map GNode.getString) ++ r)) = n :: n2 :: ns2
      rw [ih (fun m hm => hall m (List.mem_cons_of_mem n hm)) r hr]

/-- Whether a node is the catch-all `UnknownCommand`. -/
def GNode.isUnknown : GNode → Bool
  | .unknownCommand _ => true
  | _ => false

/-- A source whose only node is an aperture macro holding a star-terminated
body: `%AMn*x***%`. -/
def amSrc : Str := ['%', 'A', 'M', 'n', '*', 'x', '*', '*', '*', '%']

/-- A small well-formed source: `%MOMM*%`, a newline, `X5D02*`. -/
def srcC1 : Str :=
  ['%', 'M', 'O', 'M', 'M', '*', '%', '\n', 'X', '5', 'D', '0', '2', '*']

/-- Characters that extend a numeric literal: digits and the dot. -/
def isNumCh (c : Char) : Bool := c.isDigit || c = '.'

/-- A maximal numeric run stays inside the range on which JavaScript
number handling is faithfully decimal: at most 15 leading integer digits
(so `parseInt`/`parseFloat` land below `2^53`, where `parseInt` is exact)
and at most 6 characters after the first dot (so a nonzero value is at
least `10^-6`).  Within these bounds `String` of the stored number never
uses exponential notation, its shortest-decimal output reparses to the
same value, and the `ℕ`/`ℤ`/`ℚ` model coincides with the program. -/
def runOK (r : Str) : Bool :=
  (r.takeWhile Char.isDigit).length ≤ 15 &&
  r.length ≤ (r.takeWhile Char.isDigit).length + 7

/-- `numRunsOK` over explicit fuel (a numeric run is nonempty, so the
fuel never runs out when it starts at `length + 1`). -/
def numRunsOKAux : ℕ → Str → Bool
  | 0, _ => true
  | _ + 1, [] => true
  | f + 1, c :: cs =>
    if isNumCh c then
      runOK ((c :: cs).takeWhile isNumCh) &&
        numRunsOKAux f ((c :: cs).drop ((c :: cs).takeWhile isNumCh).length)
    else numRunsOKAux f cs

/-- Every maximal run of digit-or-dot characters in a token text
satisfies `runOK`. -/
def numRunsOK (s : Str) : Bool := numRunsOKAux (s.length + 1) s

/-- C1 (corrected): for every source string whose tokens keep every numeric
literal inside the faithful decimal range (`numRunsOK`: each maximal
digit-or-dot run has at most 15 leading integer digits and at most 6
characters after its first dot — beyond that JS rounds `parseInt` results
past `2^53` and `String` prints magnitudes `≥ 10^21`, or nonzero ones
`< 10^-6`, in exponential notation, which the digit-only scanners do not
reparse: the program fails on `X1000000000000000000000D01*`, whose stored
coordinate serializes as `X1e+21`) and whose extended-command tokens also
satisfy `extOK` (excluding `FS` bodies shorter than four characters after
star-stripping, `AM` bodies whose stored macro content still ends in a
star, and `TD` with an empty dotted attribute name), parsing, serializing
the document with `getString`, and parsing again yields a node list equal
to the one obtained by parsing once.  The claim as frozen, with only
"tokens all match recognized productions" as the hypothesis, is refuted by
`c1_roundtrip_counterexample`. -/
theorem c1_roundtrip (s : Str)
    (hok : ∀ t ∈ tokenize s,
      (t.type = TokType.extendedCommand → extOK t.value = true) ∧
      numRunsOK t.value = true) :
    parseGerber (docGetString (parseGerber s)) = parseGerber s := by
  have hrt : ∀ n ∈ parseGerber s, NodeRT n := by
    intro n hn
    refine parseTokens_rt (tokenize s) ?_ n hn
    intro t ht
    exact ⟨tokenize_ok s t ht, (hok t ht).1⟩
  show parseTokens (tokenize (docGetString (parseGerber s))) = parseGerber s
  rw [tokenize, docGetString]
  rw [parseTokens_append_eof
    (tokenizeAux (joinSep '\n' ((parseGerber s).map GNode.getString) ++ ['\n']))
    (fun t ht => tokenizeLoop_not_eof _ _ t ht)]
  exact reparse_list (parseGerber s) hrt ['\n'] (by decide)

/-- Witness for C1 at the concrete source `%MOMM*%\nX5D02*`. -/
theorem c1_roundtrip_witness :
    (∀ t ∈ tokenize srcC1,
      (t.type = TokType.extendedCommand → extOK t.value = true) ∧
      numRunsOK t.value = true) ∧
    parseGerber (docGetString (parseGerber srcC1)) = parseGerber srcC1 :=
  ⟨by decide, c1_roundtrip srcC1 (by decide)⟩

/-- C1 counterexample to the claim as stated: parsing `%AMn*x***%` yields
only recognised nodes (no `UnknownCommand` appears), yet parsing the
document's serialization does not reproduce the node list — the stored
aperture-macro content `x*` serializes to `%AMn*x*%` whose reparse stores
`x` instead. -/
theorem c1_roundtrip_counterexample :
    (parseGerber amSrc).all (fun n => ! n.isUnknown) = true ∧
    parseGerber (docGetString (parseGerber amSrc)) ≠ parseGerber amSrc := by
  constructor <;> decide

end Gerberts
